import Mathlib

/-!
# Npackd command line client: a verification development

A shallow embedding of `npackdcl/src/app.cpp` (the command functions of `App`) and the
data they work on.  Classes whose source is not part of the three files at hand
(`Version`, `Job`, the repository, the command line, Qt) appear either as definitions
modelled from the specification or as fields of the environment `Env`, which holds what
each collaborator answers when the code calls it.
-/

namespace Npackd

/-! ## Data model -/

/-- Version number: the sequence of its parts, e.g. `1.5.12` is `[1, 5, 12]`. -/
structure Version where
  parts : List Nat
deriving DecidableEq, Repr

/-- Part `i` of a version; a missing trailing part counts as zero. -/
def Version.part (l : List Nat) (i : Nat) : Nat := l.getD i 0

/-- Compares the parts `i, i + 1, ..., i + n - 1` of two part lists, stopping at the first
difference. -/
def Version.compareFrom (a b : List Nat) : Nat → Nat → Int
  | 0, _ => 0
  | n + 1, i =>
    if Version.part a i < Version.part b i then -1
    else if Version.part b i < Version.part a i then 1
    else Version.compareFrom a b n (i + 1)

/-- Modelled from the spec: `Version::compare` (class `Version` is not among the sources).
"Comparison is lexicographic over parts; missing trailing parts are treated as zero."
The result is negative, zero or positive. -/
def Version.compare (a b : Version) : Int :=
  Version.compareFrom a.parts b.parts (max a.parts.length b.parts.length) 0

/-- Dependency on a package with a range of versions. -/
structure Dependency where
  package : String
  minIncluded : Bool
  min : Version
  maxIncluded : Bool
  max : Version
deriving DecidableEq, Repr

/-- Package: the internal (dotted) name and the display title. -/
structure Package where
  name : String
  title : String
deriving DecidableEq, Repr

/-- One version of a package. `package` is the internal name of the package. -/
structure PackageVersion where
  package : String
  version : Version
  dependencies : List Dependency
deriving DecidableEq, Repr

/-- A `QUrl` as far as the commands look at it: its string form `toString()` and whether it
is valid (`isValid()`). -/
structure QUrl where
  text : String
  valid : Bool
deriving DecidableEq, Repr

/-- An installed package version as the detection reports it: package, version and the
directory it is installed in. -/
structure InstalledPackageVersion where
  package : String
  version : Version
  directory : String
deriving DecidableEq, Repr

/-- Planned installation (`install = true`) or removal of one package version. -/
structure InstallOperation where
  install : Bool
  package : String
  version : Version
deriving DecidableEq, Repr

/-- The element type of the list sorted in `sortPackageVersionsByPackageTitle`:
`QPair<PackageVersion*, QString>`. -/
abbrev TitledVersion := PackageVersion × String

/-- Operator `QString::operator<`: lexicographic comparison of the characters. -/
def qLess (a b : String) : Bool := decide (a.toList < b.toList)

/-- Method `QString::startsWith(t)`: the characters of `t` are the first characters of
`s`. -/
def qStartsWith (s t : String) : Bool := t.toList.isPrefixOf s.toList

/-- Method `QString::right(n)`: the `n` rightmost characters of `s`. -/
def qRight (s : String) (n : Nat) : String := String.mk (s.toList.drop (s.toList.length - n))

/-! ## Jobs -/

/-- A call made on a job that concerns its progress, in the order of the calls. -/
inductive JobEvent where
  | newSubJob (weight : ℚ) (title : String)
  | completeWithProgress (weight : ℚ)
  | setProgress (p : ℚ)
  | complete
deriving DecidableEq

/-- Modelled from the spec: class `Job` (its source is not among the files at hand), section
4.4.  A job has a title, a weight within its parent, a progress in `[0, 1]`, an error
message (empty: no error) and a cancellation flag.  The flag is raised from outside the
code that works on the job, so the job carries `cancelAt`: the number of polls after
which it counts as cancelled (`none`: never), and `polls`, the number of polls answered
so far.  `log` keeps the progress calls for inspection. -/
structure Job where
  title : String := ""
  weight : ℚ := 1
  progress : ℚ := 0
  errorMessage : String := ""
  cancelAt : Option Nat := none
  polls : Nat := 0
  completed : Nat := 0
  log : List JobEvent := []

/-- Method `Job::setTitle`. -/
def Job.setTitle (j : Job) (title : String) : Job := { j with title := title }

/-- Method `Job::isCancelled`: the cancellation flag as seen by the next poll. -/
def Job.isCancelled (j : Job) : Bool :=
  match j.cancelAt with
  | some c => decide (c ≤ j.polls)
  | none => false

/-- Method `Job::shouldProceed`: "true iff no error is set and the job has not been cancelled". -/
def Job.shouldProceed (j : Job) : Bool :=
  decide (j.errorMessage = "") && !j.isCancelled

/-- The job after it answered one poll (`shouldProceed()` or `isCancelled()`). -/
def Job.polled (j : Job) : Job := { j with polls := j.polls + 1 }

/-- Method `Job::getErrorMessage`. -/
def Job.getErrorMessage (j : Job) : String := j.errorMessage

/-- Method `Job::setErrorMessage`: "once an error is set it is sticky", and `getErrorMessage`
"returns the first error recorded": a message is recorded when none is set yet. -/
def Job.setErrorMessage (j : Job) (msg : String) : Job :=
  if j.errorMessage = "" then { j with errorMessage := msg } else j

/-- Method `Job::setProgress`: "sets a job's own completion fraction in `[0,1]`, clamped and
monotonic"; a lower value than the current one leaves the progress as it is. -/
def Job.setProgress (j : Job) (p : ℚ) : Job :=
  { j with progress := max j.progress (min 1 (max 0 p)), log := j.log ++ [.setProgress p] }

/-- Method `Job::newSubJob` as seen by the parent: a child of the given weight is created.  The
child itself is `Job.subJob`. -/
def Job.newSubJob (j : Job) (weight : ℚ) (title : String) : Job :=
  { j with log := j.log ++ [.newSubJob weight title] }

/-- The child created by `newSubJob`: a fresh job of the given weight and title.  Its
cancellation comes from outside, like that of its parent. -/
def Job.subJob (weight : ℚ) (title : String) (cancelAt : Option Nat) : Job :=
  { title := title, weight := weight, cancelAt := cancelAt }

/-- Call `sub->completeWithProgress()` as seen by the parent `j` of a child of the given weight:
"advances the parent's aggregate progress by the sub-job's full weighted contribution". -/
def Job.subJobCompleted (j : Job) (weight : ℚ) : Job :=
  { j with progress := min 1 (j.progress + weight),
           log := j.log ++ [.completeWithProgress weight] }

/-- Method `Job::complete`: "finalizes a job". -/
def Job.complete (j : Job) : Job :=
  { j with completed := j.completed + 1, log := j.log ++ [.complete] }

/-! ## The environment of one command invocation -/

/-- Insertion of `x` before the first element it is less than. -/
def insertSorted {α : Type} (lt : α → α → Bool) (x : α) : List α → List α
  | [] => [x]
  | y :: ys => if lt x y then x :: y :: ys else y :: insertSorted lt x ys

/-- Insertion sort driven by a less-than test: one sorting routine that meets the contract
of Qt's `qSort`; used for examples. -/
def insertionSort {α : Type} (lt : α → α → Bool) : List α → List α
  | [] => []
  | x :: xs => insertSorted lt x (insertionSort lt xs)

/-- Replacement of every character `a` by `b`, `QString::replace(QChar, QChar)`. -/
def replaceChar (s : String) (a b : Char) : String :=
  String.mk (s.toList.map fun c => if c = a then b else c)

/-- The parsed command line (class `CommandLine`, not among the sources): what its
accessors return.  A null `QString` is `none`. -/
structure CommandLine where
  parse : String := ""
  isPresent : String → Bool := fun _ => false
  get : String → Option String := fun _ => none
  getAll : String → List String := fun _ => []
  getFreeArguments : List String := []

/-- A call of a collaborator, with the arguments and results a reader of the trace may
want to see. -/
inductive Event where
  | readRegistryDatabase (err : String)
  | refresh (err : String)
  | getInstalled (err : String)
  | findPackage (name : String)
  | findPackagesByShortName (name : String)
  | planUpdates (packages : List Package) (err : String) (ops : List InstallOperation)
  | planInstallation (pv : PackageVersion) (err : String)
  | planUninstallation (pv : PackageVersion) (err : String)
  | processInstallOperations (ops : List InstallOperation) (programCloseType : Nat)
  | process (ops : List InstallOperation) (programCloseType : Nat)
  | copyFile (source target : String) (ok : Bool)
  | writeFile (file text : String) (ok : Bool)
  | createProcess (prg args : String) (ok : Bool)
  | findPackages (onlyInstalled : Bool) (query : Option String)
  | fetchPackages (names : List String)
  | findPath (d : Dependency)
  | findOnePackage (name : String)
deriving DecidableEq

/-- Everything outside `app.cpp` that a command function consults: the command line, the
cancellation of its jobs, the Qt routines and the repository, registry, file system and
process collaborators, each given by what it answers.  The code under study is a
function of this environment.  The default values describe a machine on which every
call succeeds and nothing is installed; they only serve to write examples down. -/
structure Env where
  /-- the command line `cl` -/
  cl : CommandLine := {}
  /-- cancellation of the job of the command (`clp.createJob()` or `new Job()`) -/
  cancelAt : Option Nat := none
  /-- cancellation of the sub-job handed to `processInstallOperations` -/
  subCancelAt : Option Nat := none
  /-- Routine `QString::toLower` -/
  toLower : String → String := fun s => String.mk (s.toList.map Char.toLower)
  /-- Routine `qSort(begin, end, lessThan)` on a list of pairs -/
  qSort : (TitledVersion → TitledVersion → Bool) → List TitledVersion → List TitledVersion :=
    insertionSort
  /-- Routine `QString::arg(QString)`: `template.arg(a)` is `qarg template a` -/
  qarg : String → String → String := fun t a => t ++ "<" ++ a ++ ">"
  /-- Routine `QString::arg(int)` -/
  qargInt : String → Nat → String := fun t n => t ++ "<" ++ toString n ++ ">"
  /-- Routine `QObject::tr` -/
  tr : String → String := id
  /-- Routine `PackageVersion::getPackageTitle` -/
  getPackageTitle : PackageVersion → String := fun pv => pv.package
  /-- Routine `PackageVersion::toString(bool includeFullPackageName)` -/
  pvToString : Bool → PackageVersion → String := fun _ pv => pv.package
  /-- Routine `PackageVersion::getPath` -/
  getPath : PackageVersion → String := fun _ => ""
  /-- Routine `Dependency::toString(bool includeFullPackageName)` -/
  depToString : Bool → Dependency → String := fun _ d => d.package
  /-- Routine `Dependency::isInstalled` -/
  isInstalled : Dependency → Bool := fun _ => false
  /-- Routine `Version::getVersionString` -/
  getVersionString : Version → String := fun v => ".".intercalate (v.parts.map toString)
  /-- Routine `InstalledPackages::readRegistryDatabase`: the error message -/
  readRegistryDatabase : String := ""
  /-- Routine `InstalledPackages::refresh(rep, job)`: the error message left in the job handed over -/
  refresh : String := ""
  /-- Routine `AbstractRepository::getInstalled_(&err)`: the list and the error message -/
  getInstalled : List PackageVersion × String := ([], "")
  /-- Routine `DBRepository::openDefault(databaseName, readOnly)`, by `readOnly`: the error
  message -/
  openDefault : Bool → String := fun _ => ""
  /-- Constant `WPMUtils::CLOSE_WINDOW` -/
  CLOSE_WINDOW : Nat := 1
  /-- Routine `WPMUtils::getProgramCloseType(cl, &err)`: the value and the error message -/
  getProgramCloseType : Nat × String := (1, "")
  /-- Routine `WPMUtils::programCloseType2String` -/
  programCloseType2String : Nat → String := fun _ => "c"
  /-- Routine `Package::isValidName` -/
  isValidName : String → Bool := fun _ => true
  /-- Routine `DBRepository::findPackage_` -/
  findPackage_ : String → Option Package := fun _ => none
  /-- Routine `DBRepository::findPackagesByShortName` -/
  findPackagesByShortName : String → List Package := fun _ => []
  /-- Routine `DBRepository::planUpdates(packages, ops)`: the error message and the operations -/
  planUpdates : List Package → String × List InstallOperation := fun _ => ("", [])
  /-- Routine `WPMUtils::getPackageVersionOptions(cl, &err, add)`: the versions and the error -/
  getPackageVersionOptions : Bool → List PackageVersion × String := fun _ => ([], "")
  /-- Routine `PackageVersion::planInstallation(installed, ops, avoid)`: the error message and the
  new values of `ops` and `avoid` -/
  planInstallation : PackageVersion → List PackageVersion → List InstallOperation →
      List PackageVersion → String × List InstallOperation × List PackageVersion :=
    fun pv _ ops avoid => ("", ops ++ [⟨true, pv.package, pv.version⟩], avoid)
  /-- Routine `PackageVersion::planUninstallation(installed, ops)`: the error message and the new
  value of `ops` -/
  planUninstallation : PackageVersion → List PackageVersion → List InstallOperation →
      String × List InstallOperation :=
    fun pv _ ops => ("", ops ++ [⟨false, pv.package, pv.version⟩])
  /-- Routine `DBRepository::includesRemoveItself` -/
  includesRemoveItself : List InstallOperation → Bool := fun _ => false
  /-- Routine `DBRepository::process(job, ops, programCloseType)`: the error message it leaves in
  the job (empty: none) -/
  process : List InstallOperation → Nat → String := fun _ _ => ""
  /-- Routine `WPMUtils::getExeFile` -/
  getExeFile : String := "npackdcl.exe"
  /-- Routine `QTemporaryFile::open` for the copy of the executable -/
  exeOpen : Bool := true
  /-- Routine `errorString()` of that file after a failed `open` -/
  exeOpenError : String := "cannot open"
  /-- Routine `fileName()` of that file -/
  exeFileName : String := "npackdcl1.exe"
  /-- Routine `remove()` of that file -/
  exeRemove : Bool := true
  /-- Routine `errorString()` of that file after a failed `remove` -/
  exeRemoveError : String := "cannot remove"
  /-- Routine `QFile::copy(source, target)` -/
  copy : String → String → Bool := fun _ _ => true
  /-- Routine `QTemporaryFile::open` for the `.bat` file -/
  batOpen : Bool := true
  /-- Routine `errorString()` of the `.bat` file after a failed `open` -/
  batOpenError : String := "cannot open"
  /-- Routine `fileName()` of the `.bat` file -/
  batFileName : String := "npackdcl1.bat"
  /-- whether the text stream is `QTextStream::Ok` after the text was written -/
  streamOk : String → Bool := fun _ => true
  /-- Routine `WPMUtils::findCmdExe` -/
  findCmdExe : String := "cmd.exe"
  /-- Routine `CreateProcess(prg, args, ...)` -/
  createProcess : String → String → Bool := fun _ _ => true
  /-- Routine `DBRepository::findPackages(Package::INSTALLED, onlyInstalled, query, -1, -1,
  &err)`: the package names and the error message -/
  findPackages : Bool → Option String → List String × String := fun _ _ => ([], "")
  /-- Routine `DBRepository::findPackages(packageNames)`: the packages of these names -/
  fetchPackages : List String → List Package := fun _ => []
  /-- Routine `qSort(begin, end, lessThan)` on a list of packages -/
  qSortPackages : (Package → Package → Bool) → List Package → List Package := insertionSort
  /-- Routine `QString::trimmed` -/
  trimmed : String → String := fun s =>
    String.mk ((s.toList.dropWhile Char.isWhitespace).reverse.dropWhile
      Char.isWhitespace).reverse
  /-- Routine `QUrl::setUrl(url, QUrl::StrictMode)` on a new `QUrl`: the resulting URL -/
  setUrl : String → QUrl := fun url => ⟨url, true⟩
  /-- Routine `AbstractRepository::getRepositoryURLs(&err)`: the stored list and the error
  message -/
  getRepositoryURLs : List QUrl × String := ([], "")
  /-- Routine `AbstractRepository::setRepositoryURLs(urls, &err)`: the error message -/
  setRepositoryURLs : List QUrl → String := fun _ => ""
  /-- Routine `InstalledPackages::findPath_npackdcl(dep)` -/
  findPath_npackdcl : Dependency → String := fun _ => ""
  /-- Routine `Dependency::setVersions(versions)` on a dependency: the dependency with the
  range parsed from the text, or `none` when the text cannot be parsed -/
  setVersions : Dependency → String → Option Dependency := fun _ _ => none
  /-- Routine `WPMUtils::findOnePackage(package, &err)`: the package, if any, and the error
  message -/
  findOnePackage : String → Option Package × String := fun _ => (none, "")
  /-- Constructor `Dependency()` (class `Dependency` is not among the sources): the
  default-constructed dependency.  The spec gives it the range `[0, +infinity)`. -/
  newDependency : Dependency := ⟨"", true, ⟨[0, 0]⟩, false, ⟨[1, 0]⟩⟩
  /-- Routine `Dependency::findHighestInstalledMatch()` -/
  findHighestInstalledMatch : Dependency → Option InstalledPackageVersion := fun _ => none
  /-- Routine `AbstractRepository::findPackageVersion_(package, version, &err)`: the package
  version, if any, and the error message -/
  findPackageVersion_ : String → Version → Option PackageVersion × String :=
    fun _ _ => (none, "")
  /-- Routine `Dependency::findBestMatchToInstall(avoid, &err)`, by the dependency and
  `avoid`: the package version, if any, and the error message -/
  findBestMatchToInstall : Dependency → List PackageVersion → Option PackageVersion × String :=
    fun _ _ => (none, "")
  /-- Routine `PackageVersion::installed()` -/
  pvInstalled : PackageVersion → Bool := fun _ => false

/-! ## Sorting package versions (`app.cpp`, lines 19-61) -/

/-- The comparator `compareByPackageTitle`: versions of one package are compared by
version, versions of different packages by the lower-cased title. -/
def compareByPackageTitle (env : Env) (e1 e2 : TitledVersion) : Bool :=
  let pv1 := e1.1
  let pv2 := e2.1
  if pv1.package = pv2.package then
    decide (pv1.version.compare pv2.version < 0)
  else
    let pt1 := e1.2
    let pt2 := e2.2
    qLess (env.toLower pt1) (env.toLower pt2)

/-- First loop of `sortPackageVersionsByPackageTitle`: every package version is paired
with its package title and appended to `items`. -/
def App.pairWithTitles (env : Env) : List PackageVersion → List TitledVersion →
    List TitledVersion
  | [], items => items
  | pv :: rest, items =>
    let s := env.getPackageTitle pv
    App.pairWithTitles env rest (items ++ [(pv, s)])

/-- Second loop of `sortPackageVersionsByPackageTitle`, from index `i` for `n` more rounds:
`(*list)[i] = items.at(i).first; titles.append(items.at(i).second)`.  Reading `items`
beyond its end stops the loop. -/
def App.writeBack (items : List TitledVersion) :
    Nat → Nat → List PackageVersion → List String → List PackageVersion × List String
  | 0, _, list, titles => (list, titles)
  | n + 1, i, list, titles =>
    match items.get? i with
    | some item => App.writeBack items n (i + 1) (list.set i item.1) (titles ++ [item.2])
    | none => (list, titles)

/-- The function `App::sortPackageVersionsByPackageTitle`: returns the reordered list (the
source reorders it in place) and the list of titles. -/
def App.sortPackageVersionsByPackageTitle (env : Env) (list : List PackageVersion) :
    List PackageVersion × List String :=
  let items := App.pairWithTitles env list []
  let items := env.qSort (compareByPackageTitle env) items
  App.writeBack items list.length 0 list []

/-! ## Running a command -/

/-- The state a command function threads through its steps: its job, the texts given to
`WPMUtils::outputTextConsole` so far and the calls of collaborators so far. -/
structure Run where
  job : Job
  out : List String := []
  calls : List Event := []

/-- What a command function leaves behind: the returned error message, the console output,
the calls of collaborators and the job of the command as it was when deleted. -/
structure Result where
  err : String
  out : List String
  calls : List Event
  job : Job

/-- The job a command starts with: `clp.createJob()` (or `new Job()`).  That the job made by
`clp` also reports its progress on the console is not modelled. -/
def Job.create (cancelAt : Option Nat) : Job := { cancelAt := cancelAt }

/-- The step shared by `check`, `list`, `update`, `add`, `remove` and `detect`:
`if (job->shouldProceed()) { Job* sub = job->newSubJob(weight, ...); QString err =
ip->readRegistryDatabase(); if (!err.isEmpty()) job->setErrorMessage(err); else
sub->completeWithProgress(); }`. -/
def App.readRegistry (env : Env) (weight : ℚ) (r : Run) : Run :=
  if r.job.shouldProceed then
    let job := r.job.polled.newSubJob weight
      "Reading list of installed packages from the registry"
    let err := env.readRegistryDatabase
    let calls := r.calls ++ [Event.readRegistryDatabase err]
    if err ≠ "" then
      { r with job := job.setErrorMessage err, calls := calls }
    else
      { r with job := job.subJobCompleted weight, calls := calls }
  else
    { r with job := r.job.polled }

/-- The step shared by `update`, `add` and `remove`: `if (job->shouldProceed()) { Job* rjob
= job->newSubJob(weight, "Detecting installed software"); refresh(rep, rjob); if
(!rjob->getErrorMessage().isEmpty()) job->setErrorMessage(rjob->getErrorMessage()); }`. -/
def App.detectInstalled (env : Env) (weight : ℚ) (r : Run) : Run :=
  if r.job.shouldProceed then
    let job := r.job.polled.newSubJob weight "Detecting installed software"
    let rjobError := env.refresh
    let calls := r.calls ++ [Event.refresh rjobError]
    if rjobError ≠ "" then
      { r with job := job.setErrorMessage rjobError, calls := calls }
    else
      { r with job := job, calls := calls }
  else
    { r with job := r.job.polled }

/-! ## `App::check` (lines 371-440) -/

/-- Second step of `check`: the refresh, whose error message is ignored ("ignoring the
error message here as check should be available for non-admins too"). -/
def App.checkRefresh (env : Env) (r : Run) : Run :=
  if r.job.shouldProceed then
    let job := r.job.polled.newSubJob (1/2) "Refreshing the list of installed packages"
    { r with job := job, calls := r.calls ++ [Event.refresh env.refresh] }
  else
    { r with job := r.job.polled }

/-- Third step of `check`: `list = rep->getInstalled_(&err)`. -/
def App.checkGetInstalled (env : Env) (r : Run) : Run × List PackageVersion :=
  if r.job.shouldProceed then
    let job := r.job.polled
    let list := env.getInstalled.1
    let err := env.getInstalled.2
    let calls := r.calls ++ [Event.getInstalled err]
    if err = "" then
      ({ r with job := job.setProgress (9/10), calls := calls }, list)
    else
      ({ r with job := job.setErrorMessage err, calls := calls }, list)
  else
    ({ r with job := r.job.polled }, [])

/-- The text of one line of the report of `check`. -/
def App.checkLine (env : Env) (pv : PackageVersion) (d : Dependency) : String :=
  env.qarg (env.qarg "%1 depends on %2, which is not installed\n" (env.pvToString true pv))
    (env.depToString true d)

/-- Inner loop of the report of `check` over the dependencies of `pv`; the state is the
console output and the counter `n`. -/
def App.checkDependencies (env : Env) (pv : PackageVersion) :
    List Dependency → List String × Nat → List String × Nat
  | [], acc => acc
  | d :: ds, (out, n) =>
    if !env.isInstalled d then
      App.checkDependencies env pv ds (out ++ [App.checkLine env pv d], n + 1)
    else
      App.checkDependencies env pv ds (out, n)

/-- Outer loop of the report of `check` over the installed package versions. -/
def App.checkVersions (env : Env) :
    List PackageVersion → List String × Nat → List String × Nat
  | [], acc => acc
  | pv :: pvs, acc => App.checkVersions env pvs (App.checkDependencies env pv pv.dependencies acc)

/-- Fourth step of `check`, the report. -/
def App.checkReport (env : Env) (r : Run) (list : List PackageVersion) : Run :=
  if r.job.shouldProceed then
    let list := (App.sortPackageVersionsByPackageTitle env list).1
    let job := r.job.polled.setProgress 1
    let (out, n) := App.checkVersions env list (r.out, 0)
    if n = 0 then
      { r with job := job, out := out ++ ["All dependencies are installed\n"] }
    else
      { r with job := job, out := out }
  else
    { r with job := r.job.polled }

/-- The state of `check` before its report. -/
def App.checkBeforeReport (env : Env) : Run × List PackageVersion :=
  let job := (Job.create env.cancelAt).setTitle
    "Checking dependency integrity for the installed packages"
  let r : Run := { job := job }
  let r := App.readRegistry env (1/100) r
  let r := App.checkRefresh env r
  App.checkGetInstalled env r

/-- The function `App::check`. -/
def App.check (env : Env) : Result :=
  let (r, list) := App.checkBeforeReport env
  let r := App.checkReport env r list
  { err := r.job.getErrorMessage, out := r.out, calls := r.calls, job := r.job }

/-! ## `App::list` (lines 492-554) -/

/-- The printing loop of `list`, from index `i`. -/
def App.listPrint (env : Env) (bare : Bool) (titles : List String) :
    List PackageVersion → Nat → List String → List String
  | [], _, out => out
  | pv :: rest, i, out =>
    if !bare then
      App.listPrint env bare titles rest (i + 1)
        (out ++ [env.pvToString false pv ++ " (" ++ pv.package ++ ")\n"])
    else
      App.listPrint env bare titles rest (i + 1)
        (out ++ [pv.package ++ " " ++ env.getVersionString pv.version ++ " " ++
          titles.getD i "" ++ "\n"])

/-- The function `App::list`. -/
def App.list (env : Env) : Result :=
  let err := ""
  let bare := env.cl.isPresent "bare-format"
  let job := if bare then Job.create env.cancelAt else Job.create env.cancelAt
  let job := job.setTitle "Listing package versions"
  let r : Run := { job := job }
  -- the error message of readRegistryDatabase goes to a variable local to the block
  let r := App.readRegistry env (1/100) r
  let (r, list, titles, err) :=
    if r.job.shouldProceed then
      let job := r.job.polled.newSubJob (99/100)
        "Getting the list of installed packages from the registry"
      let list := env.getInstalled.1
      let err := env.getInstalled.2
      let calls := r.calls ++ [Event.getInstalled err]
      if err = "" then
        let sorted := App.sortPackageVersionsByPackageTitle env list
        let job := (job.subJobCompleted (99/100)).setProgress 1
        ({ r with job := job, calls := calls }, sorted.1, sorted.2, err)
      else
        ({ r with job := job, calls := calls }, list, [], err)
    else
      ({ r with job := r.job.polled }, [], [], err)
  let out :=
    if err = "" then
      let out :=
        if !bare then
          r.out ++ [env.qargInt "%1 package versions found:\n\n" list.length]
        else r.out
      App.listPrint env bare titles list 0 out
    else r.out
  { err := err, out := out, calls := r.calls, job := r.job }

/-! ## `App::processInstallOperations` (lines 905-1038) -/

/-- The command line of one operation in the generated `.bat` file. -/
def App.oneCmd (env : Env) (newExe pct : String) (op : InstallOperation) : String :=
  let oneCmd := "\"" ++ newExe ++ "\" "
  if op.install then
    oneCmd ++ ("add -p " ++ op.package ++ " -v " ++
      env.getVersionString op.version ++
      " || ping 1.1.1.1 -n 1 -w 10000 > nul || exit /b %errorlevel%")
  else
    oneCmd ++ ("remove -p " ++ op.package ++ " -v " ++
      env.getVersionString op.version ++
      " -e " ++ pct ++
      " || ping 1.1.1.1 -n 1 -w 10000 > nul || exit /b %errorlevel%")

/-- The loop that fills `batch`: `for (int i = 0; i < ops.count(); i++) { ...
batch.append(oneCmd); }`. -/
def App.batchLoop (env : Env) (newExe pct : String) :
    List InstallOperation → List String → List String
  | [], batch => batch
  | op :: rest, batch => App.batchLoop env newExe pct rest (batch ++ [App.oneCmd env newExe pct op])

/-- First step of the self-update: the executable is copied to a temporary file.  Returns
the state and `newExe`. -/
def App.copyExecutable (env : Env) (r : Run) : Run × String :=
  if r.job.shouldProceed then
    let job := r.job.polled.newSubJob (8/10) "Copying the executable"
    let thisExe := env.getExeFile
    if !env.exeOpen then
      ({ r with job := job.setErrorMessage env.exeOpenError }, "")
    else
      let newExe := env.exeFileName
      if !env.exeRemove then
        ({ r with job := job.setErrorMessage env.exeRemoveError }, newExe)
      else
        let ok := env.copy thisExe newExe
        let calls := r.calls ++ [Event.copyFile thisExe newExe ok]
        if !ok then
          ({ r with job := job.setErrorMessage "Error copying the binary", calls := calls },
            newExe)
        else
          ({ r with job := job.subJobCompleted (8/10), calls := calls }, newExe)
  else
    ({ r with job := r.job.polled }, "")

/-- Second step of the self-update: the `.bat` file is written.  Returns the state and
`batchFileName`. -/
def App.writeBatchFile (env : Env) (ops : List InstallOperation) (programCloseType : Nat)
    (newExe : String) (r : Run) : Run × String :=
  if r.job.shouldProceed then
    let job := r.job.polled
    let pct := env.programCloseType2String programCloseType
    let batch := App.batchLoop env newExe pct ops []
    if !env.batOpen then
      ({ r with job := job.setErrorMessage env.batOpenError }, "")
    else
      let batchFileName := env.batFileName
      let text := "\r\n".intercalate batch
      let ok := env.streamOk text
      let job := if !ok then job.setErrorMessage "Error writing the .bat file" else job
      ({ r with job := job.setProgress (9/10),
                calls := r.calls ++ [Event.writeFile batchFileName text ok] }, batchFileName)
  else
    ({ r with job := r.job.polled }, "")

/-- Third step of the self-update: `cmd.exe` is started on the `.bat` file. -/
def App.startCopiedBinary (env : Env) (batchFileName : String) (r : Run) : Run :=
  if r.job.shouldProceed then
    let job := r.job.polled.newSubJob (1/10) "Starting the copied binary"
    let file_ := replaceChar batchFileName '/' '\\'
    let prg := env.findCmdExe
    let args := "/U /E:ON /V:OFF /C \"\"" ++ file_ ++ "\"\""
    let out := r.out ++ [env.qarg (env.qarg
      (env.tr "Starting update process %1 with parameters %2" ++ "\n") prg) args]
    let args := "\"" ++ prg ++ "\" " ++ args
    let success := env.createProcess prg args
    let job := (job.subJobCompleted (1/10)).setProgress 1
    { job := job, out := out, calls := r.calls ++ [Event.createProcess prg args success] }
  else
    { r with job := r.job.polled }

/-- The function `App::processInstallOperations`; `r.job` is the job passed in. -/
def App.processInstallOperations (env : Env) (ops : List InstallOperation)
    (programCloseType : Nat) (r : Run) : Run :=
  if env.includesRemoveItself ops then
    let (r, newExe) := App.copyExecutable env r
    let (r, batchFileName) := App.writeBatchFile env ops programCloseType newExe r
    let r := App.startCopiedBinary env batchFileName r
    { r with job := r.job.complete }
  else
    let err := env.process ops programCloseType
    { r with job := if err ≠ "" then r.job.setErrorMessage err else r.job,
             calls := r.calls ++ [Event.process ops programCloseType] }

/-- The call `processInstallOperations(ijob, ops, programCloseType)` made by `update`, `add`
and `remove` on a fresh sub-job of weight `weight`; returns the state of the caller with
the output and calls of the callee, and the error message left in the sub-job. -/
def App.runInstallOperations (env : Env) (weight : ℚ) (title : String)
    (ops : List InstallOperation) (programCloseType : Nat) (r : Run) : Run × String :=
  let ijob := Job.subJob weight title env.subCancelAt
  let sub := App.processInstallOperations env ops programCloseType
    { job := ijob, out := r.out,
      calls := r.calls ++ [Event.processInstallOperations ops programCloseType] }
  ({ job := r.job.newSubJob weight title, out := sub.out, calls := sub.calls },
    sub.job.getErrorMessage)

/-! ## `App::update` (lines 768-903) -/

/-- The local variables of `update` together with its running state. -/
structure UpdateState extends Run where
  programCloseType : Nat
  toUpdate : List Package := []
  ops : List InstallOperation := []
  up2date : Bool := false

/-- Step of `update`: `programCloseType = WPMUtils::getProgramCloseType(cl, &err)`. -/
def App.updateCloseType (env : Env) (s : UpdateState) : UpdateState :=
  if s.job.shouldProceed then
    let job := s.job.polled
    let err := env.getProgramCloseType.2
    let s := { s with programCloseType := env.getProgramCloseType.1 }
    if err ≠ "" then { s with job := job.setErrorMessage err } else { s with job := job }
  else
    { s with job := s.job.polled }

/-- Step of `update`: at least one `--package` is required. -/
def App.updateMissingOption (packages_ : List String) (s : UpdateState) : UpdateState :=
  if s.job.shouldProceed then
    let job := s.job.polled
    if packages_.length = 0 then
      { s with job := job.setErrorMessage "Missing option: --package" }
    else
      { s with job := job }
  else
    { s with job := s.job.polled }

/-- The loop that checks the package names: `if (!Package::isValidName(package))
job->setErrorMessage("Invalid package name: " + package);`. -/
def App.updateValidNames (env : Env) : List String → Job → Job
  | [], job => job
  | package :: rest, job =>
    if !env.isValidName package then
      App.updateValidNames env rest (job.setErrorMessage ("Invalid package name: " ++ package))
    else
      App.updateValidNames env rest job

/-- Step of `update`: the package names are checked. -/
def App.updateCheckNames (env : Env) (packages_ : List String) (s : UpdateState) :
    UpdateState :=
  if s.job.shouldProceed then
    { s with job := App.updateValidNames env packages_ s.job.polled }
  else
    { s with job := s.job.polled }

/-- The body of the loop of `update` that finds the packages to update, for one package
name, up to `qDeleteAll(packages)`. -/
def App.updateFindOne (env : Env) (package : String) (s : UpdateState) : UpdateState :=
  let found : List Package × Event :=
    if '.' ∈ package.toList then
      ((match env.findPackage_ package with
        | some p => [p]
        | none => []), Event.findPackage package)
    else
      (env.findPackagesByShortName package, Event.findPackagesByShortName package)
  let packages := found.1
  let s := { s with calls := s.calls ++ [found.2] }
  if s.job.shouldProceed then
    let job := s.job.polled
    if packages.length = 0 then
      { s with job := job.setErrorMessage ("Unknown package: " ++ package) }
    else if packages.length > 1 then
      { s with job := job.setErrorMessage "Ambiguous package name" }
    else
      -- toUpdate.append(packages.at(0)->clone())
      { s with job := job, toUpdate := s.toUpdate ++ packages.take 1 }
  else
    { s with job := s.job.polled }

/-- The loop of `update` that finds the packages to update; it ends at the first name
after which the job should not proceed (`if (!job->shouldProceed()) break;`). -/
def App.updateFindPackages (env : Env) : List String → UpdateState → UpdateState
  | [], s => s
  | package :: rest, s =>
    let s := App.updateFindOne env package s
    if !s.job.shouldProceed then
      { s with job := s.job.polled }
    else
      App.updateFindPackages env rest { s with job := s.job.polled }

/-- Step of `update`: the packages named on the command line are looked up. -/
def App.updateLookup (env : Env) (packages_ : List String) (s : UpdateState) : UpdateState :=
  if s.job.shouldProceed then
    App.updateFindPackages env packages_ { s with job := s.job.polled }
  else
    { s with job := s.job.polled }

/-- Step of `update`: `QString err = rep->planUpdates(toUpdate, ops)`. -/
def App.updatePlan (env : Env) (s : UpdateState) : UpdateState :=
  if s.job.shouldProceed then
    let job := s.job.polled
    let err := (env.planUpdates s.toUpdate).1
    let ops := (env.planUpdates s.toUpdate).2
    let s := { s with ops := ops, calls := s.calls ++ [Event.planUpdates s.toUpdate err ops] }
    if err ≠ "" then
      { s with job := job.setErrorMessage err }
    else
      { s with job := job.setProgress (15/100), up2date := decide (ops.length = 0) }
  else
    { s with job := s.job.polled }

/-- Step of `update`: `if (job->shouldProceed() && !up2date) { Job* ijob =
job->newSubJob(0.85, "Updating"); processInstallOperations(ijob, ops, programCloseType);
... }`. -/
def App.updateProcess (env : Env) (s : UpdateState) : UpdateState :=
  if s.job.shouldProceed && !s.up2date then
    let (r, ijobError) := App.runInstallOperations env (85/100) "Updating" s.ops
      s.programCloseType { s.toRun with job := s.job.polled }
    if ijobError ≠ "" then
      let job := r.job.setErrorMessage (env.qarg "Error updating: %1" ijobError)
      { s with toRun := { r with job := job } }
    else
      { s with toRun := r }
  else
    { s with job := s.job.polled }

/-- The state of `update` before the planning step. -/
def App.updateBeforePlan (env : Env) : UpdateState :=
  let job := (Job.create env.cancelAt).setTitle "Updating packages"
  let r : Run := { job := job }
  let r := App.readRegistry env (1/100) r
  let r := App.detectInstalled env (5/100) r
  let s : UpdateState := { r with programCloseType := env.CLOSE_WINDOW }
  let s := App.updateCloseType env s
  let packages_ := env.cl.getAll "package"
  let s := App.updateMissingOption packages_ s
  let s := App.updateCheckNames env packages_ s
  App.updateLookup env packages_ s

/-- The end of `update`: the result is reported. -/
def App.updateFinish (s : UpdateState) : Result :=
  let job := s.job.complete
  let r := job.getErrorMessage
  if job.isCancelled then
    { err := "The package update was cancelled", out := s.out, calls := s.calls,
      job := job.polled }
  else if s.up2date then
    { err := r, out := s.out ++ ["The packages are already up-to-date\n"], calls := s.calls,
      job := job.polled }
  else if r = "" then
    { err := r, out := s.out ++ ["The packages were updated successfully\n"],
      calls := s.calls, job := job.polled }
  else
    { err := r, out := s.out, calls := s.calls, job := job.polled }

/-- The state of `update` when all work is done, before `job->complete()`. -/
def App.updateBeforeFinish (env : Env) : UpdateState :=
  App.updateProcess env (App.updatePlan env (App.updateBeforePlan env))

/-- The function `App::update`. -/
def App.update (env : Env) : Result :=
  App.updateFinish (App.updateBeforeFinish env)

/-! ## `App::add` (lines 1040-1121) -/

/-- The local variables of `add` and `remove` together with the running state:
`toInstall` (`toRemove` in `remove`), `ops` and, in `remove`, `programCloseType`. -/
structure PlanState extends Run where
  programCloseType : Nat
  targets : List PackageVersion := []
  ops : List InstallOperation := []

/-- The body of the planning loop of `add` for one version to install: `if
(job->shouldProceed()) err = pv->planInstallation(installed, ops, avoid); if
(!err.isEmpty()) job->setErrorMessage(err);`.  The state is the running state, `err`,
`ops` and `avoid`. -/
def App.addPlanOne (env : Env) (installed : List PackageVersion) (pv : PackageVersion)
    (acc : Run × String × List InstallOperation × List PackageVersion) :
    Run × String × List InstallOperation × List PackageVersion :=
  let r := acc.1
  let planned : Run × String × List InstallOperation × List PackageVersion :=
    if r.job.shouldProceed then
      let res := env.planInstallation pv installed acc.2.2.1 acc.2.2.2
      ({ r with job := r.job.polled,
                calls := r.calls ++ [Event.planInstallation pv res.1] },
        res.1, res.2.1, res.2.2)
    else
      ({ r with job := r.job.polled }, acc.2.1, acc.2.2.1, acc.2.2.2)
  let r := planned.1
  let err := planned.2.1
  let r := if err ≠ "" then { r with job := r.job.setErrorMessage err } else r
  (r, err, planned.2.2.1, planned.2.2.2)

/-- The planning loop of `add` over the versions to install. -/
def App.addPlanLoop (env : Env) (installed : List PackageVersion) :
    List PackageVersion → Run × String × List InstallOperation × List PackageVersion →
    Run × String × List InstallOperation × List PackageVersion
  | [], acc => acc
  | pv :: rest, acc => App.addPlanLoop env installed rest (App.addPlanOne env installed pv acc)

/-- Step of `add`: the installed versions are read and the installation is planned. -/
def App.addPlan (env : Env) (s : PlanState) : PlanState :=
  if s.job.shouldProceed then
    let job := s.job.polled
    let installed := env.getInstalled.1
    let err := env.getInstalled.2
    let calls := s.calls ++ [Event.getInstalled err]
    let job := if err ≠ "" then job.setErrorMessage err else job
    let res := App.addPlanLoop env installed s.targets
      ({ job := job, out := s.out, calls := calls }, err, s.ops, [])
    { s with toRun := res.1, ops := res.2.2.1 }
  else
    { s with job := s.job.polled }

/-- Step of `add`: `if (job->shouldProceed() && ops.size() > 0) { Job* ijob =
job->newSubJob(0.9, "Installing"); processInstallOperations(ijob, ops,
WPMUtils::CLOSE_WINDOW); ... }`. -/
def App.addProcess (env : Env) (s : PlanState) : PlanState :=
  if s.job.shouldProceed && decide (s.ops.length > 0) then
    let (r, ijobError) := App.runInstallOperations env (9/10) "Installing" s.ops
      env.CLOSE_WINDOW { s.toRun with job := s.job.polled }
    if ijobError ≠ "" then
      let job := r.job.setErrorMessage (env.qarg "Error installing: %1" ijobError)
      { s with toRun := { r with job := job } }
    else
      { s with toRun := r }
  else
    { s with job := s.job.polled }

/-- The loop of `add` that reports every installed version. -/
def App.addReport (env : Env) : List PackageVersion → List String → List String
  | [], out => out
  | pv :: rest, out =>
    App.addReport env rest (out ++ [env.qarg (env.qarg
      "The package %1 was installed successfully in %2\n" (env.pvToString false pv))
      (env.getPath pv)])

/-- The state of `add` when all work is done, before `job->complete()`. -/
def App.addBeforeFinish (env : Env) : PlanState :=
  let job := (Job.create env.cancelAt).setTitle "Installing packages"
  let r : Run := { job := job }
  let r := App.readRegistry env (1/100) r
  let r := App.detectInstalled env (9/100) r
  let toInstall := (env.getPackageVersionOptions true).1
  let err := (env.getPackageVersionOptions true).2
  let r := if err ≠ "" then { r with job := r.job.setErrorMessage err } else r
  let s : PlanState := { r with programCloseType := env.CLOSE_WINDOW, targets := toInstall }
  let s := App.addPlan env s
  App.addProcess env s

/-- The end of `add`: the result is reported. -/
def App.addFinish (env : Env) (s : PlanState) : Result :=
  let job := s.job.complete
  let r := job.getErrorMessage
  if r = "" then
    { err := r, out := App.addReport env s.targets s.out, calls := s.calls, job := job }
  else
    { err := r, out := s.out, calls := s.calls, job := job }

/-- The function `App::add`. -/
def App.add (env : Env) : Result :=
  App.addFinish env (App.addBeforeFinish env)

/-! ## `App::remove` (lines 1236-1335) -/

/-- Step of `remove`: `programCloseType = WPMUtils::getProgramCloseType(cl, &err)`. -/
def App.removeCloseType (env : Env) (r : Run) : Run × Nat :=
  if r.job.shouldProceed then
    let job := r.job.polled
    let err := env.getProgramCloseType.2
    if err ≠ "" then
      ({ r with job := job.setErrorMessage err }, env.getProgramCloseType.1)
    else
      ({ r with job := job }, env.getProgramCloseType.1)
  else
    ({ r with job := r.job.polled }, env.CLOSE_WINDOW)

/-- The planning loop of `remove`: `err = pv->planUninstallation(installed, ops); if
(!err.isEmpty()) { job->setErrorMessage(err); break; }`. -/
def App.removePlanLoop (env : Env) (installed : List PackageVersion) :
    List PackageVersion → Run × List InstallOperation → Run × List InstallOperation
  | [], acc => acc
  | pv :: rest, (r, ops) =>
    let res := env.planUninstallation pv installed ops
    let err := res.1
    let r := { r with calls := r.calls ++ [Event.planUninstallation pv err] }
    if err ≠ "" then
      ({ r with job := r.job.setErrorMessage err }, res.2)
    else
      App.removePlanLoop env installed rest (r, res.2)

/-- Step of `remove`: the installed versions are read and the removal is planned. -/
def App.removePlan (env : Env) (s : PlanState) : PlanState :=
  if s.job.shouldProceed then
    let job := s.job.polled
    let installed := env.getInstalled.1
    let err := env.getInstalled.2
    let calls := s.calls ++ [Event.getInstalled err]
    let job := if err ≠ "" then job.setErrorMessage err else job
    if job.shouldProceed then
      let res := App.removePlanLoop env installed s.targets
        ({ job := job.polled, out := s.out, calls := calls }, s.ops)
      { s with toRun := res.1, ops := res.2 }
    else
      { s with job := job.polled, calls := calls }
  else
    { s with job := s.job.polled }

/-- Step of `remove`: `if (job->shouldProceed()) { Job* removeJob = job->newSubJob(0.9,
"Removing"); processInstallOperations(removeJob, ops, programCloseType); ... }`. -/
def App.removeProcess (env : Env) (s : PlanState) : PlanState :=
  if s.job.shouldProceed then
    let (r, removeJobError) := App.runInstallOperations env (9/10) "Removing" s.ops
      s.programCloseType { s.toRun with job := s.job.polled }
    if removeJobError ≠ "" then
      let job := r.job.setErrorMessage (env.qarg "Error removing: %1\n" removeJobError)
      { s with toRun := { r with job := job } }
    else
      { s with toRun := r }
  else
    { s with job := s.job.polled }

/-- The state of `remove` when all work is done, before `job->complete()`. -/
def App.removeBeforeFinish (env : Env) : PlanState :=
  let job := (Job.create env.cancelAt).setTitle "Removing packages"
  let r : Run := { job := job }
  let r := App.readRegistry env (1/100) r
  let r := App.detectInstalled env (9/100) r
  let (r, programCloseType) := App.removeCloseType env r
  let toRemove := (env.getPackageVersionOptions false).1
  let err := (env.getPackageVersionOptions false).2
  let r := if err ≠ "" then { r with job := r.job.setErrorMessage err } else r
  let s : PlanState := { r with programCloseType := programCloseType, targets := toRemove }
  let s := App.removePlan env s
  App.removeProcess env s

/-- The end of `remove`: the result is reported. -/
def App.removeFinish (s : PlanState) : Result :=
  let job := s.job.complete
  let r := job.getErrorMessage
  if job.isCancelled then
    { err := "The package removal was cancelled", out := s.out, calls := s.calls,
      job := job.polled }
  else if r = "" then
    { err := r, out := s.out ++ ["The packages were removed successfully\n"],
      calls := s.calls, job := job.polled }
  else
    { err := r, out := s.out, calls := s.calls, job := job.polled }

/-- The function `App::remove`. -/
def App.remove (env : Env) : Result :=
  App.removeFinish (App.removeBeforeFinish env)

/-! ## `App::process` (lines 63-184) -/

/-- The member functions of `App` that `process` hands a command to. -/
inductive Command where
  | usage | path | remove | add | addRepo | removeRepo | listRepos | search | check
  | which | list | info | update | detect | setInstallPath | getInstallPath
deriving DecidableEq

/-- What `process` leaves behind: the exit code, the console output of the command, the
texts printed with `stdout_ = false`, and the command functions called. -/
structure ProcessResult where
  code : Int
  out : List String
  errOut : List String
  called : List Command

/-- A command function that is called only after the database was opened: `err =
DBRepository::getDefault()->openDefault(...); if (err.isEmpty()) err = f();`.  Returns
`err`, the output and the functions called. -/
def App.openAndCall (env : Env) (call : Command → Result) (readOnly : Bool) (f : Command) :
    String × List String × List Command :=
  let err := env.openDefault readOnly
  if err = "" then ((call f).err, (call f).out, [f]) else (err, [], [])

/-- The chain `if (cmd == "help") ... else if ... else err = "Wrong command: ..."` of
`process`.  A command function is given by what it leaves behind when called (`call`);
`err` is the value the variable has before the chain.  For `remove` and `add`, the call
`addNpackdCL()` precedes the command; its error is ignored and it is not modelled. -/
def App.dispatch (env : Env) (call : Command → Result) (err : String) (cmd : String) :
    String × List String × List Command :=
  if cmd = "help" then (err, (call .usage).out, [.usage])
  else if cmd = "path" then ((call .path).err, (call .path).out, [.path])
  else if cmd = "remove" ∨ cmd = "rm" then App.openAndCall env call false .remove
  else if cmd = "add" then App.openAndCall env call false .add
  else if cmd = "add-repo" then ((call .addRepo).err, (call .addRepo).out, [.addRepo])
  else if cmd = "remove-repo" then
    ((call .removeRepo).err, (call .removeRepo).out, [.removeRepo])
  else if cmd = "list-repos" then ((call .listRepos).err, (call .listRepos).out, [.listRepos])
  else if cmd = "search" then App.openAndCall env call true .search
  else if cmd = "check" then App.openAndCall env call false .check
  else if cmd = "which" then App.openAndCall env call true .which
  else if cmd = "list" then App.openAndCall env call true .list
  else if cmd = "info" then App.openAndCall env call true .info
  else if cmd = "update" then App.openAndCall env call false .update
  else if cmd = "detect" then App.openAndCall env call false .detect
  else if cmd = "set-install-dir" then
    ((call .setInstallPath).err, (call .setInstallPath).out, [.setInstallPath])
  else if cmd = "install-dir" then
    ((call .getInstallPath).err, (call .getInstallPath).out, [.getInstallPath])
  else ("Wrong command: " ++ cmd ++ ". Try npackdcl help", [], [])

/-- The function `App::process`, after the options were declared (`cl.add`).  The calls
`clp.setUpdateRate(0)` for `--debug` and `QCoreApplication::instance()->exit(r)` do not
touch the result and are left out. -/
def App.process (env : Env) (call : Command → Result) : ProcessResult :=
  let err := env.cl.parse
  if err ≠ "" then
    { code := 1, out := [], errOut := ["Error: " ++ err ++ "\n"], called := [] }
  else
    let fr := env.cl.getFreeArguments
    match fr with
    | [] =>
      { code := 1, out := [], errOut := ["Missing command. Try npackdcl help\n"],
        called := [] }
    | [cmd] =>
      let res := App.dispatch env call err cmd
      let err := res.1
      if err = "" then
        { code := 0, out := res.2.1, errOut := [], called := res.2.2 }
      else
        { code := 1, out := res.2.1, errOut := [err ++ "\n"], called := res.2.2 }
    | _ :: arg :: _ =>
      { code := 1, out := [], errOut := ["Unexpected argument: " ++ arg ++ "\n"],
        called := [] }

/-- The command names `process` knows. -/
def App.commandNames : List String :=
  ["help", "path", "remove", "rm", "add", "add-repo", "remove-repo", "list-repos", "search",
   "check", "which", "list", "info", "update", "detect", "set-install-dir", "install-dir"]

/-- The command functions modelled here, by name; the others are left to the caller. -/
def App.run (env : Env) (other : Command → Result) : Command → Result
  | .remove => App.remove env
  | .add => App.add env
  | .check => App.check env
  | .list => App.list env
  | .update => App.update env
  | f => other f

/-! ## Properties of calls, used to state the theorems -/

/-- Calls a command makes before it plans anything. -/
def Event.isPreparation : Event → Bool
  | .readRegistryDatabase _ => true
  | .refresh _ => true
  | .getInstalled _ => true
  | .findPackage _ => true
  | .findPackagesByShortName _ => true
  | _ => false

/-- Calls made from within `processInstallOperations`. -/
def Event.isExecution : Event → Bool
  | .process _ _ => true
  | .copyFile _ _ _ => true
  | .writeFile _ _ _ => true
  | .createProcess _ _ _ => true
  | _ => false

/-- Calls made on the self-update path of `processInstallOperations`: the executable is
copied, the `.bat` file is written, `cmd.exe` is started.  None of them installs or
removes a package. -/
def Event.isStaging : Event → Bool
  | .copyFile _ _ _ => true
  | .writeFile _ _ _ => true
  | .createProcess _ _ _ => true
  | _ => false

/-- Planning calls: `planInstallation` and `planUninstallation`. -/
def Event.isPlanning : Event → Bool
  | .planInstallation _ _ => true
  | .planUninstallation _ _ => true
  | _ => false

/-- Planning calls that returned a non-empty error message. -/
def Event.isFailedPlanning : Event → Bool
  | .planInstallation _ err => decide (err ≠ "")
  | .planUninstallation _ err => decide (err ≠ "")
  | _ => false

/-- Calls of `processInstallOperations`. -/
def Event.isProcessInstallOperations : Event → Bool
  | .processInstallOperations _ _ => true
  | _ => false

/-! ## Example environments -/

/-- An update of one package that is already at its newest version: the package is found
and `planUpdates` returns no operations. -/
def Example.upToDate : Env :=
  { cl := { getAll := fun _ => ["com.example.Editor"] },
    findPackage_ := fun name => some ⟨name, "Editor"⟩ }

/-- The list of calls `l'` continues `l` by calls that all satisfy `K`. -/
def ContinuesWith (K : Event → Prop) (l l' : List Event) : Prop :=
  ∃ X, l' = l ++ X ∧ ∀ e ∈ X, K e

/-- No call follows a failed planning call: of any two calls, the earlier one is not a
planning call that returned an error. -/
def EndsAtFailedPlanning (l : List Event) : Prop :=
  l.Pairwise (fun a _ => a.isFailedPlanning = false)

/-- What the steps of `add` and `remove` up to the planning do to the running state, from
`r` to `r'`: they add preparation and planning calls only, none after a failed
planning; a failed planning leaves an error message in the job; a job that has an
error message keeps one and nothing is called; the console output stays as it is. -/
def PlanStep (r r' : Run) : Prop :=
  ∃ X, r'.calls = r.calls ++ X ∧ (∀ e ∈ X, e.isPlanning = true ∨ e.isPreparation = true) ∧
    EndsAtFailedPlanning X ∧
    ((∃ e ∈ X, e.isFailedPlanning = true) → r'.job.errorMessage ≠ "") ∧
    (r.job.errorMessage ≠ "" → X = [] ∧ r'.job.errorMessage ≠ "") ∧
    r'.out = r.out

/-- Version 1.0 of the package `com.example.Editor`, without dependencies. -/
def Example.editor : PackageVersion := ⟨"com.example.Editor", ⟨[1, 0]⟩, []⟩

/-- Version 2.1 of the package `org.example.Lib`, without dependencies. -/
def Example.lib : PackageVersion := ⟨"org.example.Lib", ⟨[2, 1]⟩, []⟩

/-- Two package versions are named on the command line, and every planning fails. -/
def Example.planningFails : Env :=
  { getPackageVersionOptions := fun _ => ([Example.editor, Example.lib], ""),
    planInstallation := fun _ _ ops avoid => ("no match", ops, avoid),
    planUninstallation := fun _ _ ops => ("not installed", ops) }

/-- The pairs (installed package version, dependency of it that is not installed), in the
order of the list. -/
def App.missingDependencies (env : Env) (list : List PackageVersion) :
    List (PackageVersion × Dependency) :=
  list.flatMap fun pv =>
    (pv.dependencies.filter fun d => !env.isInstalled d).map fun d => (pv, d)

/-- The dependency of the editor on the library, versions `[2, 3)`. -/
def Example.libDependency : Dependency := ⟨"org.example.Lib", true, ⟨[2]⟩, false, ⟨[3]⟩⟩

/-- The editor is installed and depends on a library that is not installed. -/
def Example.brokenDependency : Env :=
  { getInstalled := ([⟨"com.example.Editor", ⟨[1, 0]⟩, [Example.libDependency]⟩], ""),
    isInstalled := fun _ => false }

/-- The command line is `npackdcl list`, and the registry of installed packages cannot be
read. -/
def Example.registryFails : Env :=
  { cl := { getFreeArguments := ["list"] },
    readRegistryDatabase := "Cannot open the registry key" }

/-- A command function that does nothing, for the commands that are not modelled. -/
def Example.nothing : Command → Result := fun _ => ⟨"", [], [], {}⟩

/-- The job of the command is cancelled after its second poll, that is while the installed
software is detected; one package version was named on the command line. -/
def Example.cancelled : Env :=
  { cancelAt := some 2,
    getPackageVersionOptions := fun _ => ([Example.editor], "") }

/-- The command line `--status=all`. -/
def Example.statusAll : CommandLine :=
  { isPresent := fun name => decide (name = "status"),
    get := fun name => if name = "status" then some "all" else none,
    getAll := fun name => if name = "status" then ["all"] else [] }

/-- The test `lt` is a strict weak ordering on the elements of `l`: irreflexive,
transitive, and with a transitive incomparability. -/
def StrictWeakOrderOn {α : Type} (lt : α → α → Bool) (l : List α) : Prop :=
  (∀ a ∈ l, lt a a = false) ∧
  (∀ a ∈ l, ∀ b ∈ l, ∀ c ∈ l, lt a b = true → lt b c = true → lt a c = true) ∧
  (∀ a ∈ l, ∀ b ∈ l, ∀ c ∈ l, lt a b = false → lt b a = false → lt b c = false →
    lt c b = false → lt a c = false ∧ lt c a = false)

/-- The contract of Qt's `qSort(begin, end, lessThan)`, a library routine: the items are
permuted, and when `lessThan` is a strict weak ordering on them, they end up in
ascending order: no item is less than an item before it. -/
def QSortContract {α : Type} (qSort : (α → α → Bool) → List α → List α) : Prop :=
  ∀ lt l, (qSort lt l).Perm l ∧
    (StrictWeakOrderOn lt l → (qSort lt l).Pairwise fun a b => lt b a = false)

/-- A list "sorted by package name and version": for any two positions `i < j`, the package
name at `i` is smaller than the one at `j`, or the names are equal and the version at
`i` is less than or equal to the version at `j`. -/
abbrev App.sortedByNameAndVersion (l : List PackageVersion) : Prop :=
  l.Pairwise fun a b =>
    qLess a.package b.package = true ∨
      (a.package = b.package ∧ a.version.compare b.version ≤ 0)

/-- A list sorted by package title, compared in lower case, and version: for any two
positions `i < j`, the lower-cased title at `i` is smaller than the one at `j`, or both
are versions of one package and the version at `i` is less than or equal to the version
at `j`. -/
abbrev App.sortedByTitleAndVersion (env : Env) (l : List PackageVersion) : Prop :=
  l.Pairwise fun a b =>
    qLess (env.toLower (env.getPackageTitle a)) (env.toLower (env.getPackageTitle b)) = true ∨
      (a.package = b.package ∧ a.version.compare b.version ≤ 0)

/-- Two packages whose titles sort the other way round than their names. -/
def Example.titles : Env :=
  { getPackageTitle := fun pv =>
      if pv.package = "com.example.Editor" then "Zed Editor" else "Alpha Library" }

/-! ## `App::search` (lines 556-640) -/

/-- The comparator `packageLessThan`: packages are compared by the lower-cased title. -/
def packageLessThan (env : Env) (p1 p2 : Package) : Bool :=
  qLess (env.toLower p1.title) (env.toLower p2.title)

/-- First step of `search`: the option `--status` decides `onlyInstalled`. -/
def App.searchStatus (env : Env) (r : Run) : Run × Bool :=
  if r.job.shouldProceed then
    let job := r.job.polled
    match env.cl.get "status" with
    | none => ({ r with job := job }, false)
    | some status =>
      if status = "all" then
        ({ r with job := job }, false)
      else if status = "installed" then
        ({ r with job := job }, true)
      else
        ({ r with job := job.setErrorMessage ("Wrong status: " ++ status) }, false)
  else
    ({ r with job := r.job.polled }, false)

/-- Third step of `search`: `packageNames = rep->findPackages(Package::INSTALLED,
onlyInstalled, query, -1, -1, &err)`. -/
def App.searchFind (env : Env) (onlyInstalled : Bool) (query : Option String) (r : Run) :
    Run × List String :=
  if r.job.shouldProceed then
    let job := r.job.polled.newSubJob (1/100) "Searching for packages"
    let packageNames := (env.findPackages onlyInstalled query).1
    let err := (env.findPackages onlyInstalled query).2
    let calls := r.calls ++ [Event.findPackages onlyInstalled query]
    if err ≠ "" then
      ({ r with job := job.setErrorMessage err, calls := calls }, packageNames)
    else
      ({ r with job := job.subJobCompleted (1/100), calls := calls }, packageNames)
  else
    ({ r with job := r.job.polled }, [])

/-- Fourth step of `search`: `list = rep->findPackages(packageNames)`; the variable `err`
of this block is never assigned. -/
def App.searchFetch (env : Env) (packageNames : List String) (r : Run) : Run × List Package :=
  if r.job.shouldProceed then
    let job := r.job.polled.newSubJob (1/100) "Fetching packages"
    let err := ""
    let list := env.fetchPackages packageNames
    let calls := r.calls ++ [Event.fetchPackages packageNames]
    if err ≠ "" then
      ({ r with job := job.setErrorMessage err, calls := calls }, list)
    else
      ({ r with job := job.subJobCompleted (1/100), calls := calls }, list)
  else
    ({ r with job := r.job.polled }, [])

/-- The printing loop of `search`. -/
def App.searchPrintLoop (bare : Bool) : List Package → List String → List String
  | [], out => out
  | p :: rest, out =>
    if !bare then
      App.searchPrintLoop bare rest (out ++ [p.title ++ " (" ++ p.name ++ ")\n"])
    else
      App.searchPrintLoop bare rest (out ++ [p.name ++ " " ++ p.title ++ "\n"])

/-- Fifth step of `search`: the packages are sorted and printed. -/
def App.searchPrint (env : Env) (bare : Bool) (list : List Package) (r : Run) : Run :=
  if r.job.shouldProceed then
    let list := env.qSortPackages (packageLessThan env) list
    let out :=
      if !bare then r.out ++ [env.qargInt "%1 packages found:\n\n" list.length] else r.out
    let out := App.searchPrintLoop bare list out
    { r with job := r.job.polled.setProgress 1, out := out }
  else
    { r with job := r.job.polled }

/-- The state of `search` after the option `--status` was read, with `onlyInstalled`. -/
def App.searchAfterStatus (env : Env) : Run × Bool :=
  let job := (Job.create env.cancelAt).setTitle "Searching for packages"
  App.searchStatus env { job := job }

/-- The function `App::search`. -/
def App.search (env : Env) : Result :=
  let bare := env.cl.isPresent "bare-format"
  let query := env.cl.get "query"
  let (r, onlyInstalled) := App.searchAfterStatus env
  let r := App.readRegistry env (96/100) r
  let (r, packageNames) := App.searchFind env onlyInstalled query r
  let (r, list) := App.searchFetch env packageNames r
  let r := App.searchPrint env bare list r
  let job := r.job.complete
  { err := job.getErrorMessage, out := r.out, calls := r.calls, job := job }

/-- Calls that search the repository: both overloads of `findPackages`. -/
def Event.isSearch : Event → Bool
  | .findPackages _ _ => true
  | .fetchPackages _ => true
  | _ => false

/-! ## `App::addRepo` (lines 442-490) and `App::removeRepo` (lines 642-691) -/

/-- What `addRepo` and `removeRepo` leave behind: the returned error message, the console
output and the list handed to `setRepositoryURLs`, if it was called. -/
structure RepoResult where
  err : String
  out : List String
  written : Option (List QUrl)

/-- The search loop of `addRepo` and `removeRepo`: the first index `i`, counted from `i0`,
with `urls.at(i)->toString() == url_->toString()`; `none` stands for `found = -1`. -/
def App.findUrl (url_ : QUrl) : List QUrl → Nat → Option Nat
  | [], _ => none
  | u :: rest, i => if u.text = url_.text then some i else App.findUrl url_ rest (i + 1)

/-- The function `App::addRepo`. -/
def App.addRepo (env : Env) : RepoResult :=
  let err := ""
  let url := (env.cl.get "url").map env.trimmed
  match url with
  | none => { err := "Missing option: --url", out := [], written := none }
  | some url =>
    let url_ := env.setUrl url
    let err := if !url_.valid then "Invalid URL: " ++ url else err
    if err = "" then
      let urls := env.getRepositoryURLs.1
      let err := env.getRepositoryURLs.2
      if err = "" then
        match App.findUrl url_ urls 0 with
        | some _ =>
          { err := err, out := ["This repository is already registered: " ++ url ++ "\n"],
            written := none }
        | none =>
          let urls := urls ++ [url_]
          let err := env.setRepositoryURLs urls
          if err = "" then
            { err := err, out := ["The repository was added successfully\n"],
              written := some urls }
          else
            { err := err, out := [], written := some urls }
      else
        { err := err, out := [], written := none }
    else
      { err := err, out := [], written := none }

/-- The function `App::removeRepo`. -/
def App.removeRepo (env : Env) : RepoResult :=
  let err := ""
  let url := env.cl.get "url"
  match url with
  | none => { err := "Missing option: --url", out := [], written := none }
  | some url =>
    let url_ := env.setUrl url
    let err := if !url_.valid then "Invalid URL: " ++ url else err
    if err = "" then
      let urls := env.getRepositoryURLs.1
      let err := env.getRepositoryURLs.2
      if err = "" then
        match App.findUrl url_ urls 0 with
        | none =>
          { err := err, out := ["The repository was not in the list: " ++ url ++ "\n"],
            written := none }
        | some found =>
          let urls := urls.eraseIdx found
          let err := env.setRepositoryURLs urls
          if err = "" then
            { err := err, out := ["The repository was removed successfully\n"],
              written := some urls }
          else
            { err := err, out := [], written := some urls }
      else
        { err := err, out := [], written := none }
    else
      { err := err, out := [], written := none }

/-- The list of repositories stored after `addRepo` or `removeRepo` ran on the stored list
`urls`: the list written, when `setRepositoryURLs` was called and reported no error, and
`urls` when it was not called. -/
def RepoResult.stored (res : RepoResult) (urls : List QUrl) : Option (List QUrl) :=
  match res.written with
  | none => some urls
  | some written => if res.err = "" then some written else none

/-- The repository of the examples. -/
def Example.repository : QUrl := ⟨"https://www.example.com/Rep.xml", true⟩

/-- The default repository. -/
def Example.defaultRepository : QUrl := ⟨"https://npackd.appspot.com/rep/xml?tag=stable", true⟩

/-- The command line `--url=" https://www.example.com/Rep.xml "`; one other repository is
stored. -/
def Example.oneRepository : Env :=
  { cl := { get := fun name =>
      if name = "url" then some " https://www.example.com/Rep.xml " else none },
    getRepositoryURLs := ([Example.defaultRepository], "") }

/-- The command line `--url=https://www.example.com/Rep.xml`; this repository is stored
twice. -/
def Example.duplicateRepository : Env :=
  { cl := { get := fun name =>
      if name = "url" then some "https://www.example.com/Rep.xml" else none },
    getRepositoryURLs := ([Example.repository, Example.repository], "") }

/-- The command line `--url=https://www.example.com/Rep.xml`; this repository is stored
after the default one. -/
def Example.twoRepositories : Env :=
  { cl := { get := fun name =>
      if name = "url" then some "https://www.example.com/Rep.xml" else none },
    getRepositoryURLs := ([Example.defaultRepository, Example.repository], "") }

/-! ## Failures on the self-update path, used to state claim C17 -/

/-- Calls that write the `.bat` file. -/
def Event.isWriteFile : Event → Bool
  | .writeFile _ _ _ => true
  | _ => false

/-- Calls that start a process. -/
def Event.isCreateProcess : Event → Bool
  | .createProcess _ _ _ => true
  | _ => false

/-- Staging the copy of the executable fails: the temporary file cannot be opened or
removed, or the executable cannot be copied. -/
def App.stagingFails (env : Env) : Bool :=
  !env.exeOpen || !env.exeRemove || !env.copy env.getExeFile env.exeFileName

/-- The message of the failed staging step. -/
def App.stagingMessage (env : Env) : String :=
  if !env.exeOpen then env.exeOpenError
  else if !env.exeRemove then env.exeRemoveError
  else "Error copying the binary"

/-- Writing the script fails: the `.bat` file cannot be opened, or the stream is not `Ok`
after the text was written. -/
def App.writingFails (env : Env) (ops : List InstallOperation) (programCloseType : Nat)
    (newExe : String) : Bool :=
  !env.batOpen || !env.streamOk ("\r\n".intercalate
    (App.batchLoop env newExe (env.programCloseType2String programCloseType) ops []))

/-- The message of the failed writing step. -/
def App.writingMessage (env : Env) : String :=
  if !env.batOpen then env.batOpenError else "Error writing the .bat file"

/-- The copy of the executable cannot be made; the operations include the removal of the
running program. -/
def Example.copyFails : Env :=
  { includesRemoveItself := fun _ => true,
    copy := fun _ _ => false }

/-- The `.bat` file cannot be written; the operations include the removal of the running
program. -/
def Example.writeFails : Env :=
  { includesRemoveItself := fun _ => true,
    streamOk := fun _ => false }

/-! ## The lookup of the packages to update (`App::update`, lines 821-847) -/

/-- The list `packages` that the loop of `update` fills for one package name:
`findPackage_` for a name with a dot, `findPackagesByShortName` otherwise. -/
def App.updateResolve (env : Env) (package : String) : List Package :=
  if '.' ∈ package.toList then
    match env.findPackage_ package with
    | some p => [p]
    | none => []
  else
    env.findPackagesByShortName package

/-- The catalog lookup that the loop of `update` makes for one package name. -/
def App.updateLookupEvent (package : String) : Event :=
  if '.' ∈ package.toList then Event.findPackage package
  else Event.findPackagesByShortName package

/-- A catalog lookup by name. -/
def Event.isLookup : Event → Bool
  | .findPackage _ => true
  | .findPackagesByShortName _ => true
  | _ => false

/-- A call of `planUpdates`. -/
def Event.isPlanUpdates : Event → Bool
  | .planUpdates _ _ _ => true
  | _ => false

/-- The message with which `update` fails at a name that does not resolve to exactly one
package. -/
def App.updateLookupMessage (env : Env) (package : String) : String :=
  if (App.updateResolve env package).length = 0 then "Unknown package: " ++ package
  else "Ambiguous package name"

/-- The state of `update` before the loop that looks the packages up. -/
def App.updateBeforeLookup (env : Env) : UpdateState :=
  let job := (Job.create env.cancelAt).setTitle "Updating packages"
  let r : Run := { job := job }
  let r := App.readRegistry env (1/100) r
  let r := App.detectInstalled env (5/100) r
  let s : UpdateState := { r with programCloseType := env.CLOSE_WINDOW }
  let s := App.updateCloseType env s
  let packages_ := env.cl.getAll "package"
  let s := App.updateMissingOption packages_ s
  App.updateCheckNames env packages_ s

/-- Two packages share the short name `editor`; a third name is unknown. -/
def Example.shortNames : Env :=
  { cl := { getAll := fun o =>
      if o = "package" then ["com.example.Lib", "editor", "org.example.Gone"] else [] },
    findPackage_ := fun n =>
      if n = "com.example.Lib" then some ⟨"com.example.Lib", "Lib"⟩ else none,
    findPackagesByShortName := fun n =>
      if n = "editor" then [⟨"com.example.Editor", "Editor"⟩, ⟨"org.example.Editor", "Editor"⟩]
      else [] }

/-- Every requested name resolves to one package. -/
def Example.resolved : Env :=
  { cl := { getAll := fun o => if o = "package" then ["com.example.Lib", "editor"] else [] },
    findPackage_ := fun n =>
      if n = "com.example.Lib" then some ⟨"com.example.Lib", "Lib"⟩ else none,
    findPackagesByShortName := fun n =>
      if n = "editor" then [⟨"com.example.Editor", "Editor"⟩] else [] }

/-! ## `App::path` (lines 693-766) -/

/-- Constant `std::numeric_limits<int>::max()` of a 32-bit `int`. -/
def INT_MAX : Nat := 2147483647

/-- Modelled from the spec: `Dependency::test`, whether a version is in the range of the
dependency (class `Dependency` is not among the sources).  "A version is "in range" per
standard inclusive/exclusive interval semantics." -/
def Dependency.test (d : Dependency) (v : Version) : Bool :=
  (if d.minIncluded then decide (0 ≤ v.compare d.min) else decide (0 < v.compare d.min)) &&
  (if d.maxIncluded then decide (v.compare d.max ≤ 0) else decide (v.compare d.max < 0))

/-- Step of `path`: the option `--package` is required. -/
def App.pathMissingOption (package : Option String) (r : Run) : Run :=
  if r.job.shouldProceed then
    if package.isNone then
      { r with job := r.job.polled.setErrorMessage "Missing option: --package" }
    else
      { r with job := r.job.polled }
  else
    { r with job := r.job.polled }

/-- Step of `path`: the package name is checked. -/
def App.pathValidName (env : Env) (package : Option String) (r : Run) : Run :=
  if r.job.shouldProceed then
    if !env.isValidName (package.getD "") then
      let msg := "Invalid package name: " ++ package.getD ""
      { r with job := r.job.polled.setErrorMessage msg }
    else
      { r with job := r.job.polled }
  else
    { r with job := r.job.polled }

/-- Step of `path`: the dependency `d` is filled in.  Without `--versions` the bounds are
set by `d.min.setVersion(0, 0)` and `d.max.setVersion(std::numeric_limits<int>::max(), 0)`;
otherwise `d.setVersions(versions)` parses them.  After a failed `setVersions` the
dependency is not used any more. -/
def App.pathRange (env : Env) (package versions : Option String) (r : Run) :
    Run × Dependency :=
  let d := env.newDependency
  if r.job.shouldProceed then
    let d := { d with package := package.getD "" }
    match versions with
    | none => ({ r with job := r.job.polled }, { d with min := ⟨[0, 0]⟩, max := ⟨[INT_MAX, 0]⟩ })
    | some versions =>
      match env.setVersions d versions with
      | some d' => ({ r with job := r.job.polled }, d')
      | none =>
        let msg := "Cannot parse versions: " ++ versions
        ({ r with job := r.job.polled.setErrorMessage msg }, d)
  else
    ({ r with job := r.job.polled }, d)

/-- Step of `path`: `path = InstalledPackages::getDefault()->findPath_npackdcl(d)`. -/
def App.pathFind (env : Env) (d : Dependency) (r : Run) : Run × String :=
  if r.job.shouldProceed then
    ({ r with job := r.job.polled, calls := r.calls ++ [Event.findPath d] },
      env.findPath_npackdcl d)
  else
    ({ r with job := r.job.polled }, "")

/-- Step of `path`: nothing was found under a name without a dot, so the name is looked up
as a short name in the database and the path is searched under the full name. -/
def App.pathByShortName (env : Env) (package : Option String) (d : Dependency)
    (path : String) (r : Run) : Run × String :=
  if r.job.shouldProceed && decide (path = "") && !decide ('.' ∈ (package.getD "").toList) then
    let job := r.job.polled
    let err := env.openDefault true
    if err = "" then
      let found := env.findOnePackage (package.getD "")
      let calls := r.calls ++ [Event.findOnePackage (package.getD "")]
      let p := if found.2 ≠ "" then none else found.1
      match p with
      | some p =>
        let d := { d with package := p.name }
        ({ r with job := job, calls := calls ++ [Event.findPath d] }, env.findPath_npackdcl d)
      | none => ({ r with job := job, calls := calls }, path)
    else
      ({ r with job := job.setErrorMessage err }, path)
  else
    ({ r with job := r.job.polled }, path)

/-- The function `App::path`. -/
def App.path (env : Env) : Result :=
  let job := Job.create env.cancelAt
  let package := env.cl.get "package"
  let versions := env.cl.get "versions"
  let r : Run := { job := job }
  let r := App.pathMissingOption package r
  let r := App.pathValidName env package r
  let (r, d) := App.pathRange env package versions r
  let (r, path) := App.pathFind env d r
  let (r, path) := App.pathByShortName env package d path r
  let out := if path ≠ "" then r.out ++ [replaceChar path '/' '\\' ++ "\n"] else r.out
  let job := r.job.complete
  { err := job.getErrorMessage, out := out, calls := r.calls, job := job }

/-- The option `--package=com.example.Editor` without `--versions`; every version of the
editor is installed in a directory named after it. -/
def Example.pathOfEditor : Env :=
  { cl := { get := fun o => if o = "package" then some "com.example.Editor" else none },
    findPath_npackdcl := fun d =>
      if d.test ⟨[2147483647, 1]⟩ then "C:/Program Files/Editor" else "" }

/-! ## `App::printDependencies` (lines 1513-1581) -/

/-- The loop of `printDependencies` over the dependencies of `pv`, from index `i` on, with
the recursive call given as `nested`; `count` is `pv->dependencies.count()`.  Returns
`err` and the console output, or `none` when a nested call does not return. -/
def App.printDependenciesLoop (env : Env)
    (nested : String → Nat → PackageVersion → List String → Option (String × List String))
    (parentPrefix : String) (level count : Nat) :
    Nat → List Dependency → List String → Option (String × List String)
  | _, [], out => some ("", out)
  | i, d :: rest, out =>
    let lead := if i = count - 1 then "└─" else "├─"
    let found :=
      match env.findHighestInstalledMatch d with
      | some ipv => env.findPackageVersion_ ipv.package ipv.version
      | none => env.findBestMatchToInstall d []
    let err := found.2
    if err ≠ "" then
      some (err, out)
    else
      match found.1 with
      | none =>
        let s := env.qarg "Missing dependency on %1" (env.depToString true d)
        App.printDependenciesLoop env nested parentPrefix level count (i + 1) rest
          (out ++ [parentPrefix ++ lead ++ " " ++ s ++ "\n"])
      | some pvd =>
        let s := env.qarg (env.qarg "%1 resolved to %2" (env.depToString true d))
          (env.getVersionString pvd.version)
        let s := if !env.pvInstalled pvd then s ++ " (not yet installed)" else s
        let before := if pvd.dependencies.length > 0 then "·" else " "
        let out := out ++ [parentPrefix ++ lead ++ before ++ s ++ "\n"]
        let nestedPrefix := if i = count - 1 then parentPrefix ++ "  " else parentPrefix ++ "│ "
        match nested nestedPrefix (level + 1) pvd out with
        | none => none
        | some (err, out) =>
          if err ≠ "" then
            some (err, out)
          else
            App.printDependenciesLoop env nested parentPrefix level count (i + 1) rest out

/-- The function `App::printDependencies`, which calls itself for every resolved
dependency.  The first argument bounds the depth of the nested calls that are followed:
the result is `none` when the calls nest deeper, and `some (err, out)` with the returned
message and the console output otherwise. -/
def App.printDependencies (env : Env) :
    Nat → Bool → String → Nat → PackageVersion → List String → Option (String × List String)
  | 0, _, _, _, _, _ => none
  | fuel + 1, onlyInstalled, parentPrefix, level, pv, out =>
    App.printDependenciesLoop env (App.printDependencies env fuel onlyInstalled) parentPrefix
      level pv.dependencies.length 0 pv.dependencies out

/-- The end of `App::info` (lines 1501-1506): `if (r.isEmpty()) { if (pv) {
outputTextConsole("Dependency tree:\n"); r = printDependencies(pv->installed(), "", 1, pv);
} }`. -/
def App.infoDependencyTree (env : Env) (fuel : Nat) (r : String) (pv : Option PackageVersion)
    (out : List String) : Option (String × List String) :=
  if r = "" then
    match pv with
    | some pv =>
      App.printDependencies env fuel (env.pvInstalled pv) "" 1 pv (out ++ ["Dependency tree:\n"])
    | none => some (r, out)
  else
    some (r, out)

/-- The package version `org.example.A 1.0`, which depends on `org.example.B`. -/
def Example.cycleA : PackageVersion :=
  ⟨"org.example.A", ⟨[1, 0]⟩, [⟨"org.example.B", true, ⟨[1]⟩, false, ⟨[2]⟩⟩]⟩

/-- The package version `org.example.B 1.0`, which depends on `org.example.A`. -/
def Example.cycleB : PackageVersion :=
  ⟨"org.example.B", ⟨[1, 0]⟩, [⟨"org.example.A", true, ⟨[1]⟩, false, ⟨[2]⟩⟩]⟩

/-- A catalog in which `org.example.A 1.0` and `org.example.B 1.0` depend on each other;
neither is installed. -/
def Example.cycle : Env :=
  { findBestMatchToInstall := fun d _ =>
      if d.package = "org.example.A" then (some Example.cycleA, "")
      else if d.package = "org.example.B" then (some Example.cycleB, "")
      else (none, "") }

/-- A catalog in which `org.example.A 1.0` depends on `org.example.B`, and
`org.example.B 1.0` depends on nothing. -/
def Example.chain : Env :=
  { findBestMatchToInstall := fun d _ =>
      if d.package = "org.example.A" then (some Example.cycleA, "")
      else if d.package = "org.example.B" then (some ⟨"org.example.B", ⟨[1, 0]⟩, []⟩, "")
      else (none, "") }

/-! ## Detection of well-known programs (`wellknownprogramsthirdpartypm.cpp`) -/

/-- An open registry key (class `WindowsRegistry`, not among the sources), given by its
path under `HKEY_LOCAL_MACHINE` and by whether the 32 bit view is used. -/
structure WindowsRegistry where
  path : String
  useWow6432Node : Bool
deriving DecidableEq, Repr

/-- Call `r.open(wr, subKey, KEY_READ)`: the sub-key of an open key. -/
def WindowsRegistry.sub (wr : WindowsRegistry) (subKey : String) : WindowsRegistry :=
  { wr with path := wr.path ++ "\\" ++ subKey }

/-- Everything outside `wellknownprogramsthirdpartypm.cpp` that the detection consults:
the repository, the registry, the file system and the routines of `WPMUtils`, `Version`
and Qt, each given by what it answers.  The default values describe a 64 bit machine
with an empty registry; they only serve to write examples down. -/
structure ScanEnv where
  /-- Routine `QObject::tr` -/
  tr : String → String := id
  /-- Routine `Repository::savePackage`, by the package, its URL, description and change
  log: the error message -/
  savePackage : Package → String → String → String → String := fun _ _ _ _ => ""
  /-- Routine `Repository::savePackageVersion`, by package and version: the error message -/
  savePackageVersion : String → Version → String := fun _ _ => ""
  /-- Routine `WPMUtils::is64BitWindows` -/
  is64BitWindows : Bool := true
  /-- Routine `GetVersionEx`: `dwMajorVersion`, `dwMinorVersion`, `dwBuildNumber` -/
  osVersion : Nat × Nat × Nat := (6, 1, 7601)
  /-- Routine `WPMUtils::getWindowsDir` -/
  getWindowsDir : String := "C:\\Windows"
  /-- Routine `WPMUtils::getExeDir` -/
  getExeDir : String := "C:\\Program Files\\Npackd"
  /-- Routine `WPMUtils::getDLLVersion` -/
  getDLLVersion : String → Version := fun _ => ⟨[0, 0]⟩
  /-- Routine `WindowsRegistry::open`: the error message -/
  regOpen : WindowsRegistry → String := fun _ => "The key does not exist"
  /-- Routine `WindowsRegistry::list(&err)`: the names of the sub-keys and the error
  message -/
  regList : WindowsRegistry → List String × String := fun _ => ([], "")
  /-- Routine `WindowsRegistry::get(name, &err)`: the value and the error message -/
  regGet : WindowsRegistry → String → String × String :=
    fun _ _ => ("", "The value does not exist")
  /-- Routine `Version::setVersion(QString)`: the version parsed from the text, or `none`
  when it returns `false` -/
  setVersion : String → Option Version := fun _ => none
  /-- Routine `QString::trimmed` -/
  trimmed : String → String := String.trim
  /-- Routine `QDir::exists` of `QDir(path)` -/
  dirExists : String → Bool := fun _ => false
  /-- Constant `NPACKD_VERSION`, as the version `Version version(NPACKD_VERSION)` -/
  NPACKD_VERSION : Version := ⟨[1, 17, 9]⟩

/-- A call made by the detection on the repository or on the list `installed`. -/
inductive ScanEvent where
  | savePackage (p : Package) (url description changeLog : String)
  | savePackageVersion (package : String) (version : Version)
  | append (ipv : InstalledPackageVersion)
deriving DecidableEq

/-- The list `installed` and the calls made so far. -/
structure Detection where
  installed : List InstalledPackageVersion := []
  trace : List ScanEvent := []

/-- Call `rep->savePackage(p)`: the state after the call and the error message. -/
def Detection.savePackage (m : ScanEnv) (s : Detection) (p : Package)
    (url description changeLog : String) : Detection × String :=
  ({ s with trace := s.trace ++ [ScanEvent.savePackage p url description changeLog] },
    m.savePackage p url description changeLog)

/-- Call `rep->savePackageVersion(pv)` for a new `PackageVersion(package, version)`: the
state after the call and the error message. -/
def Detection.savePackageVersion (m : ScanEnv) (s : Detection) (package : String)
    (version : Version) : Detection × String :=
  ({ s with trace := s.trace ++ [ScanEvent.savePackageVersion package version] },
    m.savePackageVersion package version)

/-- Call `installed->append(ipv)`. -/
def Detection.append (s : Detection) (ipv : InstalledPackageVersion) : Detection :=
  { installed := s.installed ++ [ipv], trace := s.trace ++ [ScanEvent.append ipv] }

namespace WellKnownProgramsThirdPartyPM

/-- The version that `detectOneDotNet` finds for the key `keyName`, if any (`found` and
`v`, lines 48-79). -/
def dotNetVersion (m : ScanEnv) (wr : WindowsRegistry) (keyName : String) : Option Version :=
  let oneOne : Version := ⟨[1, 1]⟩
  let four : Version := ⟨[4, 0]⟩
  let two : Version := ⟨[2, 0]⟩
  if qStartsWith keyName "v" then
    match m.setVersion (qRight keyName (keyName.length - 1)) with
    | some keyVersion =>
      if keyVersion.compare oneOne < 0 then
        none
      else if keyVersion.compare two < 0 then
        some keyVersion
      else if keyVersion.compare four < 0 then
        let value := m.regGet wr "Version"
        if value.2 = "" then m.setVersion value.1 else none
      else
        let r := wr.sub "Full"
        if m.regOpen r = "" then
          let value := m.regGet r "Version"
          if value.2 = "" then m.setVersion value.1 else none
        else
          none
    | none => none
  else
    none

/-- The function `detectOneDotNet` (lines 42-91). -/
def detectOneDotNet (m : ScanEnv) (s : Detection) (wr : WindowsRegistry) (keyName : String) :
    Detection :=
  let package := "com.microsoft.DotNetRedistributable"
  match dotNetVersion m wr keyName with
  | some v =>
    let s := (s.savePackageVersion m package v).1
    s.append ⟨package, v, ""⟩
  | none => s

/-- The loop of `scanDotNet` over the sub-keys of the key `NDP`. -/
def scanDotNetLoop (m : ScanEnv) (wr : WindowsRegistry) : List String → Detection → Detection
  | [], s => s
  | v_ :: rest, s =>
    if qStartsWith v_ "v" && (m.setVersion (qRight v_ (v_.length - 1))).isSome then
      let r := wr.sub v_
      if m.regOpen r = "" then
        scanDotNetLoop m wr rest (detectOneDotNet m s r v_)
      else
        scanDotNetLoop m wr rest s
    else
      scanDotNetLoop m wr rest s

/-- The function `scanDotNet` (lines 4-40). -/
def scanDotNet (m : ScanEnv) (s : Detection) : Detection :=
  let p : Package := ⟨"com.microsoft.DotNetRedistributable", ".NET redistributable runtime"⟩
  let saved := s.savePackage m p "http://msdn.microsoft.com/en-us/netframework/default.aspx"
    (m.tr ".NET runtime") ""
  let s := saved.1
  let wr : WindowsRegistry := ⟨"Software\\Microsoft\\NET Framework Setup\\NDP", false⟩
  let err := if saved.2 = "" then m.regOpen wr else saved.2
  if err = "" then
    let entries := m.regList wr
    if entries.2 = "" then scanDotNetLoop m wr entries.1 s else s
  else
    s

end WellKnownProgramsThirdPartyPM

namespace WellKnownProgramsThirdPartyPM

/-- One of the six blocks of `detectMSXML` and the block of `detectMicrosoftInstaller`:
`if (err.isEmpty()) { v = WPMUtils::getDLLVersion(dll); if (v.compare(nullNull) > 0) {
err = rep->savePackageVersion(pv); installed->append(...); } }`; for `msxml3.dll` the
version is changed by `v.prepend(3)` first. -/
def detectDLL (m : ScanEnv) (package dll : String) (prepend3 : Bool)
    (acc : Detection × String) : Detection × String :=
  let nullNull : Version := ⟨[0, 0]⟩
  if acc.2 = "" then
    let v := m.getDLLVersion dll
    if v.compare nullNull > 0 then
      let v : Version := if prepend3 then ⟨3 :: v.parts⟩ else v
      let saved := acc.1.savePackageVersion m package v
      (saved.1.append ⟨package, v, ""⟩, saved.2)
    else
      acc
  else
    acc

/-- The function `detectMSXML` (lines 93-165): the state and the returned `err`. -/
def detectMSXML (m : ScanEnv) (s : Detection) : Detection × String :=
  let p : Package := ⟨"com.microsoft.MSXML", m.tr "Microsoft Core XML Services (MSXML)"⟩
  let acc := s.savePackage m p
    ("http://www.microsoft.com/downloads/en/details.aspx" ++
      "?FamilyID=993c0bcf-3bcf-4009-be21-27e85e1857b1#Overview")
    (m.tr "XML library") "http://msdn.microsoft.com/en-us/library/ms753751(v=vs.85).aspx"
  let acc := detectDLL m p.name "msxml.dll" false acc
  let acc := detectDLL m p.name "msxml2.dll" false acc
  let acc := detectDLL m p.name "msxml3.dll" true acc
  let acc := detectDLL m p.name "msxml4.dll" false acc
  let acc := detectDLL m p.name "msxml5.dll" false acc
  detectDLL m p.name "msxml6.dll" false acc

/-- The function `detectWindows` (lines 167-212). -/
def detectWindows (m : ScanEnv) (s : Detection) : Detection :=
  let v : Version := ⟨[m.osVersion.1, m.osVersion.2.1, m.osVersion.2.2]⟩
  let s :=
    if !m.is64BitWindows then
      let p32 : Package := ⟨"com.microsoft.Windows32", m.tr "Windows 32 bit"⟩
      let s := (s.savePackage m p32 "http://www.microsoft.com/windows/"
        (m.tr "operating system") "").1
      let s := (s.savePackageVersion m p32.name v).1
      s.append ⟨p32.name, v, m.getWindowsDir⟩
    else
      let p64 : Package := ⟨"com.microsoft.Windows64", m.tr "Windows 64 bit"⟩
      let s := (s.savePackage m p64 "http://www.microsoft.com/windows/"
        (m.tr "operating system") "").1
      let s := (s.savePackageVersion m p64.name v).1
      s.append ⟨p64.name, v, m.getWindowsDir⟩
  let p : Package := ⟨"com.microsoft.Windows", "Windows"⟩
  let s := (s.savePackage m p "http://www.microsoft.com/windows/"
    (m.tr "operating system") "").1
  let s := (s.savePackageVersion m p.name v).1
  s.append ⟨p.name, v, ""⟩

/-- The loop of `detectJRE` over the sub-keys of `Java Runtime Environment`. -/
def detectJRELoop (m : ScanEnv) (package : String) (jreWR : WindowsRegistry) :
    List String → Detection → Detection
  | [], s => s
  | entry :: rest, s =>
    let v_ := replaceChar entry '_' '.'
    match m.setVersion v_ with
    | none => detectJRELoop m package jreWR rest s
    | some v =>
      if v.parts.length ≤ 2 then detectJRELoop m package jreWR rest s
      else
        let wr := jreWR.sub entry
        if m.regOpen wr ≠ "" then detectJRELoop m package jreWR rest s
        else
          let path := m.regGet wr "JavaHome"
          if path.2 ≠ "" then detectJRELoop m package jreWR rest s
          else if m.trimmed path.1 = "" then detectJRELoop m package jreWR rest s
          else if !m.dirExists path.1 then detectJRELoop m package jreWR rest s
          else
            let s := (s.savePackageVersion m package v).1
            detectJRELoop m package jreWR rest (s.append ⟨package, v, path.1⟩)

/-- The function `detectJRE` (lines 214-265). -/
def detectJRE (m : ScanEnv) (s : Detection) (w64bit : Bool) : Detection :=
  if w64bit && !m.is64BitWindows then
    s
  else
    let package := if w64bit then "com.oracle.JRE64" else "com.oracle.JRE"
    let p : Package := ⟨package, if w64bit then "JRE 64 bit" else m.tr "JRE"⟩
    let s := (s.savePackage m p "http://www.java.com/" (m.tr "Java runtime")
      "http://en.wikipedia.org/wiki/Java_version_history").1
    let jreWR : WindowsRegistry := ⟨"Software\\JavaSoft\\Java Runtime Environment", !w64bit⟩
    if m.regOpen jreWR = "" then
      detectJRELoop m package jreWR (m.regList jreWR).1 s
    else
      s

/-- The loop of `detectJDK` over the sub-keys of `Java Development Kit`. -/
def detectJDKLoop (m : ScanEnv) (package : String) (wr : WindowsRegistry) :
    List String → Detection → Detection
  | [], s => s
  | entry :: rest, s =>
    let r := wr.sub entry
    if m.regOpen r ≠ "" then detectJDKLoop m package wr rest s
    else
      let v_ := replaceChar entry '_' '.'
      match m.setVersion v_ with
      | none => detectJDKLoop m package wr rest s
      | some v =>
        if v.parts.length ≤ 2 then detectJDKLoop m package wr rest s
        else
          let path := m.regGet r "JavaHome"
          if path.2 ≠ "" then detectJDKLoop m package wr rest s
          else if m.trimmed path.1 = "" then detectJDKLoop m package wr rest s
          else if !m.dirExists path.1 then detectJDKLoop m package wr rest s
          else
            let s := (s.savePackageVersion m package v).1
            detectJDKLoop m package wr rest (s.append ⟨package, v, path.1⟩)

/-- The function `detectJDK` (lines 267-321). -/
def detectJDK (m : ScanEnv) (s : Detection) (w64bit : Bool) : Detection :=
  let package := if w64bit then "com.oracle.JDK64" else "com.oracle.JDK"
  if w64bit && !m.is64BitWindows then
    s
  else
    let p : Package := ⟨package, if w64bit then m.tr "JDK 64 bit" else m.tr "JDK"⟩
    let s := (s.savePackage m p
      "http://www.oracle.com/technetwork/java/javase/overview/index.html"
      (m.tr "Java development kit") "http://en.wikipedia.org/wiki/Java_version_history").1
    let wr : WindowsRegistry := ⟨"Software\\JavaSoft\\Java Development Kit", !w64bit⟩
    if m.regOpen wr = "" then
      let entries := m.regList wr
      if entries.2 = "" then detectJDKLoop m package wr entries.1 s else s
    else
      s

/-- The function `detectMicrosoftInstaller` (lines 323-348): the state and the returned
`err`. -/
def detectMicrosoftInstaller (m : ScanEnv) (s : Detection) : Detection × String :=
  let p : Package := ⟨"com.microsoft.WindowsInstaller", m.tr "Windows Installer"⟩
  let acc := s.savePackage m p "http://msdn.microsoft.com/en-us/library/cc185688(VS.85).aspx"
    (m.tr "Package manager") ""
  detectDLL m p.name "MSI.dll" false acc

end WellKnownProgramsThirdPartyPM

/-- The state of `scan`: the job and the detection. -/
structure ScanState extends Detection where
  job : Job

namespace WellKnownProgramsThirdPartyPM

/-- Step of `scan`: `if (job->shouldProceed()) { err = detectMicrosoftInstaller(installed,
rep); if (!err.isEmpty()) job->setErrorMessage(err); }`. -/
def scanMicrosoftInstaller (m : ScanEnv) (s : ScanState) : ScanState :=
  if s.job.shouldProceed then
    let d := detectMicrosoftInstaller m s.toDetection
    let job := s.job.polled
    { toDetection := d.1, job := if d.2 ≠ "" then job.setErrorMessage d.2 else job }
  else
    { s with job := s.job.polled }

/-- Steps of `scan`: `if (job->shouldProceed()) detectJRE(installed, rep, false);` and the
like for `detectJDK`; with `w64bit` the detection is made on 64 bit Windows only. -/
def scanJava (m : ScanEnv) (detect : ScanEnv → Detection → Bool → Detection) (w64bit : Bool)
    (s : ScanState) : ScanState :=
  if s.job.shouldProceed then
    if w64bit then
      if m.is64BitWindows then
        { toDetection := detect m s.toDetection true, job := s.job.polled }
      else
        { s with job := s.job.polled }
    else
      { toDetection := detect m s.toDetection false, job := s.job.polled }
  else
    { s with job := s.job.polled }

/-- Steps of `scan`: one of the packages of Npackd is saved, `if (job->shouldProceed()) {
Package* p = new Package(name, title); ... err = rep->savePackage(p); if (!err.isEmpty())
job->setErrorMessage(err); }`. -/
def scanSavePackage (m : ScanEnv) (p : Package) (description : String) (s : ScanState) :
    ScanState :=
  if s.job.shouldProceed then
    let d := s.toDetection.savePackage m p "http://code.google.com/p/windows-package-manager/"
      description ""
    let job := s.job.polled
    { toDetection := d.1, job := if d.2 ≠ "" then job.setErrorMessage d.2 else job }
  else
    { s with job := s.job.polled }

/-- Step of `scan`: the running program itself is reported as installed under
`packageName`. -/
def scanSelf (m : ScanEnv) (packageName : String) (s : ScanState) : ScanState :=
  if s.job.shouldProceed then
    let version := m.NPACKD_VERSION
    let d := s.toDetection.savePackageVersion m packageName version
    let job := s.job.polled
    { toDetection := d.1.append ⟨packageName, version, m.getExeDir⟩,
      job := if d.2 ≠ "" then job.setErrorMessage d.2 else job }
  else
    { s with job := s.job.polled }

/-- The start of `scan`, which polls nothing: `detectWindows(installed, rep);
scanDotNet(installed, rep); QString err = detectMSXML(installed, rep); if (!err.isEmpty())
job->setErrorMessage(err);`. -/
def scanStart (m : ScanEnv) (s : ScanState) : ScanState :=
  let d := detectWindows m s.toDetection
  let d := scanDotNet m d
  let r := detectMSXML m d
  { toDetection := r.1, job := if r.2 ≠ "" then s.job.setErrorMessage r.2 else s.job }

/-- The function `scan` (lines 356-443) of an object constructed with `packageName`, on
the job and the list `installed` handed in. -/
def scan (m : ScanEnv) (packageName : String) (job : Job)
    (installed : List InstalledPackageVersion) : ScanState :=
  let s : ScanState := { installed := installed, job := job }
  let s := scanStart m s
  let s := scanMicrosoftInstaller m s
  let s := scanJava m detectJRE false s
  let s := scanJava m detectJRE true s
  let s := scanJava m detectJDK false s
  let s := scanJava m detectJDK true s
  let s := scanSavePackage m ⟨"com.googlecode.windows-package-manager.Npackd", "Npackd"⟩
    "package manager" s
  let s := scanSavePackage m
    ⟨"com.googlecode.windows-package-manager.Npackd64", "Npackd 64 bit"⟩ "package manager" s
  let s := scanSavePackage m ⟨"com.googlecode.windows-package-manager.NpackdCL", "NpackdCL"⟩
    "command line interface to Npackd" s
  let s := scanSelf m packageName s
  let job := if s.job.shouldProceed then s.job.polled.setProgress 1 else s.job.polled
  { s with job := job.complete }

end WellKnownProgramsThirdPartyPM

/-- The installed package versions that a list of calls appends, in order. -/
def ScanEvent.appended : List ScanEvent → List InstalledPackageVersion
  | [] => []
  | .append ipv :: t => ipv :: ScanEvent.appended t
  | _ :: t => ScanEvent.appended t

/-- A call `savePackage` for a package of the given name. -/
def ScanEvent.savesPackage (name : String) : ScanEvent → Bool
  | .savePackage p _ _ _ => decide (p.name = name)
  | _ => false

/-- A call `installed->append`. -/
def ScanEvent.isAppend : ScanEvent → Bool
  | .append _ => true
  | _ => false

/-- Calls in which every `append` directly follows the call `savePackageVersion` for the
same package and version. -/
inductive Paired : List ScanEvent → Prop where
  | nil : Paired []
  | other (e : ScanEvent) (t : List ScanEvent) : e.isAppend = false → Paired t → Paired (e :: t)
  | pair (p : String) (v : Version) (dir : String) (t : List ScanEvent) : Paired t →
      Paired (ScanEvent.savePackageVersion p v :: ScanEvent.append ⟨p, v, dir⟩ :: t)

/-- Every appended entry is of a package for which `savePackage` is among the calls. -/
def Saved (t : List ScanEvent) : Prop :=
  ∀ ipv, ScanEvent.append ipv ∈ t → ∃ e ∈ t, e.savesPackage ipv.package = true

/-- The detection step from `s` to `s'` keeps what was there: the calls made before are
still in the trace, a trace in which every `append` directly follows its
`savePackageVersion` stays so, and the list `installed` grows by the appended entries. -/
def Keeps (s s' : Detection) : Prop :=
  (∀ e ∈ s.trace, e ∈ s'.trace) ∧ (Paired s.trace → Paired s'.trace) ∧
    ∀ l, s.installed = l ++ ScanEvent.appended s.trace →
      s'.installed = l ++ ScanEvent.appended s'.trace

/-- The three packages of Npackd that `scan` saves. -/
def npackdPackages : List String :=
  ["com.googlecode.windows-package-manager.Npackd",
   "com.googlecode.windows-package-manager.Npackd64",
   "com.googlecode.windows-package-manager.NpackdCL"]

/-- A detection step that keeps what was there and saves the package of every entry it
appends. -/
def Detects (s s' : Detection) : Prop :=
  Keeps s s' ∧ (Saved s.trace → Saved s'.trace)

/-- The call `savePackage` for the package `name` is in the trace. -/
def Detection.hasPackage (s : Detection) (name : String) : Prop :=
  ∃ e ∈ s.trace, e.savesPackage name = true

/-- The state of `scan` before the running program itself is reported. -/
def WellKnownProgramsThirdPartyPM.scanBeforeSelf (m : ScanEnv) (job : Job)
    (installed : List InstalledPackageVersion) : ScanState :=
  let s : ScanState := { installed := installed, job := job }
  let s := scanStart m s
  let s := scanMicrosoftInstaller m s
  let s := scanJava m detectJRE false s
  let s := scanJava m detectJRE true s
  let s := scanJava m detectJDK false s
  let s := scanJava m detectJDK true s
  let s := scanSavePackage m ⟨"com.googlecode.windows-package-manager.Npackd", "Npackd"⟩
    "package manager" s
  let s := scanSavePackage m
    ⟨"com.googlecode.windows-package-manager.Npackd64", "Npackd 64 bit"⟩ "package manager" s
  scanSavePackage m ⟨"com.googlecode.windows-package-manager.NpackdCL", "NpackdCL"⟩
    "command line interface to Npackd" s

/-- The calls with which `scan` reports the running program under `packageName`. -/
def WellKnownProgramsThirdPartyPM.selfCalls (m : ScanEnv) (packageName : String) :
    List ScanEvent :=
  [ScanEvent.savePackageVersion packageName m.NPACKD_VERSION,
    ScanEvent.append ⟨packageName, m.NPACKD_VERSION, m.getExeDir⟩]

/-- A 64 bit machine with Windows 6.1.7601, `MSI.dll` 5.0.7601 and `msxml3.dll` 8.110;
nothing of Java or .NET is in the registry. -/
def Example.machine : ScanEnv :=
  { getDLLVersion := fun dll =>
      if dll = "MSI.dll" then ⟨[5, 0, 7601]⟩
      else if dll = "msxml3.dll" then ⟨[8, 110]⟩
      else ⟨[0, 0]⟩ }

/-- A job that carries an error when it is handed to `scan`. -/
def Example.failedJob : Job := { errorMessage := "The repository is locked" }

/-- A job that is cancelled when it is handed to `scan`. -/
def Example.cancelledJob : Job := Job.create (some 0)

/-- The operations include the removal of the running program, and every step of the
self-update succeeds. -/
def Example.selfUpdate : Env :=
  { includesRemoveItself := fun _ => true }

/-- A machine with the .NET keys `v1.0.3705`, `v1.1.4322`, `v3.5` and `v4` in the registry;
the versions are parsed for the key names and values that occur. -/
def Example.dotNet : ScanEnv :=
  { setVersion := fun s =>
      if s = "1.0.3705" then some ⟨[1, 0, 3705]⟩
      else if s = "1.1.4322" then some ⟨[1, 1, 4322]⟩
      else if s = "3.5" then some ⟨[3, 5]⟩
      else if s = "3.5.30729.4926" then some ⟨[3, 5, 30729, 4926]⟩
      else if s = "4" then some ⟨[4]⟩
      else if s = "4.8.04084" then some ⟨[4, 8, 4084]⟩
      else none,
    regOpen := fun _ => "",
    regGet := fun wr name =>
      if name = "Version" ∧ wr.path = "NDP\\v3.5" then ("3.5.30729.4926", "")
      else if name = "Version" ∧ wr.path = "NDP\\v4\\Full" then ("4.8.04084", "")
      else ("", "The value does not exist") }

/-- Two packages whose titles are equal ignoring case: `com.example.Editor` has the title
"Editor", every other package the title "editor". -/
def Example.sameTitle : Env :=
  { getPackageTitle := fun pv =>
      if pv.package = "com.example.Editor" then "Editor" else "editor" }

/-- Version 1.0 of `com.example.Editor` with its title. -/
def Example.editorOne : TitledVersion := (⟨"com.example.Editor", ⟨[1, 0]⟩, []⟩, "Editor")

/-- Version 2.0 of `com.example.Editor` with its title. -/
def Example.editorTwo : TitledVersion := (⟨"com.example.Editor", ⟨[2, 0]⟩, []⟩, "Editor")

/-- Version 5.0 of `org.example.Editor` with its title. -/
def Example.otherEditor : TitledVersion := (⟨"org.example.Editor", ⟨[5, 0]⟩, []⟩, "editor")

/-- The command line `--url=https://www.example.com/Rep.xml`; one other repository is
stored. -/
def Example.newRepository : Env :=
  { cl := { get := fun name =>
      if name = "url" then some "https://www.example.com/Rep.xml" else none },
    getRepositoryURLs := ([Example.defaultRepository], "") }

/-! ## Progress requested on a job, used to state claim C21 -/

/-- The weight of the sub-job that a call creates; other calls count zero. -/
def JobEvent.weight : JobEvent → ℚ
  | .newSubJob weight _ => weight
  | _ => 0

/-- The sum of the weights of the sub-jobs created in a list of calls. -/
def JobEvent.subJobWeights (l : List JobEvent) : ℚ := (l.map JobEvent.weight).sum

/-- The progress calls `l` made on one job never ask for a regress or for more than 1: the
weights of the sub-jobs created sum to at most 1, and every `setProgress(p)` has
`0 <= p <= 1`, `p` at least the sum of the weights of the sub-jobs created before it, and
`p` plus the weights of the sub-jobs created after it at most 1. -/
def ProgressOk (l : List JobEvent) : Prop :=
  JobEvent.subJobWeights l ≤ 1 ∧
  ∀ pre p post, l = pre ++ JobEvent.setProgress p :: post →
    0 ≤ p ∧ p ≤ 1 ∧ JobEvent.subJobWeights pre ≤ p ∧ p + JobEvent.subJobWeights post ≤ 1

/-- The calls logged from job `j` to job `j'` are some of the calls `full`, in their
order. -/
def LogWithin (full : List JobEvent) (j j' : Job) : Prop :=
  ∃ X, j'.log = j.log ++ X ∧ X.Sublist full

/-- The test of `ProgressOk` on the calls after sub-jobs of total weight `before` were
created: every `setProgress(p)` is within `[0, 1]`, not below the weights before it and,
with the weights after it, not above 1. -/
def JobEvent.checkFrom (before : ℚ) : List JobEvent → Bool
  | [] => true
  | .setProgress p :: rest =>
    decide (0 ≤ p) && decide (p ≤ 1) && decide (before ≤ p) &&
      decide (p + JobEvent.subJobWeights rest ≤ 1) && JobEvent.checkFrom before rest
  | e :: rest => JobEvent.checkFrom (before + e.weight) rest

/-- The command line `--status=installed --query=editor`; the repository knows one
installed package that matches. -/
def Example.searchInstalled : Env :=
  { cl := { get := fun name =>
      if name = "status" then some "installed"
      else if name = "query" then some "editor" else none },
    findPackages := fun onlyInstalled _ =>
      if onlyInstalled then (["com.example.Editor"], "")
      else (["com.example.Editor", "org.example.Editor"], ""),
    fetchPackages := fun names => names.map fun n => ⟨n, "Editor"⟩ }

/-- The command line `--status=new`. -/
def Example.searchWrongStatus : Env :=
  { cl := { get := fun name => if name = "status" then some "new" else none } }

/-! # Theorems -/

/-! ## Jobs -/

@[simp] theorem Job.errorMessage_polled (j : Job) : j.polled.errorMessage = j.errorMessage := rfl
@[simp] theorem Job.errorMessage_newSubJob (j : Job) (w : ℚ) (t : String) :
    (j.newSubJob w t).errorMessage = j.errorMessage := rfl
@[simp] theorem Job.errorMessage_subJobCompleted (j : Job) (w : ℚ) :
    (j.subJobCompleted w).errorMessage = j.errorMessage := rfl
@[simp] theorem Job.errorMessage_setProgress (j : Job) (p : ℚ) :
    (j.setProgress p).errorMessage = j.errorMessage := rfl
@[simp] theorem Job.errorMessage_complete (j : Job) : j.complete.errorMessage = j.errorMessage := rfl
@[simp] theorem Job.errorMessage_setTitle (j : Job) (t : String) :
    (j.setTitle t).errorMessage = j.errorMessage := rfl
@[simp] theorem Job.getErrorMessage_eq (j : Job) : j.getErrorMessage = j.errorMessage := rfl

theorem Job.errorMessage_setErrorMessage (j : Job) (msg : String) :
    (j.setErrorMessage msg).errorMessage = if j.errorMessage = "" then msg else j.errorMessage := by
  unfold Job.setErrorMessage
  split <;> simp_all

/-- A job with an error keeps it: `setErrorMessage` never clears a message. -/
theorem Job.setErrorMessage_ne (j : Job) (msg : String) (h : j.errorMessage ≠ "") :
    (j.setErrorMessage msg).errorMessage ≠ "" := by
  rw [Job.errorMessage_setErrorMessage]; simp [h]

/-- Recording a non-empty message leaves the job with a non-empty message. -/
theorem Job.setErrorMessage_ne_of_ne (j : Job) (msg : String) (h : msg ≠ "") :
    (j.setErrorMessage msg).errorMessage ≠ "" := by
  rw [Job.errorMessage_setErrorMessage]; split <;> assumption

theorem Job.shouldProceed_iff (j : Job) :
    j.shouldProceed = true ↔ j.errorMessage = "" ∧ j.isCancelled = false := by
  simp [Job.shouldProceed]

/-- A job with an error message should not proceed. -/
theorem Job.shouldProceed_of_error (j : Job) (h : j.errorMessage ≠ "") :
    j.shouldProceed = false := by
  simp [Job.shouldProceed, h]

/-! ## Steps shared by the commands -/

theorem App.readRegistry_calls (env : Env) (w : ℚ) (r : Run) :
    (App.readRegistry env w r).calls =
      if r.job.shouldProceed then r.calls ++ [Event.readRegistryDatabase env.readRegistryDatabase]
      else r.calls := by
  unfold App.readRegistry
  split
  · dsimp only; split <;> rfl
  · rfl

theorem App.readRegistry_out (env : Env) (w : ℚ) (r : Run) :
    (App.readRegistry env w r).out = r.out := by
  unfold App.readRegistry
  split
  · dsimp only; split <;> rfl
  · rfl

theorem App.readRegistry_errorMessage (env : Env) (w : ℚ) (r : Run) :
    (App.readRegistry env w r).job.errorMessage =
      if r.job.shouldProceed then env.readRegistryDatabase else r.job.errorMessage := by
  unfold App.readRegistry
  split
  · rename_i h
    have h0 := ((Job.shouldProceed_iff _).1 h).1
    dsimp only; split
    · simp [Job.errorMessage_setErrorMessage, h0]
    · simp_all
  · rfl

theorem App.detectInstalled_calls (env : Env) (w : ℚ) (r : Run) :
    (App.detectInstalled env w r).calls =
      if r.job.shouldProceed then r.calls ++ [Event.refresh env.refresh] else r.calls := by
  unfold App.detectInstalled
  split
  · dsimp only; split <;> rfl
  · rfl

theorem App.detectInstalled_out (env : Env) (w : ℚ) (r : Run) :
    (App.detectInstalled env w r).out = r.out := by
  unfold App.detectInstalled
  split
  · dsimp only; split <;> rfl
  · rfl

theorem App.detectInstalled_errorMessage (env : Env) (w : ℚ) (r : Run) :
    (App.detectInstalled env w r).job.errorMessage =
      if r.job.shouldProceed then env.refresh else r.job.errorMessage := by
  unfold App.detectInstalled
  split
  · rename_i h
    have h0 := ((Job.shouldProceed_iff _).1 h).1
    dsimp only; split
    · simp [Job.errorMessage_setErrorMessage, h0]
    · simp_all
  · rfl

/-- All calls made so far are preparations. -/
theorem App.readRegistry_prepared (env : Env) (w : ℚ) (r : Run)
    (h : ∀ e ∈ r.calls, e.isPreparation = true) :
    ∀ e ∈ (App.readRegistry env w r).calls, e.isPreparation = true := by
  rw [App.readRegistry_calls]
  split
  · intro e he
    rcases List.mem_append.1 he with he | he
    · exact h e he
    · simp at he; subst he; rfl
  · exact h

theorem App.detectInstalled_prepared (env : Env) (w : ℚ) (r : Run)
    (h : ∀ e ∈ r.calls, e.isPreparation = true) :
    ∀ e ∈ (App.detectInstalled env w r).calls, e.isPreparation = true := by
  rw [App.detectInstalled_calls]
  split
  · intro e he
    rcases List.mem_append.1 he with he | he
    · exact h e he
    · simp at he; subst he; rfl
  · exact h

/-! ## `App::update` -/

theorem App.updateCloseType_calls (env : Env) (s : UpdateState) :
    (App.updateCloseType env s).calls = s.calls := by
  unfold App.updateCloseType
  split
  · dsimp only; split <;> rfl
  · rfl

theorem App.updateMissingOption_calls (ps : List String) (s : UpdateState) :
    (App.updateMissingOption ps s).calls = s.calls := by
  unfold App.updateMissingOption
  split
  · dsimp only; split <;> rfl
  · rfl

theorem App.updateCheckNames_calls (env : Env) (ps : List String) (s : UpdateState) :
    (App.updateCheckNames env ps s).calls = s.calls := by
  unfold App.updateCheckNames
  split <;> rfl

theorem App.updateFindOne_prepared (env : Env) (p : String) (s : UpdateState)
    (h : ∀ e ∈ s.calls, e.isPreparation = true) :
    ∀ e ∈ (App.updateFindOne env p s).calls, e.isPreparation = true := by
  have hc : ∀ e ∈ (App.updateFindOne env p s).calls, e ∈ s.calls ∨
      e = Event.findPackage p ∨ e = Event.findPackagesByShortName p := by
    unfold App.updateFindOne
    dsimp only
    intro e he
    split at he
    · split at he
      · split at he <;> (try split at he) <;> simp at he <;> rcases he with he | he <;> simp [he]
      · split at he <;> (try split at he) <;> simp at he <;> rcases he with he | he <;> simp [he]
    · split at he <;> simp at he <;> rcases he with he | he <;> simp [he]
  intro e he
  rcases hc e he with h1 | h1 | h1
  · exact h e h1
  · subst h1; rfl
  · subst h1; rfl

theorem App.updateFindPackages_prepared (env : Env) (ps : List String) :
    ∀ s : UpdateState, (∀ e ∈ s.calls, e.isPreparation = true) →
      ∀ e ∈ (App.updateFindPackages env ps s).calls, e.isPreparation = true := by
  induction ps with
  | nil => intro s h; exact h
  | cons p rest ih =>
    intro s h
    unfold App.updateFindPackages
    dsimp only
    split
    · exact App.updateFindOne_prepared env p s h
    · exact ih _ (App.updateFindOne_prepared env p s h)

theorem App.updateLookup_prepared (env : Env) (ps : List String) (s : UpdateState)
    (h : ∀ e ∈ s.calls, e.isPreparation = true) :
    ∀ e ∈ (App.updateLookup env ps s).calls, e.isPreparation = true := by
  unfold App.updateLookup
  split
  · exact App.updateFindPackages_prepared env ps _ h
  · exact h

theorem App.updateBeforePlan_prepared (env : Env) :
    ∀ e ∈ (App.updateBeforePlan env).calls, e.isPreparation = true := by
  unfold App.updateBeforePlan
  dsimp only
  apply App.updateLookup_prepared
  rw [App.updateCheckNames_calls, App.updateMissingOption_calls, App.updateCloseType_calls]
  apply App.detectInstalled_prepared
  apply App.readRegistry_prepared
  intro e he
  simp at he

/-! ## `App::processInstallOperations` -/

theorem App.copyExecutable_calls (env : Env) (r : Run) :
    ∀ e ∈ (App.copyExecutable env r).1.calls, e ∈ r.calls ∨ e.isExecution = true := by
  intro e he
  unfold App.copyExecutable at he
  split at he
  · dsimp only at he
    split at he
    · exact Or.inl he
    · split at he
      · exact Or.inl he
      · split at he <;> simp at he <;> rcases he with he | he <;> simp [he, Event.isExecution]
  · exact Or.inl he

theorem App.writeBatchFile_calls (env : Env) (ops : List InstallOperation) (pct : Nat)
    (newExe : String) (r : Run) :
    ∀ e ∈ (App.writeBatchFile env ops pct newExe r).1.calls,
      e ∈ r.calls ∨ e.isExecution = true := by
  intro e he
  unfold App.writeBatchFile at he
  split at he
  · dsimp only at he
    split at he
    · exact Or.inl he
    · simp at he; rcases he with he | he <;> simp [he, Event.isExecution]
  · exact Or.inl he

theorem App.startCopiedBinary_calls (env : Env) (file : String) (r : Run) :
    ∀ e ∈ (App.startCopiedBinary env file r).calls, e ∈ r.calls ∨ e.isExecution = true := by
  intro e he
  unfold App.startCopiedBinary at he
  split at he
  · simp at he; rcases he with he | he <;> simp [he, Event.isExecution]
  · exact Or.inl he

theorem App.processInstallOperations_calls (env : Env) (ops : List InstallOperation)
    (pct : Nat) (r : Run) :
    ∀ e ∈ (App.processInstallOperations env ops pct r).calls,
      e ∈ r.calls ∨ e.isExecution = true := by
  intro e he
  unfold App.processInstallOperations at he
  split at he
  · dsimp only at he
    rcases App.startCopiedBinary_calls env _ _ e he with h1 | h1
    · rcases App.writeBatchFile_calls env _ _ _ _ e h1 with h2 | h2
      · exact App.copyExecutable_calls env r e h2
      · exact Or.inr h2
    · exact Or.inr h1
  · simp at he; rcases he with he | he <;> simp [he, Event.isExecution]

theorem App.runInstallOperations_calls (env : Env) (w : ℚ) (title : String)
    (ops : List InstallOperation) (pct : Nat) (r : Run) :
    ∀ e ∈ (App.runInstallOperations env w title ops pct r).1.calls,
      e ∈ r.calls ∨ e = Event.processInstallOperations ops pct ∨ e.isExecution = true := by
  intro e he
  unfold App.runInstallOperations at he
  dsimp only at he
  rcases App.processInstallOperations_calls env _ _ _ e he with h1 | h1
  · simp at h1; rcases h1 with h1 | h1 <;> simp [h1]
  · exact Or.inr (Or.inr h1)

/-! ## Claim C1 -/

theorem App.updatePlan_of_planned (env : Env) (s : UpdateState) (ps : List Package)
    (hprep : ∀ e ∈ s.calls, e.isPreparation = true)
    (h : Event.planUpdates ps "" [] ∈ (App.updatePlan env s).calls) :
    (App.updatePlan env s).up2date = true ∧ (App.updatePlan env s).job.errorMessage = "" ∧
      (App.updatePlan env s).calls = s.calls ++ [Event.planUpdates ps "" []] ∧
      (App.updatePlan env s).out = s.out := by
  unfold App.updatePlan at h ⊢
  split at h
  · rename_i hp
    have h0 := ((Job.shouldProceed_iff _).1 hp).1
    rw [if_pos hp]
    dsimp only at h ⊢
    split at h
    · rename_i herr
      simp at h
      rcases h with h | h
      · have := hprep _ h; simp [Event.isPreparation] at this
      · exact absurd h.2.1.symm herr
    · rename_i herr
      simp at h
      rcases h with h | h
      · have := hprep _ h; simp [Event.isPreparation] at this
      · rw [if_neg herr]
        obtain ⟨h1, h2, h3⟩ := h
        subst h1
        simp [← h2, h3, h0]
  · have := hprep _ h; simp [Event.isPreparation] at this

theorem App.updateProcess_of_up2date (env : Env) (s : UpdateState) (h : s.up2date = true) :
    App.updateProcess env s = { s with job := s.job.polled } := by
  unfold App.updateProcess
  simp [h]

theorem App.updateProcess_calls (env : Env) (s : UpdateState) :
    ∀ e ∈ (App.updateProcess env s).calls,
      e ∈ s.calls ∨ e.isProcessInstallOperations = true ∨ e.isExecution = true := by
  intro e he
  unfold App.updateProcess at he
  split at he
  · dsimp only at he
    have key := App.runInstallOperations_calls env (85/100) "Updating" s.ops s.programCloseType
      { s.toRun with job := s.job.polled } e
    split at he
    · rcases key he with h1 | h1 | h1
      · exact Or.inl h1
      · subst h1; exact Or.inr (Or.inl rfl)
      · exact Or.inr (Or.inr h1)
    · rcases key he with h1 | h1 | h1
      · exact Or.inl h1
      · subst h1; exact Or.inr (Or.inl rfl)
      · exact Or.inr (Or.inr h1)
  · exact Or.inl he

theorem App.updateFinish_calls (s : UpdateState) : (App.updateFinish s).calls = s.calls := by
  unfold App.updateFinish
  dsimp only
  split
  · rfl
  · split
    · rfl
    · split <;> rfl

/-- Claim C1.  In `App::update`, whenever `planUpdates` returns no error and an empty list
of operations, `processInstallOperations` is never called; and if the job is not
cancelled when the command finishes, the command prints "The packages are already
up-to-date" and returns an empty error message. -/
theorem C1_update_up_to_date (env : Env) (packages : List Package)
    (h : Event.planUpdates packages "" [] ∈ (App.update env).calls) :
    (∀ e ∈ (App.update env).calls, e.isProcessInstallOperations = false) ∧
    ((App.updateBeforeFinish env).job.complete.isCancelled = false →
      "The packages are already up-to-date\n" ∈ (App.update env).out ∧
      (App.update env).err = "") := by
  have hprep := App.updateBeforePlan_prepared env
  unfold App.update at h ⊢
  rw [App.updateFinish_calls] at h ⊢
  unfold App.updateBeforeFinish at h ⊢
  have h1 : Event.planUpdates packages "" [] ∈
      (App.updatePlan env (App.updateBeforePlan env)).calls := by
    rcases App.updateProcess_calls env _ _ h with h1 | h1 | h1
    · exact h1
    · simp [Event.isProcessInstallOperations] at h1
    · simp [Event.isExecution] at h1
  obtain ⟨hu, he, hc, _⟩ := App.updatePlan_of_planned env _ packages hprep h1
  rw [App.updateProcess_of_up2date env _ hu]
  generalize App.updateBeforePlan env = s0 at *
  generalize App.updatePlan env s0 = s1 at *
  constructor
  · intro e hmem
    have hmem2 : e ∈ s1.calls := hmem
    rw [hc] at hmem2
    rcases List.mem_append.1 hmem2 with h2 | h2
    · have := hprep e h2
      cases e <;> simp_all [Event.isPreparation, Event.isProcessInstallOperations]
    · simp at h2; subst h2; rfl
  · intro hcanc
    unfold App.updateFinish
    dsimp only
    rw [if_neg (by simpa using hcanc), if_pos hu]
    simp [he]

/-- Claim C1 at work: the update of a package that is up to date. -/
theorem C1_update_up_to_date_witness :
    Event.planUpdates [⟨"com.example.Editor", "Editor"⟩] "" [] ∈
        (App.update Example.upToDate).calls ∧
      (∀ e ∈ (App.update Example.upToDate).calls, e.isProcessInstallOperations = false) ∧
      ((App.updateBeforeFinish Example.upToDate).job.complete.isCancelled = false →
        "The packages are already up-to-date\n" ∈ (App.update Example.upToDate).out ∧
        (App.update Example.upToDate).err = "") :=
  ⟨by decide,
    C1_update_up_to_date Example.upToDate [⟨"com.example.Editor", "Editor"⟩] (by decide)⟩

/-! ## Lists of calls that continue one another -/

theorem ContinuesWith.unchanged (K : Event → Prop) (l : List Event) : ContinuesWith K l l :=
  ⟨[], by simp, by simp⟩

theorem ContinuesWith.single (K : Event → Prop) (l : List Event) (e : Event) (h : K e) :
    ContinuesWith K l (l ++ [e]) :=
  ⟨[e], rfl, by simpa using h⟩

theorem ContinuesWith.followedBy {K : Event → Prop} {l₁ l₂ l₃ : List Event}
    (h₁ : ContinuesWith K l₁ l₂) (h₂ : ContinuesWith K l₂ l₃) : ContinuesWith K l₁ l₃ := by
  obtain ⟨X, rfl, hX⟩ := h₁
  obtain ⟨Y, rfl, hY⟩ := h₂
  refine ⟨X ++ Y, by simp, ?_⟩
  intro e he
  rcases List.mem_append.1 he with he | he
  · exact hX e he
  · exact hY e he

theorem ContinuesWith.mono {K K' : Event → Prop} {l l' : List Event}
    (h : ContinuesWith K l l') (hk : ∀ e, K e → K' e) : ContinuesWith K' l l' := by
  obtain ⟨X, rfl, hX⟩ := h
  exact ⟨X, rfl, fun e he => hk e (hX e he)⟩

theorem App.copyExecutable_continues (env : Env) (r : Run) :
    ContinuesWith (fun e => e.isStaging = true) r.calls (App.copyExecutable env r).1.calls := by
  unfold App.copyExecutable
  split
  · dsimp only
    split
    · exact ContinuesWith.unchanged _ _
    · split
      · exact ContinuesWith.unchanged _ _
      · split <;> exact ContinuesWith.single _ _ _ rfl
  · exact ContinuesWith.unchanged _ _

theorem App.writeBatchFile_continues (env : Env) (ops : List InstallOperation) (pct : Nat)
    (newExe : String) (r : Run) :
    ContinuesWith (fun e => e.isStaging = true) r.calls
      (App.writeBatchFile env ops pct newExe r).1.calls := by
  unfold App.writeBatchFile
  split
  · dsimp only
    split
    · exact ContinuesWith.unchanged _ _
    · exact ContinuesWith.single _ _ _ rfl
  · exact ContinuesWith.unchanged _ _

theorem App.startCopiedBinary_continues (env : Env) (file : String) (r : Run) :
    ContinuesWith (fun e => e.isStaging = true) r.calls
      (App.startCopiedBinary env file r).calls := by
  unfold App.startCopiedBinary
  split
  · exact ContinuesWith.single _ _ _ rfl
  · exact ContinuesWith.unchanged _ _

theorem Event.isExecution_of_isStaging (e : Event) (h : e.isStaging = true) :
    e.isExecution = true := by
  cases e <;> simp [Event.isStaging, Event.isExecution] at h ⊢

/-- The three steps of the self-update make staging calls only. -/
theorem App.selfUpdate_continues (env : Env) (ops : List InstallOperation) (pct : Nat)
    (r : Run) :
    ContinuesWith (fun e => e.isStaging = true) r.calls
      (App.startCopiedBinary env
        (App.writeBatchFile env ops pct (App.copyExecutable env r).2
          (App.copyExecutable env r).1).2
        (App.writeBatchFile env ops pct (App.copyExecutable env r).2
          (App.copyExecutable env r).1).1).calls :=
  (App.copyExecutable_continues env r).followedBy
    ((App.writeBatchFile_continues env _ _ _ _).followedBy
      (App.startCopiedBinary_continues env _ _))

theorem App.processInstallOperations_continues (env : Env) (ops : List InstallOperation)
    (pct : Nat) (r : Run) :
    ContinuesWith (fun e => e.isExecution = true) r.calls
      (App.processInstallOperations env ops pct r).calls := by
  unfold App.processInstallOperations
  split
  · dsimp only
    exact (App.selfUpdate_continues env ops pct r).mono Event.isExecution_of_isStaging
  · exact ContinuesWith.single _ _ _ rfl

theorem App.runInstallOperations_continues (env : Env) (w : ℚ) (title : String)
    (ops : List InstallOperation) (pct : Nat) (r : Run) :
    ContinuesWith (fun e => e.isProcessInstallOperations = true ∨ e.isExecution = true) r.calls
      (App.runInstallOperations env w title ops pct r).1.calls := by
  unfold App.runInstallOperations
  dsimp only
  have h1 : ContinuesWith (fun e => e.isProcessInstallOperations = true ∨ e.isExecution = true)
      r.calls (r.calls ++ [Event.processInstallOperations ops pct]) :=
    ContinuesWith.single _ _ _ (Or.inl rfl)
  exact h1.followedBy ((App.processInstallOperations_continues env ops pct _).mono
    fun e he => Or.inr he)

/-! ## Claim C2 -/

theorem EndsAtFailedPlanning.of_forall {l : List Event}
    (h : ∀ e ∈ l, e.isFailedPlanning = false) : EndsAtFailedPlanning l := by
  unfold EndsAtFailedPlanning
  rw [List.pairwise_iff_forall_sublist]
  intro a b hab
  exact h a (hab.subset (by simp))

theorem EndsAtFailedPlanning.append {l X : List Event} (hl : EndsAtFailedPlanning l)
    (hX : EndsAtFailedPlanning X) (h : X ≠ [] → ∀ e ∈ l, e.isFailedPlanning = false) :
    EndsAtFailedPlanning (l ++ X) := by
  unfold EndsAtFailedPlanning at *
  rw [List.pairwise_append]
  refine ⟨hl, hX, ?_⟩
  intro a ha b hb
  exact h (List.ne_nil_of_mem hb) a ha

theorem PlanStep.idle (r : Run) : PlanStep r r :=
  ⟨[], by simp, by simp, EndsAtFailedPlanning.of_forall (by simp), by simp,
    fun h => ⟨rfl, h⟩, rfl⟩

theorem PlanStep.andThen {r₁ r₂ r₃ : Run} (h₁ : PlanStep r₁ r₂) (h₂ : PlanStep r₂ r₃) :
    PlanStep r₁ r₃ := by
  obtain ⟨X, hc, hpl, hend, hfail, herr, hout⟩ := h₁
  obtain ⟨Y, hc', hpl', hend', hfail', herr', hout'⟩ := h₂
  refine ⟨X ++ Y, ?_, ?_, ?_, ?_, ?_, ?_⟩
  · rw [hc', hc, List.append_assoc]
  · intro e he
    rcases List.mem_append.1 he with he | he
    · exact hpl e he
    · exact hpl' e he
  · apply EndsAtFailedPlanning.append hend hend'
    intro hY e he
    by_contra hf
    have : e.isFailedPlanning = true := by simpa using hf
    exact hY (herr' (hfail ⟨e, he, this⟩)).1
  · rintro ⟨e, he, hf⟩
    rcases List.mem_append.1 he with he | he
    · exact (herr' (hfail ⟨e, he, hf⟩)).2
    · exact hfail' ⟨e, he, hf⟩
  · intro h
    obtain ⟨hX, h2⟩ := herr h
    obtain ⟨hY, h3⟩ := herr' h2
    exact ⟨by rw [hX, hY]; rfl, h3⟩
  · rw [hout', hout]

theorem App.addPlanOne_step (env : Env) (installed : List PackageVersion)
    (pv : PackageVersion) (acc : Run × String × List InstallOperation × List PackageVersion) :
    PlanStep acc.1 (App.addPlanOne env installed pv acc).1 := by
  unfold App.addPlanOne
  dsimp only
  by_cases hp : acc.1.job.shouldProceed = true
  · have h0 := ((Job.shouldProceed_iff _).1 hp).1
    rw [if_pos hp]
    dsimp only
    split
    · rename_i he
      refine ⟨[Event.planInstallation pv _], rfl, ?_, List.pairwise_singleton _ _, ?_, ?_, rfl⟩
      · intro e hmem; simp at hmem; subst hmem; exact Or.inl rfl
      · intro _; exact Job.setErrorMessage_ne_of_ne _ _ he
      · intro h; exact absurd h0 h
    · rename_i he
      refine ⟨[Event.planInstallation pv _], rfl, ?_, List.pairwise_singleton _ _, ?_, ?_, rfl⟩
      · intro e hmem; simp at hmem; subst hmem; exact Or.inl rfl
      · rintro ⟨e, hmem, hf⟩
        simp at hmem; subst hmem
        simp [Event.isFailedPlanning] at hf
        exact absurd hf he
      · intro h; exact absurd h0 h
  · rw [if_neg hp]
    dsimp only
    split
    · refine ⟨[], by simp, by simp, EndsAtFailedPlanning.of_forall (by simp), by simp, ?_, rfl⟩
      intro h; exact ⟨rfl, Job.setErrorMessage_ne _ _ h⟩
    · refine ⟨[], by simp, by simp, EndsAtFailedPlanning.of_forall (by simp), by simp, ?_, rfl⟩
      intro h; exact ⟨rfl, h⟩

theorem App.addPlanLoop_step (env : Env) (installed : List PackageVersion) :
    ∀ (targets : List PackageVersion)
      (acc : Run × String × List InstallOperation × List PackageVersion),
      PlanStep acc.1 (App.addPlanLoop env installed targets acc).1 := by
  intro targets
  induction targets with
  | nil => intro acc; exact PlanStep.idle _
  | cons pv rest ih =>
    intro acc
    unfold App.addPlanLoop
    exact (App.addPlanOne_step env installed pv acc).andThen (ih _)

/-- A step that makes one preparation call. -/
theorem PlanStep.preparation {r r' : Run} (e : Event) (he : e.isPreparation = true)
    (hc : r'.calls = r.calls ++ [e]) (hj : r.job.errorMessage = "") (ho : r'.out = r.out) :
    PlanStep r r' := by
  refine ⟨[e], hc, ?_, List.pairwise_singleton _ _, ?_, ?_, ho⟩
  · intro x hx; simp at hx; subst hx; exact Or.inr he
  · rintro ⟨x, hx, hf⟩
    simp at hx; subst hx
    cases x <;> simp_all [Event.isPreparation, Event.isFailedPlanning]
  · intro h; exact absurd hj h

/-- A step that makes no call. -/
theorem PlanStep.silent {r r' : Run} (hc : r'.calls = r.calls)
    (hj : r.job.errorMessage ≠ "" → r'.job.errorMessage ≠ "") (ho : r'.out = r.out) :
    PlanStep r r' :=
  ⟨[], by simp [hc], by simp, EndsAtFailedPlanning.of_forall (by simp), by simp,
    fun h => ⟨rfl, hj h⟩, ho⟩

theorem App.readRegistry_step (env : Env) (w : ℚ) (r : Run) :
    PlanStep r (App.readRegistry env w r) := by
  by_cases hp : r.job.shouldProceed = true
  · apply PlanStep.preparation (Event.readRegistryDatabase env.readRegistryDatabase) rfl
    · rw [App.readRegistry_calls, if_pos hp]
    · exact ((Job.shouldProceed_iff _).1 hp).1
    · exact App.readRegistry_out env w r
  · apply PlanStep.silent
    · rw [App.readRegistry_calls, if_neg hp]
    · intro h; rw [App.readRegistry_errorMessage, if_neg hp]; exact h
    · exact App.readRegistry_out env w r

theorem App.detectInstalled_step (env : Env) (w : ℚ) (r : Run) :
    PlanStep r (App.detectInstalled env w r) := by
  by_cases hp : r.job.shouldProceed = true
  · apply PlanStep.preparation (Event.refresh env.refresh) rfl
    · rw [App.detectInstalled_calls, if_pos hp]
    · exact ((Job.shouldProceed_iff _).1 hp).1
    · exact App.detectInstalled_out env w r
  · apply PlanStep.silent
    · rw [App.detectInstalled_calls, if_neg hp]
    · intro h; rw [App.detectInstalled_errorMessage, if_neg hp]; exact h
    · exact App.detectInstalled_out env w r

theorem App.addPlan_step (env : Env) (s : PlanState) :
    PlanStep s.toRun (App.addPlan env s).toRun := by
  unfold App.addPlan
  by_cases hp : s.job.shouldProceed = true
  · have h0 := ((Job.shouldProceed_iff _).1 hp).1
    rw [if_pos hp]
    dsimp only
    refine PlanStep.andThen ?_ (App.addPlanLoop_step env _ _ _)
    dsimp only
    exact PlanStep.preparation (r := s.toRun) (Event.getInstalled env.getInstalled.2) rfl rfl
      h0 rfl
  · rw [if_neg hp]
    exact PlanStep.silent rfl (fun h => h) rfl

theorem App.removePlanLoop_step (env : Env) (installed : List PackageVersion) :
    ∀ (targets : List PackageVersion) (r : Run) (ops : List InstallOperation),
      r.job.errorMessage = "" →
      PlanStep r (App.removePlanLoop env installed targets (r, ops)).1 := by
  intro targets
  induction targets with
  | nil => intro r ops _; exact PlanStep.idle _
  | cons pv rest ih =>
    intro r ops h0
    unfold App.removePlanLoop
    dsimp only
    split
    · rename_i he
      refine ⟨[Event.planUninstallation pv _], rfl, ?_, List.pairwise_singleton _ _, ?_, ?_, rfl⟩
      · intro e hmem; simp at hmem; subst hmem; exact Or.inl rfl
      · intro _; exact Job.setErrorMessage_ne_of_ne _ _ he
      · intro h; exact absurd h0 h
    · rename_i he
      have h1 : PlanStep r { r with calls := r.calls ++
          [Event.planUninstallation pv (env.planUninstallation pv installed ops).1] } := by
        refine ⟨[Event.planUninstallation pv _], rfl, ?_, List.pairwise_singleton _ _, ?_, ?_,
          rfl⟩
        · intro e hmem; simp at hmem; subst hmem; exact Or.inl rfl
        · rintro ⟨e, hmem, hf⟩
          simp at hmem; subst hmem
          simp [Event.isFailedPlanning] at hf
          exact absurd hf he
        · intro h; exact absurd h0 h
      exact h1.andThen (ih _ _ h0)

theorem App.removePlan_step (env : Env) (s : PlanState) :
    PlanStep s.toRun (App.removePlan env s).toRun := by
  unfold App.removePlan
  by_cases hp : s.job.shouldProceed = true
  · have h0 := ((Job.shouldProceed_iff _).1 hp).1
    rw [if_pos hp]
    dsimp only
    generalize (if env.getInstalled.2 ≠ "" then s.job.polled.setErrorMessage env.getInstalled.2
      else s.job.polled) = job
    have h1 : PlanStep s.toRun
        { job := job.polled, out := s.out,
          calls := s.calls ++ [Event.getInstalled env.getInstalled.2] } :=
      PlanStep.preparation (Event.getInstalled env.getInstalled.2) rfl rfl h0 rfl
    by_cases hp2 : job.shouldProceed = true
    · have h2 := ((Job.shouldProceed_iff _).1 hp2).1
      rw [if_pos hp2]
      exact h1.andThen (App.removePlanLoop_step env _ _ _ _ h2)
    · rw [if_neg hp2]
      exact h1
  · rw [if_neg hp]
    exact PlanStep.silent rfl (fun h => h) rfl

theorem App.addPlan_targets (env : Env) (s : PlanState) :
    (App.addPlan env s).targets = s.targets := by
  unfold App.addPlan
  split <;> rfl

theorem App.removeCloseType_step (env : Env) (r : Run) :
    PlanStep r (App.removeCloseType env r).1 := by
  unfold App.removeCloseType
  split
  · dsimp only
    split
    · exact PlanStep.silent rfl (fun h => Job.setErrorMessage_ne _ _ h) rfl
    · exact PlanStep.silent rfl (fun h => h) rfl
  · exact PlanStep.silent rfl (fun h => h) rfl

/-- The step `if (!err.isEmpty()) job->setErrorMessage(err);` after the options were read. -/
theorem PlanStep.setError (r : Run) (err : String) :
    PlanStep r (if err ≠ "" then { r with job := r.job.setErrorMessage err } else r) := by
  split
  · exact PlanStep.silent rfl (fun h => Job.setErrorMessage_ne _ _ h) rfl
  · exact PlanStep.idle _

/-- The running state of `add` after the planning. -/
theorem App.add_planned (env : Env) :
    ∃ s : PlanState, App.addBeforeFinish env = App.addProcess env s ∧
      PlanStep { job := (Job.create env.cancelAt).setTitle "Installing packages" } s.toRun ∧
      s.targets = (env.getPackageVersionOptions true).1 := by
  unfold App.addBeforeFinish
  dsimp only
  refine ⟨_, rfl, ?_, ?_⟩
  · refine PlanStep.andThen ?_ (App.addPlan_step env _)
    dsimp only
    exact (App.readRegistry_step env _ _).andThen ((App.detectInstalled_step env _ _).andThen
      (PlanStep.setError _ _))
  · rw [App.addPlan_targets]

/-- The running state of `remove` after the planning. -/
theorem App.remove_planned (env : Env) :
    ∃ s : PlanState, App.removeBeforeFinish env = App.removeProcess env s ∧
      PlanStep { job := (Job.create env.cancelAt).setTitle "Removing packages" } s.toRun := by
  unfold App.removeBeforeFinish
  dsimp only
  refine ⟨_, rfl, ?_⟩
  refine PlanStep.andThen ?_ (App.removePlan_step env _)
  dsimp only
  exact (App.readRegistry_step env _ _).andThen ((App.detectInstalled_step env _ _).andThen
    ((App.removeCloseType_step env _).andThen (PlanStep.setError _ _)))

theorem App.addProcess_spec (env : Env) (s : PlanState) :
    ContinuesWith (fun e => e.isProcessInstallOperations = true ∨ e.isExecution = true)
        s.calls (App.addProcess env s).calls ∧
      (s.job.errorMessage ≠ "" → (App.addProcess env s).calls = s.calls ∧
        (App.addProcess env s).job.errorMessage ≠ "") ∧
      (App.addProcess env s).targets = s.targets := by
  unfold App.addProcess
  split
  · rename_i hp
    have h0 : s.job.errorMessage = "" := by
      simp only [Bool.and_eq_true] at hp
      exact ((Job.shouldProceed_iff _).1 hp.1).1
    have hc := App.runInstallOperations_continues env (9/10) "Installing" s.ops env.CLOSE_WINDOW
      { s.toRun with job := s.job.polled }
    dsimp only
    split
    · exact ⟨hc, fun h => absurd h0 h, rfl⟩
    · exact ⟨hc, fun h => absurd h0 h, rfl⟩
  · exact ⟨ContinuesWith.unchanged _ _, fun h => ⟨rfl, h⟩, rfl⟩

theorem App.removeProcess_spec (env : Env) (s : PlanState) :
    ContinuesWith (fun e => e.isProcessInstallOperations = true ∨ e.isExecution = true)
        s.calls (App.removeProcess env s).calls ∧
      (s.job.errorMessage ≠ "" → (App.removeProcess env s).calls = s.calls ∧
        (App.removeProcess env s).job.errorMessage ≠ "") := by
  unfold App.removeProcess
  split
  · rename_i hp
    have h0 : s.job.errorMessage = "" := ((Job.shouldProceed_iff _).1 hp).1
    have hc := App.runInstallOperations_continues env (9/10) "Removing" s.ops
      s.programCloseType { s.toRun with job := s.job.polled }
    dsimp only
    split
    · exact ⟨hc, fun h => absurd h0 h⟩
    · exact ⟨hc, fun h => absurd h0 h⟩
  · exact ⟨ContinuesWith.unchanged _ _, fun h => ⟨rfl, h⟩⟩

theorem Event.not_failed_of_execution (e : Event)
    (h : e.isProcessInstallOperations = true ∨ e.isExecution = true) :
    e.isFailedPlanning = false := by
  cases e <;> simp [Event.isProcessInstallOperations, Event.isExecution,
    Event.isFailedPlanning] at h ⊢

theorem Event.not_process_of_planning (e : Event)
    (h : e.isPlanning = true ∨ e.isPreparation = true) :
    e.isProcessInstallOperations = false := by
  cases e <;> simp [Event.isProcessInstallOperations, Event.isPlanning,
    Event.isPreparation] at h ⊢

/-- Planning followed by execution: no call follows a failed planning, and after a failed
planning `processInstallOperations` is not called and the job has an error message. -/
theorem PlanStep.then_process {r₀ r r' : Run} (h₀ : r₀.calls = []) (hp : PlanStep r₀ r)
    (hc : ContinuesWith (fun e => e.isProcessInstallOperations = true ∨ e.isExecution = true)
      r.calls r'.calls)
    (he : r.job.errorMessage ≠ "" → r'.calls = r.calls ∧ r'.job.errorMessage ≠ "") :
    EndsAtFailedPlanning r'.calls ∧
      ∀ x ∈ r'.calls, x.isFailedPlanning = true →
        (∀ y ∈ r'.calls, y.isProcessInstallOperations = false) ∧ r'.job.errorMessage ≠ "" := by
  obtain ⟨L, hL, hkind, hend, hfail, _, _⟩ := hp
  rw [h₀, List.nil_append] at hL
  obtain ⟨X, hX, hXkind⟩ := hc
  have hXnf : ∀ e ∈ X, e.isFailedPlanning = false :=
    fun e hmem => Event.not_failed_of_execution e (hXkind e hmem)
  have hLnp : ∀ e ∈ L, e.isProcessInstallOperations = false :=
    fun e hmem => Event.not_process_of_planning e (hkind e hmem)
  have hXnil : (∃ e ∈ L, e.isFailedPlanning = true) → X = [] ∧ r'.job.errorMessage ≠ "" := by
    intro h
    obtain ⟨h1, h2⟩ := he (hfail h)
    have h3 : r.calls ++ X = r.calls ++ [] := by rw [List.append_nil, ← hX, h1]
    exact ⟨List.append_cancel_left h3, h2⟩
  rw [hX, hL]
  constructor
  · apply EndsAtFailedPlanning.append hend (EndsAtFailedPlanning.of_forall hXnf)
    intro hne e hmem
    by_contra hf
    have : e.isFailedPlanning = true := by simpa using hf
    exact hne (hXnil ⟨e, hmem, this⟩).1
  · intro x hx hf
    rcases List.mem_append.1 hx with hx | hx
    · obtain ⟨h1, h2⟩ := hXnil ⟨x, hx, hf⟩
      subst h1
      refine ⟨?_, h2⟩
      intro y hy
      exact hLnp y (by simpa using hy)
    · rw [hXnf x hx] at hf; exact absurd hf (by simp)

/-- Claim C2.  In `App::add` and `App::remove`, once the planning (`planInstallation`,
`planUninstallation`) of one requested package version returns a non-empty error, no
further call is made (`EndsAtFailedPlanning`: no planning of a later version, no
`processInstallOperations`), `processInstallOperations` is not called at all, and the
command returns a non-empty error message. -/
theorem C2_abort_on_planning_error (env : Env) (x : Event) (hf : x.isFailedPlanning = true) :
    (x ∈ (App.add env).calls →
      EndsAtFailedPlanning (App.add env).calls ∧
      (∀ y ∈ (App.add env).calls, y.isProcessInstallOperations = false) ∧
      (App.add env).err ≠ "") ∧
    (x ∈ (App.remove env).calls →
      EndsAtFailedPlanning (App.remove env).calls ∧
      (∀ y ∈ (App.remove env).calls, y.isProcessInstallOperations = false) ∧
      (App.remove env).err ≠ "") := by
  constructor
  · obtain ⟨s, hs, hplan, _⟩ := App.add_planned env
    obtain ⟨hc, he, _⟩ := App.addProcess_spec env s
    have key := PlanStep.then_process rfl hplan hc he
    have hcalls : (App.add env).calls = (App.addProcess env s).calls := by
      unfold App.add App.addFinish
      rw [hs]; dsimp only; split <;> rfl
    have herr : (App.add env).err = (App.addProcess env s).job.errorMessage := by
      unfold App.add App.addFinish
      rw [hs]; dsimp only; split <;> simp_all
    rw [hcalls, herr]
    intro hx
    exact ⟨key.1, (key.2 x hx hf).1, (key.2 x hx hf).2⟩
  · obtain ⟨s, hs, hplan⟩ := App.remove_planned env
    obtain ⟨hc, he⟩ := App.removeProcess_spec env s
    have key := PlanStep.then_process rfl hplan hc he
    have hcalls : (App.remove env).calls = (App.removeProcess env s).calls := by
      unfold App.remove App.removeFinish
      rw [hs]; dsimp only; split
      · rfl
      · split <;> rfl
    rw [hcalls]
    intro hx
    refine ⟨key.1, (key.2 x hx hf).1, ?_⟩
    have h2 := (key.2 x hx hf).2
    unfold App.remove App.removeFinish
    rw [hs]; dsimp only
    split
    · show "The package removal was cancelled" ≠ ""
      decide
    · rw [if_neg (by simpa using h2)]
      simpa using h2

/-- Claim C2 at work: two versions are requested and the planning of the first one fails. -/
theorem C2_abort_on_planning_error_witness :
    (EndsAtFailedPlanning (App.add Example.planningFails).calls ∧
      (∀ y ∈ (App.add Example.planningFails).calls, y.isProcessInstallOperations = false) ∧
      (App.add Example.planningFails).err ≠ "") ∧
    (EndsAtFailedPlanning (App.remove Example.planningFails).calls ∧
      (∀ y ∈ (App.remove Example.planningFails).calls,
        y.isProcessInstallOperations = false) ∧
      (App.remove Example.planningFails).err ≠ "") :=
  ⟨(C2_abort_on_planning_error Example.planningFails
      (Event.planInstallation Example.editor "no match") (by decide)).1 (by decide),
    (C2_abort_on_planning_error Example.planningFails
      (Event.planUninstallation Example.editor "not installed") (by decide)).2 (by decide)⟩

/-! ## Claim C3 -/

/-- Claim C3.  `App::processInstallOperations` performs the operations in place, by exactly
one call `rep->process(job, ops, programCloseType)` with the operations as given and
nothing else (no output, the job touched by `process` only), if and only if
`includesRemoveItself(ops)` is false; when it is true, the calls made are staging calls
only: `rep->process` is never called. -/
theorem C3_in_place_iff_not_self (env : Env) (ops : List InstallOperation) (pct : Nat)
    (r : Run) :
    ((App.processInstallOperations env ops pct r).calls = r.calls ++ [Event.process ops pct] ↔
      env.includesRemoveItself ops = false) ∧
    (env.includesRemoveItself ops = false →
      (App.processInstallOperations env ops pct r).out = r.out ∧
      (App.processInstallOperations env ops pct r).job =
        if env.process ops pct ≠ "" then r.job.setErrorMessage (env.process ops pct)
        else r.job) ∧
    (env.includesRemoveItself ops = true →
      ∃ X, (App.processInstallOperations env ops pct r).calls = r.calls ++ X ∧
        ∀ e ∈ X, e.isStaging = true ∧ ∀ ops' pct', e ≠ Event.process ops' pct') := by
  have hself : env.includesRemoveItself ops = true →
      ∃ X, (App.processInstallOperations env ops pct r).calls = r.calls ++ X ∧
        ∀ e ∈ X, e.isStaging = true ∧ ∀ ops' pct', e ≠ Event.process ops' pct' := by
    intro h
    obtain ⟨X, hX, hk⟩ := App.selfUpdate_continues env ops pct r
    refine ⟨X, ?_, ?_⟩
    · unfold App.processInstallOperations
      rw [if_pos h]
      exact hX
    · intro e he
      refine ⟨hk e he, ?_⟩
      intro ops' pct' heq
      have := hk e he
      rw [heq] at this
      simp [Event.isStaging] at this
  refine ⟨⟨?_, ?_⟩, ?_, hself⟩
  · intro hc
    by_contra hn
    have ht : env.includesRemoveItself ops = true := by simpa using hn
    obtain ⟨X, hX, hk⟩ := hself ht
    rw [hc] at hX
    have hX' := List.append_cancel_left hX
    exact (hk (Event.process ops pct) (by rw [← hX']; simp)).2 ops pct rfl
  · intro h
    unfold App.processInstallOperations
    simp [h]
  · intro h
    unfold App.processInstallOperations
    simp [h]

/-! ## Claim C4 -/

theorem App.pairWithTitles_eq (env : Env) :
    ∀ (list : List PackageVersion) (items : List TitledVersion),
      App.pairWithTitles env list items =
        items ++ list.map fun pv => (pv, env.getPackageTitle pv) := by
  intro list
  induction list with
  | nil => intro items; simp [App.pairWithTitles]
  | cons pv rest ih => intro items; simp [App.pairWithTitles, ih]

theorem App.writeBack_eq (items : List TitledVersion) :
    ∀ (todo done : List TitledVersion) (pre suf : List PackageVersion) (titles : List String),
      items = done ++ todo → pre.length = done.length → suf.length = todo.length →
      App.writeBack items todo.length done.length (pre ++ suf) titles =
        (pre ++ todo.map Prod.fst, titles ++ todo.map Prod.snd) := by
  intro todo
  induction todo with
  | nil =>
    intro done pre suf titles _ _ hs
    have : suf = [] := List.length_eq_zero.1 hs
    subst this
    simp [App.writeBack]
  | cons item rest ih =>
    intro done pre suf titles hi hp hs
    cases suf with
    | nil => simp at hs
    | cons x suf =>
      have hget : items.get? done.length = some item := by
        rw [hi, List.get?_eq_getElem?, List.getElem?_append_right (Nat.le_refl _)]
        simp
      have hset : (pre ++ x :: suf).set done.length item.1 = (pre ++ [item.1]) ++ suf := by
        rw [← hp]; simp
      simp only [List.length_cons, App.writeBack, hget, hset]
      have := ih (done ++ [item]) (pre ++ [item.1]) suf (titles ++ [item.2])
        (by simp [hi]) (by simp [hp]) (by simpa using hs)
      simp only [List.length_append, List.length_singleton] at this
      rw [this]
      simp

/-- When `qSort` returns a permutation, the sorted list holds the first components and
the titles the second components of the sorted pairs. -/
theorem App.sortPackageVersionsByPackageTitle_eq (env : Env)
    (hq : ∀ lt l, (env.qSort lt l).Perm l) (list : List PackageVersion) :
    App.sortPackageVersionsByPackageTitle env list =
      ((env.qSort (compareByPackageTitle env)
          (list.map fun pv => (pv, env.getPackageTitle pv))).map Prod.fst,
        (env.qSort (compareByPackageTitle env)
          (list.map fun pv => (pv, env.getPackageTitle pv))).map Prod.snd) := by
  unfold App.sortPackageVersionsByPackageTitle
  simp only [App.pairWithTitles_eq, List.nil_append]
  generalize hitems : env.qSort (compareByPackageTitle env)
    (list.map fun pv => (pv, env.getPackageTitle pv)) = items
  have hlen : items.length = list.length := by
    rw [← hitems, (hq _ _).length_eq, List.length_map]
  have := App.writeBack_eq items items [] [] list [] (by simp) rfl hlen.symm
  simpa [hlen] using this

/-- The sorted list is a permutation of the list given. -/
theorem App.sortPackageVersionsByPackageTitle_perm (env : Env)
    (hq : ∀ lt l, (env.qSort lt l).Perm l) (list : List PackageVersion) :
    (App.sortPackageVersionsByPackageTitle env list).1.Perm list := by
  rw [App.sortPackageVersionsByPackageTitle_eq env hq]
  have h := (hq (compareByPackageTitle env)
    (list.map fun pv => (pv, env.getPackageTitle pv))).map Prod.fst
  simpa [Function.comp_def] using h

/-! ## Claim C5 -/

theorem App.checkDependencies_eq (env : Env) (pv : PackageVersion) :
    ∀ (ds : List Dependency) (out : List String) (n : Nat),
      App.checkDependencies env pv ds (out, n) =
        (out ++ ((ds.filter fun d => !env.isInstalled d).map fun d => App.checkLine env pv d),
          n + (ds.filter fun d => !env.isInstalled d).length) := by
  intro ds
  induction ds with
  | nil => intro out n; simp [App.checkDependencies]
  | cons d rest ih =>
    intro out n
    unfold App.checkDependencies
    by_cases h : env.isInstalled d = true
    · simp [h, ih]
    · have h' : env.isInstalled d = false := by simpa using h
      simp [h', ih]
      omega

theorem App.checkVersions_eq (env : Env) :
    ∀ (list : List PackageVersion) (out : List String) (n : Nat),
      App.checkVersions env list (out, n) =
        (out ++ (App.missingDependencies env list).map fun p => App.checkLine env p.1 p.2,
          n + (App.missingDependencies env list).length) := by
  intro list
  induction list with
  | nil => intro out n; simp [App.checkVersions, App.missingDependencies]
  | cons pv rest ih =>
    intro out n
    unfold App.checkVersions
    rw [App.checkDependencies_eq, ih]
    simp [App.missingDependencies, Function.comp_def, Nat.add_assoc]

theorem Job.isCancelled_polled (j : Job) (h : j.isCancelled = true) :
    j.polled.isCancelled = true := by
  unfold Job.isCancelled Job.polled at *
  cases hc : j.cancelAt with
  | none => simp [hc] at h
  | some c =>
    simp only [hc, decide_eq_true_eq] at h ⊢
    omega

/-- A job that should proceed after a poll should have proceeded at the poll. -/
theorem Job.shouldProceed_of_polled (j : Job) (h : j.polled.shouldProceed = true) :
    j.shouldProceed = true := by
  rw [Job.shouldProceed_iff] at h ⊢
  refine ⟨h.1, ?_⟩
  by_contra hc
  have := Job.isCancelled_polled j (by simpa using hc)
  rw [h.2] at this
  exact absurd this (by simp)

theorem App.checkGetInstalled_spec (env : Env) (r : Run)
    (h : (App.checkGetInstalled env r).1.job.shouldProceed = true) :
    (App.checkGetInstalled env r).2 = env.getInstalled.1 ∧
      (App.checkGetInstalled env r).1.out = r.out := by
  unfold App.checkGetInstalled at h ⊢
  split
  · dsimp only
    split
    · exact ⟨rfl, rfl⟩
    · rename_i hp he
      rw [if_pos hp] at h
      dsimp only at h
      rw [if_neg he] at h
      have h1 := ((Job.shouldProceed_iff _).1 h).1
      have h0 := ((Job.shouldProceed_iff _).1 hp).1
      rw [Job.errorMessage_setErrorMessage, Job.errorMessage_polled, if_pos h0] at h1
      exact absurd h1 he
  · rename_i hp
    rw [if_neg hp] at h
    exact absurd (Job.shouldProceed_of_polled _ h) hp

theorem App.checkRefresh_out (env : Env) (r : Run) : (App.checkRefresh env r).out = r.out := by
  unfold App.checkRefresh
  split <;> rfl

theorem App.checkBeforeReport_spec (env : Env)
    (h : (App.checkBeforeReport env).1.job.shouldProceed = true) :
    (App.checkBeforeReport env).2 = env.getInstalled.1 ∧ (App.checkBeforeReport env).1.out = [] := by
  unfold App.checkBeforeReport at h ⊢
  dsimp only at h ⊢
  obtain ⟨h1, h2⟩ := App.checkGetInstalled_spec env _ h
  refine ⟨h1, ?_⟩
  rw [h2, App.checkRefresh_out, App.readRegistry_out]

/-- Claim C5.  When `App::check` reaches its report (the job should proceed: no error, not
cancelled) and `qSort` permutes its input, the output consists of one line "`<pv>`
depends on `<d>`, which is not installed" for every pair of an installed package
version `pv` and a dependency `d` of it with `d->isInstalled()` false (`pairs` is a
permutation of these pairs), followed by the summary, which is "All dependencies are
installed" if and only if there is no such pair, and nothing otherwise. -/
theorem C5_check_report (env : Env) (hq : ∀ lt l, (env.qSort lt l).Perm l)
    (hreach : (App.checkBeforeReport env).1.job.shouldProceed = true) :
    ∃ (pairs : List (PackageVersion × Dependency)) (summary : List String),
      pairs.Perm (App.missingDependencies env env.getInstalled.1) ∧
      (App.check env).out = (pairs.map fun p => App.checkLine env p.1 p.2) ++ summary ∧
      (summary = ["All dependencies are installed\n"] ↔
        App.missingDependencies env env.getInstalled.1 = []) ∧
      (summary = ["All dependencies are installed\n"] ∨ summary = []) := by
  obtain ⟨hlist, hout⟩ := App.checkBeforeReport_spec env hreach
  have hperm := App.sortPackageVersionsByPackageTitle_perm env hq env.getInstalled.1
  generalize hsorted : (App.sortPackageVersionsByPackageTitle env env.getInstalled.1).1 = sorted
    at hperm
  have hpairs : (App.missingDependencies env sorted).Perm
      (App.missingDependencies env env.getInstalled.1) :=
    List.Perm.flatMap_right _ hperm
  have hcheck : (App.check env).out =
      ((App.missingDependencies env sorted).map fun p => App.checkLine env p.1 p.2) ++
        (if (App.missingDependencies env sorted).length = 0 then
          ["All dependencies are installed\n"] else []) := by
    unfold App.check
    dsimp only
    unfold App.checkReport
    rw [if_pos hreach, hlist, hsorted]
    dsimp only
    rw [App.checkVersions_eq, hout]
    dsimp only
    split <;> simp_all
  refine ⟨App.missingDependencies env sorted, _, hpairs, hcheck, ?_, ?_⟩
  · constructor
    · intro h
      split at h
      · rename_i h0
        have := List.length_eq_zero.1 h0
        rw [this] at hpairs
        exact List.Perm.eq_nil hpairs.symm
      · simp at h
    · intro h
      rw [h] at hpairs
      have := List.Perm.eq_nil hpairs
      simp [this]
  · split
    · exact Or.inl rfl
    · exact Or.inr rfl

theorem insertSorted_perm {α : Type} (lt : α → α → Bool) (x : α) :
    ∀ l : List α, (insertSorted lt x l).Perm (x :: l) := by
  intro l
  induction l with
  | nil => exact List.Perm.refl _
  | cons y ys ih =>
    unfold insertSorted
    split
    · exact List.Perm.refl _
    · exact (List.Perm.cons y ih).trans (List.Perm.swap x y ys)

/-- Insertion sort returns a permutation of its input. -/
theorem insertionSort_perm {α : Type} (lt : α → α → Bool) :
    ∀ l : List α, (insertionSort lt l).Perm l := by
  intro l
  induction l with
  | nil => exact List.Perm.refl _
  | cons x xs ih =>
    unfold insertionSort
    exact (insertSorted_perm lt x _).trans (List.Perm.cons x ih)

/-- Claim C5 at work: an installed editor with one missing dependency. -/
theorem C5_check_report_witness :
    (App.checkBeforeReport Example.brokenDependency).1.job.shouldProceed = true ∧
    ∃ (pairs : List (PackageVersion × Dependency)) (summary : List String),
      pairs.Perm (App.missingDependencies Example.brokenDependency
        Example.brokenDependency.getInstalled.1) ∧
      (App.check Example.brokenDependency).out =
        (pairs.map fun p => App.checkLine Example.brokenDependency p.1 p.2) ++ summary ∧
      (summary = ["All dependencies are installed\n"] ↔
        App.missingDependencies Example.brokenDependency
          Example.brokenDependency.getInstalled.1 = []) ∧
      (summary = ["All dependencies are installed\n"] ∨ summary = []) :=
  ⟨by decide, C5_check_report Example.brokenDependency
    (fun lt l => insertionSort_perm lt l) (by decide)⟩

/-! ## Claim C6 -/

theorem App.wrongCommand_ne (cmd : String) :
    "Wrong command: " ++ cmd ++ ". Try npackdcl help" ≠ "" := by
  intro h
  have := congrArg String.length h
  simp only [String.length_append] at this
  have h2 : "Wrong command: ".length = 15 := by decide
  have h3 : "".length = 0 := by decide
  omega

theorem App.openAndCall_spec (env : Env) (call : Command → Result) (ro : Bool) (f : Command) :
    (App.openAndCall env call ro f).1 = "" ↔
      ∃ g, (App.openAndCall env call ro f).2.2 = [g] ∧ (call g).err = "" := by
  unfold App.openAndCall
  dsimp only
  split
  · constructor
    · intro h; exact ⟨f, rfl, h⟩
    · rintro ⟨g, hg, h⟩
      simp at hg
      subst hg
      exact h
  · rename_i h
    constructor
    · intro h'; exact absurd h' h
    · rintro ⟨g, hg, _⟩
      simp at hg

/-- The chain of `process` leaves `err` empty exactly for `help` and for a known command
whose function was called and returned no error. -/
theorem App.dispatch_spec (env : Env) (call : Command → Result) (cmd : String) :
    (App.dispatch env call "" cmd).1 = "" ↔
      cmd ∈ App.commandNames ∧
        (cmd = "help" ∨ ∃ f, (App.dispatch env call "" cmd).2.2 = [f] ∧ (call f).err = "") := by
  by_cases hmem : cmd ∈ App.commandNames
  · have hmem' := hmem
    simp only [App.commandNames, List.mem_cons, List.mem_singleton, List.not_mem_nil,
      or_false] at hmem'
    have ho := fun ro f => App.openAndCall_spec env call ro f
    rcases hmem' with h | h | h | h | h | h | h | h | h | h | h | h | h | h | h | h | h <;>
      subst h <;> simp [App.dispatch, App.commandNames, ho]
  · have hmem' := hmem
    simp only [App.commandNames, List.mem_cons, List.mem_singleton, List.not_mem_nil,
      or_false, not_or] at hmem'
    simp [App.dispatch, hmem, hmem', App.wrongCommand_ne]

/-- Claim C6.  `App::process` returns 0 or 1, and it returns 0 if and only if the command
line parses, exactly one free argument (the command) is given, the command is a known
one, and the command is `help` or the command function was called and returned an
empty error message; in every other case it returns 1. -/
theorem C6_process_exit_code (env : Env) (call : Command → Result) :
    ((App.process env call).code = 0 ∨ (App.process env call).code = 1) ∧
    ((App.process env call).code = 0 ↔
      env.cl.parse = "" ∧ ∃ cmd, env.cl.getFreeArguments = [cmd] ∧ cmd ∈ App.commandNames ∧
        (cmd = "help" ∨ ∃ f, (App.process env call).called = [f] ∧ (call f).err = "")) := by
  unfold App.process
  dsimp only
  by_cases hp : env.cl.parse = ""
  · rw [if_neg (by simpa using hp)]
    cases hfr : env.cl.getFreeArguments with
    | nil => simp
    | cons cmd rest =>
      cases rest with
      | cons arg rest' => simp
      | nil =>
        dsimp only
        have key := App.dispatch_spec env call cmd
        rw [hp]
        by_cases hd : (App.dispatch env call "" cmd).1 = ""
        · rw [if_pos hd]
          simp only [true_or, true_and, hp, List.cons.injEq, and_true, exists_eq_left',
            true_iff]
          exact key.1 hd
        · rw [if_neg hd]
          simp only [one_ne_zero, or_true, true_and, false_iff, hp, List.cons.injEq, and_true,
            exists_eq_left']
          intro h
          exact hd (key.2 h)
  · rw [if_pos (by simpa using hp)]
    simp [hp]

/-! ## Claim C7 -/

/-- Claim C7, the code at the failing input.  `readRegistryDatabase` fails with a message;
`App::list` records the message in its job, prints "0 package versions found" and
returns the empty error message: the error does not surface, and `App::process` returns
the exit code 0. -/
theorem C7_list_drops_registry_error :
    (App.list Example.registryFails).calls =
        [Event.readRegistryDatabase "Cannot open the registry key"] ∧
      (App.list Example.registryFails).job.getErrorMessage = "Cannot open the registry key" ∧
      (App.list Example.registryFails).out =
        [Example.registryFails.qargInt "%1 package versions found:\n\n" 0] ∧
      (App.list Example.registryFails).err = "" ∧
      (App.process Example.registryFails
        (App.run Example.registryFails Example.nothing)).code = 0 := by
  decide

/-- The same failure in `App::check`, `App::update`, `App::add` and `App::remove`: there
the message is returned. -/
theorem App.registry_error_returned :
    (App.check Example.registryFails).err = "Cannot open the registry key" ∧
      (App.update Example.registryFails).err = "Cannot open the registry key" ∧
      (App.add Example.registryFails).err = "Cannot open the registry key" ∧
      (App.remove Example.registryFails).err = "Cannot open the registry key" := by
  decide

/-! ## Claim C8 -/

/-- Claim C8, the code at the failing input.  The job of `App::add` is cancelled while the
installed software is detected: nothing is planned and nothing is installed, yet the
command prints "The package ... was installed successfully" and returns the empty
error message, as if it had completed. -/
theorem C8_add_cancelled_reports_success :
    (App.addBeforeFinish Example.cancelled).job.isCancelled = true ∧
      (App.addBeforeFinish Example.cancelled).job.getErrorMessage = "" ∧
      (∀ e ∈ (App.add Example.cancelled).calls, e.isPlanning = false ∧
        e.isProcessInstallOperations = false) ∧
      (App.add Example.cancelled).out =
        [Example.cancelled.qarg (Example.cancelled.qarg
          "The package %1 was installed successfully in %2\n"
          (Example.cancelled.pvToString false Example.editor))
          (Example.cancelled.getPath Example.editor)] ∧
      (App.add Example.cancelled).err = "" := by
  decide

/-- In `App::update` and `App::remove` a cancelled job is told apart: the command returns
"... was cancelled" and prints nothing at its end. -/
theorem App.update_remove_cancelled (env : Env) :
    ((App.updateBeforeFinish env).job.complete.isCancelled = true →
      (App.update env).err = "The package update was cancelled" ∧
      (App.update env).out = (App.updateBeforeFinish env).out) ∧
    ((App.removeBeforeFinish env).job.complete.isCancelled = true →
      (App.remove env).err = "The package removal was cancelled" ∧
      (App.remove env).out = (App.removeBeforeFinish env).out) := by
  constructor
  · unfold App.update
    generalize App.updateBeforeFinish env = s
    intro h
    unfold App.updateFinish
    dsimp only
    rw [if_pos h]
    exact ⟨rfl, rfl⟩
  · unfold App.remove
    generalize App.removeBeforeFinish env = s
    intro h
    unfold App.removeFinish
    dsimp only
    rw [if_pos h]
    exact ⟨rfl, rfl⟩

/-! ## Claim C10 -/

theorem App.pairWithTitles_cl (env : Env) (cl : CommandLine) :
    ∀ (list : List PackageVersion) (items : List TitledVersion),
      App.pairWithTitles { env with cl := cl } list items = App.pairWithTitles env list items := by
  intro list
  induction list with
  | nil => intro items; rfl
  | cons pv rest ih => intro items; exact ih _

theorem App.sortPackageVersionsByPackageTitle_cl (env : Env) (cl : CommandLine)
    (list : List PackageVersion) :
    App.sortPackageVersionsByPackageTitle { env with cl := cl } list =
      App.sortPackageVersionsByPackageTitle env list := by
  unfold App.sortPackageVersionsByPackageTitle
  rw [App.pairWithTitles_cl]
  rfl

theorem App.listPrint_cl (env : Env) (cl : CommandLine) (bare : Bool) (titles : List String) :
    ∀ (list : List PackageVersion) (i : Nat) (out : List String),
      App.listPrint { env with cl := cl } bare titles list i out =
        App.listPrint env bare titles list i out := by
  intro list
  induction list with
  | nil => intro i out; rfl
  | cons pv rest ih =>
    intro i out
    unfold App.listPrint
    rw [ih, ih]

/-- Claim C10.  Two invocations of `App::list` whose command lines differ only in the
option `--status` (they agree on the presence and the values of every other option), in
the same environment, leave the same result behind: the same output, the same returned
error, the same calls. -/
theorem C10_list_ignores_status (env : Env) (cl : CommandLine)
    (h : ∀ name, name ≠ "status" →
      cl.isPresent name = env.cl.isPresent name ∧ cl.get name = env.cl.get name ∧
      cl.getAll name = env.cl.getAll name) :
    App.list { env with cl := cl } = App.list env := by
  have hb : cl.isPresent "bare-format" = env.cl.isPresent "bare-format" :=
    (h "bare-format" (by decide)).1
  unfold App.list
  simp only [hb, App.sortPackageVersionsByPackageTitle_cl, App.listPrint_cl]
  rfl

/-- Claim C10 at work: `list --status=all` and `list` without options on a machine with
one installed package version. -/
theorem C10_list_ignores_status_witness :
    (∀ name, name ≠ "status" →
      Example.statusAll.isPresent name = Example.brokenDependency.cl.isPresent name ∧
      Example.statusAll.get name = Example.brokenDependency.cl.get name ∧
      Example.statusAll.getAll name = Example.brokenDependency.cl.getAll name) ∧
    App.list { Example.brokenDependency with cl := Example.statusAll } =
      App.list Example.brokenDependency :=
  ⟨fun name hn => by simp [Example.statusAll, Example.brokenDependency, hn],
    C10_list_ignores_status Example.brokenDependency Example.statusAll
      (fun name hn => by simp [Example.statusAll, Example.brokenDependency, hn])⟩

/-! ## Order of versions -/

theorem Version.part_of_length_le (l : List Nat) (i : Nat) (h : l.length ≤ i) :
    Version.part l i = 0 := by
  unfold Version.part
  simp [List.getD, List.getElem?_eq_none h]

theorem Version.compareFrom_lt (a b : List Nat) :
    ∀ n i, Version.compareFrom a b n i < 0 ↔
      ∃ k, i ≤ k ∧ k < i + n ∧ Version.part a k < Version.part b k ∧
        ∀ j, i ≤ j → j < k → Version.part a j = Version.part b j := by
  intro n
  induction n with
  | zero => intro i; simp [Version.compareFrom]; intro k h1 h2; omega
  | succ n ih =>
    intro i
    unfold Version.compareFrom
    split
    · rename_i h
      simp only [Int.reduceNeg, Int.reduceLT, true_iff]
      exact ⟨i, Nat.le_refl _, by omega, h, fun j h1 h2 => by omega⟩
    · rename_i h
      split
      · rename_i h'
        simp only [Int.reduceLT, false_iff, not_exists, not_and]
        intro k hk1 hk2 hlt hall
        rcases Nat.eq_or_lt_of_le hk1 with heq | hlt'
        · subst heq; omega
        · have := hall i (Nat.le_refl _) hlt'; omega
      · rename_i h'
        have heq : Version.part a i = Version.part b i := by omega
        rw [ih]
        constructor
        · rintro ⟨k, hk1, hk2, hlt, hall⟩
          refine ⟨k, by omega, by omega, hlt, ?_⟩
          intro j hj1 hj2
          rcases Nat.eq_or_lt_of_le hj1 with hji | hji
          · subst hji; exact heq
          · exact hall j hji hj2
        · rintro ⟨k, hk1, hk2, hlt, hall⟩
          rcases Nat.eq_or_lt_of_le hk1 with hki | hki
          · subst hki; omega
          · exact ⟨k, hki, by omega, hlt, fun j hj1 hj2 => hall j (by omega) hj2⟩

theorem Version.compareFrom_neg (a b : List Nat) :
    ∀ n i, Version.compareFrom b a n i = - Version.compareFrom a b n i := by
  intro n
  induction n with
  | zero => intro i; simp [Version.compareFrom]
  | succ n ih =>
    intro i
    unfold Version.compareFrom
    by_cases h1 : Version.part a i < Version.part b i
    · have h2 : ¬ Version.part b i < Version.part a i := by omega
      simp [h1, h2]
    · by_cases h2 : Version.part b i < Version.part a i
      · simp [h1, h2]
      · simp [h1, h2, ih]

/-- A version is less than another one when, at the first part where they differ, its
part is the smaller one. -/
theorem Version.compare_lt_iff (a b : Version) :
    a.compare b < 0 ↔
      ∃ k, Version.part a.parts k < Version.part b.parts k ∧
        ∀ j, j < k → Version.part a.parts j = Version.part b.parts j := by
  unfold Version.compare
  rw [Version.compareFrom_lt]
  constructor
  · rintro ⟨k, _, _, hlt, hall⟩
    exact ⟨k, hlt, fun j hj => hall j (Nat.zero_le _) hj⟩
  · rintro ⟨k, hlt, hall⟩
    refine ⟨k, Nat.zero_le _, ?_, hlt, fun j _ hj => hall j hj⟩
    by_contra hk
    have hb : Version.part b.parts k = 0 :=
      Version.part_of_length_le _ _ (by
        have := Nat.le_max_right a.parts.length b.parts.length
        omega)
    omega

theorem Version.compare_neg (a b : Version) : b.compare a = - a.compare b := by
  unfold Version.compare
  rw [Nat.max_comm]
  exact Version.compareFrom_neg _ _ _ _

theorem Version.compare_self (a : Version) : a.compare a = 0 := by
  have := Version.compare_neg a a
  omega

theorem Version.compare_lt_trans (a b c : Version) (h₁ : a.compare b < 0)
    (h₂ : b.compare c < 0) : a.compare c < 0 := by
  rw [Version.compare_lt_iff] at *
  obtain ⟨k₁, hlt₁, hall₁⟩ := h₁
  obtain ⟨k₂, hlt₂, hall₂⟩ := h₂
  rcases Nat.lt_trichotomy k₁ k₂ with h | h | h
  · exact ⟨k₁, by rw [← hall₂ k₁ h]; exact hlt₁,
      fun j hj => (hall₁ j hj).trans (hall₂ j (by omega))⟩
  · subst h
    exact ⟨k₁, by omega, fun j hj => (hall₁ j hj).trans (hall₂ j hj)⟩
  · exact ⟨k₂, by rw [hall₁ k₂ h]; exact hlt₂,
      fun j hj => (hall₁ j (by omega)).trans (hall₂ j hj)⟩

/-- Two versions compare equal exactly when all their parts agree. -/
theorem Version.compare_eq_zero_iff (a b : Version) :
    a.compare b = 0 ↔ ∀ j, Version.part a.parts j = Version.part b.parts j := by
  constructor
  · intro h j
    by_contra hne
    have hex : ∃ k, Version.part a.parts k ≠ Version.part b.parts k := ⟨j, hne⟩
    classical
    have hk := Nat.find_spec hex
    have hmin := fun m (hm : m < Nat.find hex) => not_not.1 (Nat.find_min hex hm)
    rcases Nat.lt_or_gt_of_ne hk with hlt | hgt
    · have : a.compare b < 0 := (Version.compare_lt_iff a b).2 ⟨_, hlt, hmin⟩
      omega
    · have : b.compare a < 0 :=
        (Version.compare_lt_iff b a).2 ⟨_, hgt, fun m hm => (hmin m hm).symm⟩
      have := Version.compare_neg a b
      omega
  · intro h
    have h1 : ¬ a.compare b < 0 := by
      rw [Version.compare_lt_iff]
      rintro ⟨k, hlt, _⟩
      have := h k; omega
    have h2 : ¬ b.compare a < 0 := by
      rw [Version.compare_lt_iff]
      rintro ⟨k, hlt, _⟩
      have := h k; omega
    have := Version.compare_neg a b
    omega

theorem Version.compare_eq_zero_trans (a b c : Version) (h₁ : a.compare b = 0)
    (h₂ : b.compare c = 0) : a.compare c = 0 := by
  rw [Version.compare_eq_zero_iff] at *
  intro j
  exact (h₁ j).trans (h₂ j)

/-! ## Claim C9 -/

/-- Counterexample to claim C9 as stated.  The editor `com.example.Editor` has the title
"Zed Editor", the library `org.example.Lib` the title "Alpha Library"; after
`sortPackageVersionsByPackageTitle` the library comes first, so the list is not sorted
by package name. -/
theorem C9_counterexample :
    (App.sortPackageVersionsByPackageTitle Example.titles [Example.editor, Example.lib]).1 =
        [Example.lib, Example.editor] ∧
      ¬ App.sortedByNameAndVersion
        (App.sortPackageVersionsByPackageTitle Example.titles
          [Example.editor, Example.lib]).1 := by
  decide

theorem qLess_iff (a b : String) : qLess a b = true ↔ a.toList < b.toList := by
  simp [qLess]

theorem qLess_eq_false_iff (a b : String) : qLess a b = false ↔ ¬ a.toList < b.toList := by
  simp [qLess]

/-- The comparator on pairs whose packages agree exactly when their lower-cased titles do:
it is the lexicographic comparison of (lower-cased title, version). -/
theorem compareByPackageTitle_iff (env : Env) (e1 e2 : TitledVersion)
    (h : e1.1.package = e2.1.package ↔ env.toLower e1.2 = env.toLower e2.2) :
    compareByPackageTitle env e1 e2 = true ↔
      (env.toLower e1.2).toList < (env.toLower e2.2).toList ∨
        (env.toLower e1.2 = env.toLower e2.2 ∧ e1.1.version.compare e2.1.version < 0) := by
  unfold compareByPackageTitle
  dsimp only
  split
  · rename_i hp
    have ht := h.1 hp
    simp [ht]
  · rename_i hp
    have ht : ¬ env.toLower e1.2 = env.toLower e2.2 := fun ht => hp (h.2 ht)
    simp [qLess_iff, ht]

theorem compareByPackageTitle_strictWeak (env : Env) (items : List TitledVersion)
    (h : ∀ a ∈ items, ∀ b ∈ items,
      (a.1.package = b.1.package ↔ env.toLower a.2 = env.toLower b.2)) :
    StrictWeakOrderOn (compareByPackageTitle env) items := by
  have key := fun a ha b hb => compareByPackageTitle_iff env a b (h a ha b hb)
  have hfalse : ∀ a ∈ items, ∀ b ∈ items, compareByPackageTitle env a b = false →
      compareByPackageTitle env b a = false →
      env.toLower a.2 = env.toLower b.2 ∧ a.1.version.compare b.1.version = 0 := by
    intro a ha b hb h1 h2
    have h1' := (not_congr (key a ha b hb)).1 (by simp [h1])
    have h2' := (not_congr (key b hb a ha)).1 (by simp [h2])
    simp only [not_or, not_and] at h1' h2'
    have heq : (env.toLower a.2).toList = (env.toLower b.2).toList := by
      rcases lt_trichotomy (env.toLower a.2).toList (env.toLower b.2).toList with h | h | h
      · exact absurd h h1'.1
      · exact h
      · exact absurd h h2'.1
    have hs : env.toLower a.2 = env.toLower b.2 := String.ext heq
    refine ⟨hs, ?_⟩
    have v1 := h1'.2 hs
    have v2 := h2'.2 hs.symm
    have := Version.compare_neg a.1.version b.1.version
    omega
  refine ⟨?_, ?_, ?_⟩
  · intro a ha
    have := (not_congr (key a ha a ha)).2
    simp only [Bool.not_eq_true] at this
    apply this
    simp [Version.compare_self]
  · intro a ha b hb c hc h1 h2
    rw [key a ha b hb] at h1
    rw [key b hb c hc] at h2
    rw [key a ha c hc]
    rcases h1 with h1 | ⟨h1, v1⟩
    · rcases h2 with h2 | ⟨h2, _⟩
      · exact Or.inl (lt_trans h1 h2)
      · exact Or.inl (by rw [← h2]; exact h1)
    · rcases h2 with h2 | ⟨h2, v2⟩
      · exact Or.inl (by rw [h1]; exact h2)
      · exact Or.inr ⟨h1.trans h2, Version.compare_lt_trans _ _ _ v1 v2⟩
  · intro a ha b hb c hc h1 h2 h3 h4
    obtain ⟨t1, v1⟩ := hfalse a ha b hb h1 h2
    obtain ⟨t2, v2⟩ := hfalse b hb c hc h3 h4
    have v3 := Version.compare_eq_zero_trans _ _ _ v1 v2
    have v4 := Version.compare_neg a.1.version c.1.version
    constructor
    · have := (not_congr (key a ha c hc)).2
      simp only [Bool.not_eq_true] at this
      apply this
      simp [t1.trans t2, v3]
    · have := (not_congr (key c hc a ha)).2
      simp only [Bool.not_eq_true] at this
      apply this
      simp [t1.trans t2]
      omega

/-- Claim C9, amended.  When `qSort` meets its contract and, among the package versions of
the list, two have the same package exactly when their package titles are equal in
lower case (the title belongs to the package, and no two packages share a title up to
case), then after `App::sortPackageVersionsByPackageTitle` the list is sorted by
lower-cased package title and version. -/
theorem C9_sorted_by_title (env : Env) (list : List PackageVersion)
    (hq : QSortContract env.qSort)
    (htitle : ∀ a ∈ list, ∀ b ∈ list, (a.package = b.package ↔
      env.toLower (env.getPackageTitle a) = env.toLower (env.getPackageTitle b))) :
    App.sortedByTitleAndVersion env (App.sortPackageVersionsByPackageTitle env list).1 := by
  rw [App.sortPackageVersionsByPackageTitle_eq env (fun lt l => (hq lt l).1)]
  generalize hitems0 : (list.map fun pv => (pv, env.getPackageTitle pv)) = items0
  have hmem0 : ∀ e ∈ items0, e.1 ∈ list ∧ e.2 = env.getPackageTitle e.1 := by
    intro e he
    rw [← hitems0] at he
    obtain ⟨pv, hpv, rfl⟩ := List.mem_map.1 he
    exact ⟨hpv, rfl⟩
  have hkey : ∀ a ∈ items0, ∀ b ∈ items0,
      (a.1.package = b.1.package ↔ env.toLower a.2 = env.toLower b.2) := by
    intro a ha b hb
    rw [(hmem0 a ha).2, (hmem0 b hb).2]
    exact htitle a.1 (hmem0 a ha).1 b.1 (hmem0 b hb).1
  have hswo := compareByPackageTitle_strictWeak env items0 hkey
  obtain ⟨hperm, hsorted⟩ := hq (compareByPackageTitle env) items0
  have hpw := hsorted hswo
  show List.Pairwise _ (List.map Prod.fst _)
  rw [List.pairwise_map]
  refine List.Pairwise.imp_of_mem ?_ hpw
  intro a b ha hb hba
  have ha0 := hperm.subset ha
  have hb0 := hperm.subset hb
  have hn := (not_congr (compareByPackageTitle_iff env b a (hkey b hb0 a ha0))).1
    (by simp [hba])
  simp only [not_or, not_and] at hn
  rw [← (hmem0 a ha0).2, ← (hmem0 b hb0).2]
  rcases lt_trichotomy (env.toLower a.2).toList (env.toLower b.2).toList with h | h | h
  · exact Or.inl ((qLess_iff _ _).2 h)
  · have hs : env.toLower b.2 = env.toLower a.2 := (String.ext h).symm
    refine Or.inr ⟨(hkey a ha0 b hb0).2 hs.symm, ?_⟩
    have := hn.2 hs
    have := Version.compare_neg a.1.version b.1.version
    omega
  · exact absurd h hn.1

/-! ## Insertion sort meets the contract of `qSort` -/

theorem mem_insertSorted {α : Type} (lt : α → α → Bool) (x z : α) :
    ∀ l : List α, z ∈ insertSorted lt x l ↔ z = x ∨ z ∈ l := by
  intro l
  exact (insertSorted_perm lt x l).mem_iff.trans List.mem_cons

theorem insertSorted_sorted {α : Type} (lt : α → α → Bool) (x : α) (dom : List α)
    (hswo : StrictWeakOrderOn lt dom) (hx : x ∈ dom) :
    ∀ l : List α, (∀ a ∈ l, a ∈ dom) → (l.Pairwise fun a b => lt b a = false) →
      (insertSorted lt x l).Pairwise fun a b => lt b a = false := by
  obtain ⟨hirr, htrans, _⟩ := hswo
  intro l
  induction l with
  | nil => intro _ _; exact List.pairwise_singleton _ _
  | cons y ys ih =>
    intro hdom hs
    have hy : y ∈ dom := hdom y (List.mem_cons_self _ _)
    have hys : ∀ a ∈ ys, a ∈ dom := fun a ha => hdom a (List.mem_cons_of_mem _ ha)
    rw [List.pairwise_cons] at hs
    unfold insertSorted
    split
    · rename_i hxy
      rw [List.pairwise_cons]
      refine ⟨?_, List.pairwise_cons.2 hs⟩
      intro z hz
      have hzd : z ∈ dom := hdom z hz
      by_contra hzx
      have hzx' : lt z x = true := by simpa using hzx
      have hzy := htrans z hzd x hx y hy hzx' hxy
      rcases List.mem_cons.1 hz with h | h
      · subst h; rw [hirr z hzd] at hzy; exact absurd hzy (by simp)
      · rw [hs.1 z h] at hzy; exact absurd hzy (by simp)
    · rename_i hxy
      rw [List.pairwise_cons]
      refine ⟨?_, ih hys hs.2⟩
      intro z hz
      rcases (mem_insertSorted lt x z ys).1 hz with h | h
      · subst h; simpa using hxy
      · exact hs.1 z h

/-- Insertion sort meets the contract of `qSort`. -/
theorem insertionSort_contract {α : Type} :
    QSortContract (insertionSort : (α → α → Bool) → List α → List α) := by
  intro lt l
  refine ⟨insertionSort_perm lt l, ?_⟩
  intro hswo
  have : ∀ l' : List α, (∀ a ∈ l', a ∈ l) →
      (insertionSort lt l').Pairwise fun a b => lt b a = false := by
    intro l'
    induction l' with
    | nil => intro _; exact List.Pairwise.nil
    | cons x xs ih =>
      intro hdom
      unfold insertionSort
      apply insertSorted_sorted lt x l hswo (hdom x (List.mem_cons_self _ _))
      · intro a ha
        exact hdom a (List.mem_cons_of_mem _ ((insertionSort_perm lt xs).subset ha))
      · exact ih fun a ha => hdom a (List.mem_cons_of_mem _ ha)
  exact this l fun a ha => ha

/-- Claim C9, amended, at work: the editor and the library of the counterexample, sorted
by insertion sort. -/
theorem C9_sorted_by_title_witness :
    QSortContract Example.titles.qSort ∧
    (∀ a ∈ [Example.editor, Example.lib], ∀ b ∈ [Example.editor, Example.lib],
      (a.package = b.package ↔
        Example.titles.toLower (Example.titles.getPackageTitle a) =
          Example.titles.toLower (Example.titles.getPackageTitle b))) ∧
    App.sortedByTitleAndVersion Example.titles
      (App.sortPackageVersionsByPackageTitle Example.titles [Example.editor, Example.lib]).1 :=
  ⟨insertionSort_contract, by decide,
    C9_sorted_by_title Example.titles [Example.editor, Example.lib] insertionSort_contract
      (by decide)⟩

/-! ## Claim C11 -/

theorem Job.shouldProceed_of_setErrorMessage (j : Job) (msg : String)
    (h : (j.setErrorMessage msg).shouldProceed = true) : j.shouldProceed = true := by
  unfold Job.setErrorMessage at h
  split at h
  · rw [Job.shouldProceed_iff] at h ⊢
    rename_i h0
    exact ⟨h0, h.2⟩
  · exact h

theorem App.readRegistry_proceeds (env : Env) (w : ℚ) (r : Run)
    (h : (App.readRegistry env w r).job.shouldProceed = true) : r.job.shouldProceed = true := by
  unfold App.readRegistry at h
  split at h
  · assumption
  · exact Job.shouldProceed_of_polled _ h

theorem App.searchStatus_calls (env : Env) (r : Run) :
    (App.searchStatus env r).1.calls = r.calls ∧ (App.searchStatus env r).1.out = r.out := by
  unfold App.searchStatus
  split
  · split
    · exact ⟨rfl, rfl⟩
    · dsimp only
      split
      · exact ⟨rfl, rfl⟩
      · split <;> exact ⟨rfl, rfl⟩
  · exact ⟨rfl, rfl⟩

/-- When the job should proceed after the first step of `search`, the status is absent,
`all` or `installed`, and `onlyInstalled` is true exactly for `installed`. -/
theorem App.searchStatus_proceeds (env : Env) (r : Run)
    (h : (App.searchStatus env r).1.job.shouldProceed = true) :
    (env.cl.get "status" = none ∨ env.cl.get "status" = some "all" ∨
        env.cl.get "status" = some "installed") ∧
      (App.searchStatus env r).2 = decide (env.cl.get "status" = some "installed") := by
  unfold App.searchStatus at h ⊢
  split
  · rename_i hp
    have h0 := ((Job.shouldProceed_iff _).1 hp).1
    rw [if_pos hp] at h
    split
    · rename_i hs
      simp [hs]
    · rename_i status hs
      rw [hs] at h
      dsimp only at h ⊢
      split
      · rename_i h1
        subst h1
        simp [hs]
      · split
        · rename_i h1 h2
          subst h2
          simp [hs]
        · rename_i h1 h2
          rw [if_neg h1, if_neg h2] at h
          have h3 := ((Job.shouldProceed_iff _).1 h).1
          rw [Job.errorMessage_setErrorMessage, Job.errorMessage_polled, if_pos h0] at h3
          have := congrArg String.length h3
          simp only [String.length_append] at this
          have h4 : "Wrong status: ".length = 14 := by decide
          have h5 : "".length = 0 := by decide
          omega
  · rename_i hp
    rw [if_neg hp] at h
    exact absurd (Job.shouldProceed_of_polled _ h) hp

/-- A wrong status leaves the message "Wrong status: ..." in a job that should proceed. -/
theorem App.searchStatus_wrong (env : Env) (r : Run) (s : String)
    (hp : r.job.shouldProceed = true) (hs : env.cl.get "status" = some s)
    (h1 : s ≠ "all") (h2 : s ≠ "installed") :
    (App.searchStatus env r).1.job.errorMessage = "Wrong status: " ++ s := by
  have h0 := ((Job.shouldProceed_iff _).1 hp).1
  unfold App.searchStatus
  rw [if_pos hp, hs]
  dsimp only
  rw [if_neg h1, if_neg h2]
  dsimp only
  rw [Job.errorMessage_setErrorMessage, Job.errorMessage_polled, if_pos h0]

theorem App.searchFind_spec (env : Env) (b : Bool) (q : Option String) (r : Run) :
    ((App.searchFind env b q r).1.calls = r.calls ∨
      (r.job.shouldProceed = true ∧
        (App.searchFind env b q r).1.calls = r.calls ++ [Event.findPackages b q])) ∧
    ((App.searchFind env b q r).1.job.shouldProceed = true → r.job.shouldProceed = true) ∧
    (r.job.errorMessage ≠ "" →
      (App.searchFind env b q r).1.job.errorMessage = r.job.errorMessage) ∧
    (App.searchFind env b q r).1.out = r.out := by
  unfold App.searchFind
  split
  · rename_i hp
    have h0 := ((Job.shouldProceed_iff _).1 hp).1
    dsimp only
    split
    · exact ⟨Or.inr ⟨hp, rfl⟩, fun _ => hp, fun h => absurd h0 h, rfl⟩
    · exact ⟨Or.inr ⟨hp, rfl⟩, fun _ => hp, fun h => absurd h0 h, rfl⟩
  · exact ⟨Or.inl rfl, fun h => Job.shouldProceed_of_polled _ h, fun _ => rfl, rfl⟩

theorem App.searchFetch_spec (env : Env) (names : List String) (r : Run) :
    ((App.searchFetch env names r).1.calls = r.calls ∨
      (r.job.shouldProceed = true ∧
        (App.searchFetch env names r).1.calls = r.calls ++ [Event.fetchPackages names])) ∧
    (r.job.errorMessage ≠ "" →
      (App.searchFetch env names r).1.job.errorMessage = r.job.errorMessage) ∧
    (App.searchFetch env names r).1.out = r.out := by
  unfold App.searchFetch
  split
  · rename_i hp
    have h0 := ((Job.shouldProceed_iff _).1 hp).1
    dsimp only
    split
    · exact ⟨Or.inr ⟨hp, rfl⟩, fun h => absurd h0 h, rfl⟩
    · exact ⟨Or.inr ⟨hp, rfl⟩, fun h => absurd h0 h, rfl⟩
  · exact ⟨Or.inl rfl, fun _ => rfl, rfl⟩

theorem App.searchPrint_spec (env : Env) (bare : Bool) (list : List Package) (r : Run) :
    (App.searchPrint env bare list r).calls = r.calls ∧
    (r.job.errorMessage ≠ "" →
      (App.searchPrint env bare list r).job.errorMessage = r.job.errorMessage) := by
  unfold App.searchPrint
  split
  · exact ⟨rfl, fun _ => rfl⟩
  · exact ⟨rfl, fun _ => rfl⟩

theorem App.search_eq (env : Env) :
    App.search env =
      (let p := App.searchAfterStatus env
       let r2 := App.readRegistry env (96/100) p.1
       let f := App.searchFind env p.2 (env.cl.get "query") r2
       let g := App.searchFetch env f.2 f.1
       let r5 := App.searchPrint env (env.cl.isPresent "bare-format") g.2 g.1
       { err := r5.job.complete.getErrorMessage, out := r5.out, calls := r5.calls,
         job := r5.job.complete }) := rfl

/-- Every repository search of `App::search` is made with a status that is absent, `all`
or `installed`, and `findPackages` gets `onlyInstalled = true` exactly for `installed`;
any other status `s` makes no repository search and, unless the job is cancelled before
its first poll, the command returns "Wrong status: s". -/
theorem App.search_status_sound (env : Env) :
    (∀ e ∈ (App.search env).calls, e.isSearch = true →
      (env.cl.get "status" = none ∨ env.cl.get "status" = some "all" ∨
        env.cl.get "status" = some "installed") ∧
      ∀ b q, e = Event.findPackages b q →
        b = decide (env.cl.get "status" = some "installed")) ∧
    (∀ s, env.cl.get "status" = some s → s ≠ "all" → s ≠ "installed" →
      (∀ e ∈ (App.search env).calls, e.isSearch = false) ∧
      (env.cancelAt ≠ some 0 → (App.search env).err = "Wrong status: " ++ s)) := by
  rw [App.search_eq]
  dsimp only
  generalize hp : App.searchAfterStatus env = p
  generalize hr2 : App.readRegistry env (96/100) p.1 = r2
  generalize hf : App.searchFind env p.2 (env.cl.get "query") r2 = f
  generalize hg : App.searchFetch env f.2 f.1 = g
  generalize hr5 : App.searchPrint env (env.cl.isPresent "bare-format") g.2 g.1 = r5
  have hp1 : p.1.calls = [] := by
    rw [← hp]; unfold App.searchAfterStatus
    exact (App.searchStatus_calls env _).1
  have hpp : p.1.job.shouldProceed = true →
      (env.cl.get "status" = none ∨ env.cl.get "status" = some "all" ∨
        env.cl.get "status" = some "installed") ∧
      p.2 = decide (env.cl.get "status" = some "installed") := by
    rw [← hp]; unfold App.searchAfterStatus
    exact App.searchStatus_proceeds env _
  have h2p : r2.job.shouldProceed = true → p.1.job.shouldProceed = true := by
    rw [← hr2]; exact App.readRegistry_proceeds env _ _
  have h2c : ∀ e ∈ r2.calls, e.isSearch = false := by
    rw [← hr2, App.readRegistry_calls, hp1]
    intro e he
    split at he
    · simp at he; subst he; rfl
    · simp at he
  obtain ⟨hfc, hfp, hfe, _⟩ := App.searchFind_spec env p.2 (env.cl.get "query") r2
  rw [hf] at hfc hfp hfe
  obtain ⟨hgc, hge, _⟩ := App.searchFetch_spec env f.2 f.1
  rw [hg] at hgc hge
  obtain ⟨h5c, h5e⟩ := App.searchPrint_spec env (env.cl.isPresent "bare-format") g.2 g.1
  rw [hr5] at h5c h5e
  have part1 : ∀ e ∈ r5.calls, e.isSearch = true →
      (env.cl.get "status" = none ∨ env.cl.get "status" = some "all" ∨
        env.cl.get "status" = some "installed") ∧
      ∀ b q, e = Event.findPackages b q →
        b = decide (env.cl.get "status" = some "installed") := by
    intro e he hs
    rw [h5c] at he
    have hfind : e ∈ f.1.calls →
        (env.cl.get "status" = none ∨ env.cl.get "status" = some "all" ∨
          env.cl.get "status" = some "installed") ∧
        ∀ b q, e = Event.findPackages b q →
          b = decide (env.cl.get "status" = some "installed") := by
      intro he
      rcases hfc with hc | ⟨hpr, hc⟩
      · rw [hc] at he; rw [h2c e he] at hs; exact absurd hs (by simp)
      · rw [hc] at he
        rcases List.mem_append.1 he with he | he
        · rw [h2c e he] at hs; exact absurd hs (by simp)
        · simp at he
          obtain ⟨h1, h2⟩ := hpp (h2p hpr)
          refine ⟨h1, ?_⟩
          intro b q hbq
          rw [he] at hbq
          injection hbq with hb _
          rw [← hb]; exact h2
    rcases hgc with hc | ⟨hpr, hc⟩
    · rw [hc] at he; exact hfind he
    · rw [hc] at he
      rcases List.mem_append.1 he with he | he
      · exact hfind he
      · simp at he
        refine ⟨(hpp (h2p (hfp hpr))).1, ?_⟩
        intro b q hbq
        rw [he] at hbq
        cases hbq
  refine ⟨part1, ?_⟩
  intro s hs h1 h2
  constructor
  · intro e he
    by_contra hn
    have := (part1 e he (by simpa using hn)).1
    rw [hs] at this
    simp [h1, h2] at this
  · intro hc
    have hp0 : ((Job.create env.cancelAt).setTitle "Searching for packages").shouldProceed =
        true := by
      rw [Job.shouldProceed_iff]
      refine ⟨rfl, ?_⟩
      unfold Job.isCancelled Job.setTitle Job.create
      dsimp only
      cases hca : env.cancelAt with
      | none => rfl
      | some c =>
        have : c ≠ 0 := fun h0 => hc (by rw [hca, h0])
        simp; omega
    have he1 : p.1.job.errorMessage = "Wrong status: " ++ s := by
      rw [← hp]; unfold App.searchAfterStatus
      exact App.searchStatus_wrong env _ s hp0 hs h1 h2
    have hne : "Wrong status: " ++ s ≠ "" := by
      intro h
      have := congrArg String.length h
      simp only [String.length_append] at this
      have h4 : "Wrong status: ".length = 14 := by decide
      have h5 : "".length = 0 := by decide
      omega
    have he2 : r2.job.errorMessage = "Wrong status: " ++ s := by
      rw [← hr2, App.readRegistry_errorMessage,
        if_neg (by rw [Job.shouldProceed_of_error _ (he1 ▸ hne)]; simp), he1]
    have he3 := hfe (he2 ▸ hne)
    have he4 := hge (by rw [he3, he2]; exact hne)
    have he5 := h5e (by rw [he4, he3, he2]; exact hne)
    show r5.job.complete.getErrorMessage = _
    rw [Job.getErrorMessage_eq, Job.errorMessage_complete, he5, he4, he3, he2]

/-! ## Claims C12 and C13 -/

theorem App.findUrl_none (u : QUrl) :
    ∀ (l : List QUrl) (i : Nat), App.findUrl u l i = none ↔ ∀ x ∈ l, x.text ≠ u.text := by
  intro l
  induction l with
  | nil => intro i; simp [App.findUrl]
  | cons y rest ih =>
    intro i
    unfold App.findUrl
    split
    · rename_i h; simp [h]
    · rename_i h; rw [ih]; simp [h]

theorem App.findUrl_some (u : QUrl) :
    ∀ (l : List QUrl) (i k : Nat), App.findUrl u l i = some k →
      ∃ pre x post, l = pre ++ x :: post ∧ k = i + pre.length ∧ x.text = u.text ∧
        ∀ y ∈ pre, y.text ≠ u.text := by
  intro l
  induction l with
  | nil => intro i k h; simp [App.findUrl] at h
  | cons y rest ih =>
    intro i k h
    unfold App.findUrl at h
    split at h
    · rename_i hy
      simp at h
      exact ⟨[], y, rest, rfl, by simp [h], hy, by simp⟩
    · rename_i hy
      obtain ⟨pre, x, post, hl, hk, hx, hpre⟩ := ih (i + 1) k h
      refine ⟨y :: pre, x, post, by simp [hl], by simp [hk]; omega, hx, ?_⟩
      intro z hz
      rcases List.mem_cons.1 hz with h1 | h1
      · subst h1; exact hy
      · exact hpre z h1

/-- Claim C12.  For a valid URL `u` (the option `--url`, trimmed and parsed) and a readable
stored list `L`, `App::addRepo` hands `L ++ [u]` to `setRepositoryURLs` when no entry of
`L` has the string form of `u`; when some entry has it, nothing is written and no error
is returned; and a list without duplicate string forms has none after `addRepo`. -/
theorem C12_addRepo_appends (env : Env) (url : String) (hurl : env.cl.get "url" = some url)
    (hvalid : (env.setUrl (env.trimmed url)).valid = true)
    (hread : env.getRepositoryURLs.2 = "") :
    ((∀ x ∈ env.getRepositoryURLs.1, x.text ≠ (env.setUrl (env.trimmed url)).text) →
      (App.addRepo env).written =
        some (env.getRepositoryURLs.1 ++ [env.setUrl (env.trimmed url)])) ∧
    ((∃ x ∈ env.getRepositoryURLs.1, x.text = (env.setUrl (env.trimmed url)).text) →
      (App.addRepo env).written = none ∧ (App.addRepo env).err = "") ∧
    ((env.getRepositoryURLs.1.map QUrl.text).Nodup →
      ∀ l, (App.addRepo env).stored env.getRepositoryURLs.1 = some l →
        (l.map QUrl.text).Nodup) := by
  have hnone := App.findUrl_none (env.setUrl (env.trimmed url)) env.getRepositoryURLs.1 0
  have key : App.addRepo env =
      match App.findUrl (env.setUrl (env.trimmed url)) env.getRepositoryURLs.1 0 with
      | some _ =>
        { err := "", out := ["This repository is already registered: " ++ env.trimmed url ++
            "\n"], written := none }
      | none =>
        if env.setRepositoryURLs (env.getRepositoryURLs.1 ++
            [env.setUrl (env.trimmed url)]) = "" then
          { err := env.setRepositoryURLs (env.getRepositoryURLs.1 ++
              [env.setUrl (env.trimmed url)]),
            out := ["The repository was added successfully\n"],
            written := some (env.getRepositoryURLs.1 ++ [env.setUrl (env.trimmed url)]) }
        else
          { err := env.setRepositoryURLs (env.getRepositoryURLs.1 ++
              [env.setUrl (env.trimmed url)]),
            out := [],
            written := some (env.getRepositoryURLs.1 ++ [env.setUrl (env.trimmed url)]) } := by
    unfold App.addRepo
    simp only [hurl, Option.map_some', hvalid, hread, Bool.not_true, Bool.false_eq_true,
      if_false, if_true]
  refine ⟨?_, ?_, ?_⟩
  · intro h
    rw [key, hnone.2 h]
    dsimp only
    split <;> rfl
  · rintro ⟨x, hx, hxt⟩
    rw [key]
    cases hf : App.findUrl (env.setUrl (env.trimmed url)) env.getRepositoryURLs.1 0 with
    | none => exact absurd hxt (hnone.1 hf x hx)
    | some k => exact ⟨rfl, rfl⟩
  · intro hnd l hl
    rw [key] at hl
    cases hf : App.findUrl (env.setUrl (env.trimmed url)) env.getRepositoryURLs.1 0 with
    | some k =>
      rw [hf] at hl
      simp [RepoResult.stored] at hl
      rw [← hl]; exact hnd
    | none =>
      rw [hf] at hl
      dsimp only at hl
      have hnot := hnone.1 hf
      split at hl
      · rename_i hw
        simp [RepoResult.stored, hw] at hl
        rw [← hl, List.map_append, List.nodup_append]
        refine ⟨hnd, by simp, ?_⟩
        intro a ha hb
        simp at hb
        obtain ⟨x, hx, hxa⟩ := List.mem_map.1 ha
        exact hnot x hx (by rw [hxa, hb])
      · rename_i hw
        simp [RepoResult.stored, hw] at hl

/-- Claim C12 at work: a new repository is added to a list of one. -/
theorem C12_addRepo_appends_witness :
    Example.oneRepository.cl.get "url" = some " https://www.example.com/Rep.xml " ∧
    (App.addRepo Example.oneRepository).written =
      some [Example.defaultRepository, Example.repository] ∧
    ((Example.oneRepository.getRepositoryURLs.1.map QUrl.text).Nodup →
      ∀ l, (App.addRepo Example.oneRepository).stored
        Example.oneRepository.getRepositoryURLs.1 = some l → (l.map QUrl.text).Nodup) :=
  ⟨by decide,
    (C12_addRepo_appends Example.oneRepository " https://www.example.com/Rep.xml "
      (by decide) (by decide) (by decide)).1 (by decide),
    (C12_addRepo_appends Example.oneRepository " https://www.example.com/Rep.xml "
      (by decide) (by decide) (by decide)).2.2⟩

/-- Counterexample to claim C13 as stated.  The repository is stored twice; `removeRepo`
returns no error and stores a list that still holds the repository. -/
theorem C13_counterexample :
    (App.removeRepo Example.duplicateRepository).err = "" ∧
      (App.removeRepo Example.duplicateRepository).stored
        Example.duplicateRepository.getRepositoryURLs.1 = some [Example.repository] ∧
      ¬ ∀ y ∈ [Example.repository],
        y.text ≠ (Example.duplicateRepository.setUrl "https://www.example.com/Rep.xml").text := by
  decide

/-- Claim C13, amended.  For every stored list `L` and valid URL `u`, after `removeRepo(u)`
returned without error the stored list is `L` without the first entry that has the
string form of `u` (all other entries are kept in their order; `L` itself when no entry
has it); when at most one entry of `L` has the string form of `u`, no entry of the
stored list has it. -/
theorem C13_removeRepo_removes_first (env : Env) (url : String)
    (hurl : env.cl.get "url" = some url) (hvalid : (env.setUrl url).valid = true)
    (hok : (App.removeRepo env).err = "") :
    ∃ l, (App.removeRepo env).stored env.getRepositoryURLs.1 = some l ∧
      (((∀ x ∈ env.getRepositoryURLs.1, x.text ≠ (env.setUrl url).text) ∧
          l = env.getRepositoryURLs.1) ∨
        ∃ pre x post, env.getRepositoryURLs.1 = pre ++ x :: post ∧
          x.text = (env.setUrl url).text ∧ (∀ y ∈ pre, y.text ≠ (env.setUrl url).text) ∧
          l = pre ++ post) ∧
      (env.getRepositoryURLs.1.countP (fun y => decide (y.text = (env.setUrl url).text)) ≤ 1 →
        ∀ y ∈ l, y.text ≠ (env.setUrl url).text) := by
  have hnone := App.findUrl_none (env.setUrl url) env.getRepositoryURLs.1 0
  have hsome := App.findUrl_some (env.setUrl url) env.getRepositoryURLs.1 0
  unfold App.removeRepo at hok ⊢
  simp only [hurl, hvalid, Bool.not_true, Bool.false_eq_true, if_false, if_true] at hok ⊢
  split at hok
  · rename_i hread
    rw [if_pos hread]
    cases hf : App.findUrl (env.setUrl url) env.getRepositoryURLs.1 0 with
    | none =>
      refine ⟨env.getRepositoryURLs.1, by simp [RepoResult.stored], Or.inl ⟨hnone.1 hf, rfl⟩,
        fun _ => hnone.1 hf⟩
    | some k =>
      rw [hf] at hok
      dsimp only at hok ⊢
      obtain ⟨pre, x, post, hl, hk, hx, hpre⟩ := hsome k hf
      have hk' : k = pre.length := by omega
      have herase : env.getRepositoryURLs.1.eraseIdx k = pre ++ post := by
        rw [hl, hk']
        simp [List.eraseIdx_append_of_length_le]
      split at hok
      · rename_i hw
        refine ⟨pre ++ post, ?_, Or.inr ⟨pre, x, post, hl, hx, hpre, rfl⟩, ?_⟩
        · rw [herase] at hw
          simp [RepoResult.stored, hw, herase]
        · intro hcount y hy
          rw [hl, List.countP_append, List.countP_cons] at hcount
          simp only [hx, decide_True, if_true] at hcount
          have hpost : post.countP (fun y => decide (y.text = (env.setUrl url).text)) = 0 := by
            omega
          rw [List.countP_eq_zero] at hpost
          rcases List.mem_append.1 hy with h1 | h1
          · exact hpre y h1
          · simpa using hpost y h1
      · rename_i hw
        exact absurd hok hw
  · rename_i hread
    exact absurd hok hread

/-- Claim C13, amended, at work: the second of two repositories is removed. -/
theorem C13_removeRepo_removes_first_witness :
    (App.removeRepo Example.twoRepositories).err = "" ∧
    ∃ l, (App.removeRepo Example.twoRepositories).stored
        Example.twoRepositories.getRepositoryURLs.1 = some l ∧
      (((∀ x ∈ Example.twoRepositories.getRepositoryURLs.1,
            x.text ≠ (Example.twoRepositories.setUrl "https://www.example.com/Rep.xml").text) ∧
          l = Example.twoRepositories.getRepositoryURLs.1) ∨
        ∃ pre x post, Example.twoRepositories.getRepositoryURLs.1 = pre ++ x :: post ∧
          x.text = (Example.twoRepositories.setUrl "https://www.example.com/Rep.xml").text ∧
          (∀ y ∈ pre,
            y.text ≠ (Example.twoRepositories.setUrl "https://www.example.com/Rep.xml").text) ∧
          l = pre ++ post) ∧
      (Example.twoRepositories.getRepositoryURLs.1.countP (fun y => decide (y.text =
          (Example.twoRepositories.setUrl "https://www.example.com/Rep.xml").text)) ≤ 1 →
        ∀ y ∈ l,
          y.text ≠ (Example.twoRepositories.setUrl "https://www.example.com/Rep.xml").text) :=
  ⟨by decide, C13_removeRepo_removes_first Example.twoRepositories
    "https://www.example.com/Rep.xml" (by decide) (by decide) (by decide)⟩

/-! ## Claim C17 -/

theorem Job.completed_setErrorMessage (j : Job) (msg : String) :
    (j.setErrorMessage msg).completed = j.completed := by
  unfold Job.setErrorMessage
  split <;> rfl

/-- A job without an error message takes the message recorded, and a non-empty message
stops it. -/
theorem Job.setErrorMessage_of_proceeds (j : Job) (msg : String) (h : j.errorMessage = "") :
    (j.setErrorMessage msg).errorMessage = msg := by
  rw [Job.errorMessage_setErrorMessage, if_pos h]

theorem App.copyExecutable_completed (env : Env) (r : Run) :
    (App.copyExecutable env r).1.job.completed = r.job.completed ∧
      (App.copyExecutable env r).1.out = r.out := by
  unfold App.copyExecutable
  split
  · dsimp only
    split
    · exact ⟨Job.completed_setErrorMessage _ _, rfl⟩
    · split
      · exact ⟨Job.completed_setErrorMessage _ _, rfl⟩
      · split
        · exact ⟨Job.completed_setErrorMessage _ _, rfl⟩
        · exact ⟨rfl, rfl⟩
  · exact ⟨rfl, rfl⟩

theorem App.writeBatchFile_completed (env : Env) (ops : List InstallOperation) (pct : Nat)
    (newExe : String) (r : Run) :
    (App.writeBatchFile env ops pct newExe r).1.job.completed = r.job.completed ∧
      (App.writeBatchFile env ops pct newExe r).1.out = r.out := by
  unfold App.writeBatchFile
  split
  · dsimp only
    split
    · exact ⟨Job.completed_setErrorMessage _ _, rfl⟩
    · split
      · exact ⟨Job.completed_setErrorMessage _ _, rfl⟩
      · exact ⟨rfl, rfl⟩
  · exact ⟨rfl, rfl⟩

theorem App.startCopiedBinary_completed (env : Env) (file : String) (r : Run) :
    (App.startCopiedBinary env file r).job.completed = r.job.completed := by
  unfold App.startCopiedBinary
  split <;> rfl

/-- A job with an error message passes the later steps of the self-update untouched but
for the polls. -/
theorem App.writeBatchFile_of_error (env : Env) (ops : List InstallOperation) (pct : Nat)
    (newExe : String) (r : Run) (h : r.job.errorMessage ≠ "") :
    (App.writeBatchFile env ops pct newExe r).1 = { r with job := r.job.polled } := by
  unfold App.writeBatchFile
  rw [if_neg (by rw [Job.shouldProceed_of_error _ h]; simp)]

theorem App.startCopiedBinary_of_error (env : Env) (file : String) (r : Run)
    (h : r.job.errorMessage ≠ "") :
    App.startCopiedBinary env file r = { r with job := r.job.polled } := by
  unfold App.startCopiedBinary
  rw [if_neg (by rw [Job.shouldProceed_of_error _ h]; simp)]

/-- A failed staging leaves its message in the job and makes at most the copy call. -/
theorem App.copyExecutable_fails (env : Env) (r : Run) (hp : r.job.shouldProceed = true)
    (hfail : App.stagingFails env = true) :
    (App.copyExecutable env r).1.job.errorMessage = App.stagingMessage env ∧
      ContinuesWith (fun e => e.isWriteFile = false ∧ e.isCreateProcess = false) r.calls
        (App.copyExecutable env r).1.calls := by
  have h0 := ((Job.shouldProceed_iff _).1 hp).1
  unfold App.copyExecutable App.stagingMessage
  rw [if_pos hp]
  dsimp only
  unfold App.stagingFails at hfail
  by_cases h1 : env.exeOpen = true
  · by_cases h2 : env.exeRemove = true
    · have h3 : env.copy env.getExeFile env.exeFileName = false := by
        simpa [h1, h2] using hfail
      simp only [h1, h2, h3, Bool.not_true, Bool.false_eq_true, if_false, Bool.not_false,
        if_true]
      exact ⟨Job.setErrorMessage_of_proceeds _ _ h0,
        ContinuesWith.single _ _ _ ⟨rfl, rfl⟩⟩
    · have h2' : env.exeRemove = false := by simpa using h2
      simp only [h1, h2', Bool.not_true, Bool.false_eq_true, if_false, Bool.not_false,
        if_true]
      exact ⟨Job.setErrorMessage_of_proceeds _ _ h0, ContinuesWith.unchanged _ _⟩
  · have h1' : env.exeOpen = false := by simpa using h1
    simp only [h1', Bool.not_false, if_true]
    exact ⟨Job.setErrorMessage_of_proceeds _ _ h0, ContinuesWith.unchanged _ _⟩

/-- A failed writing leaves its message in the job and makes at most the write call. -/
theorem App.writeBatchFile_fails (env : Env) (ops : List InstallOperation) (pct : Nat)
    (newExe : String) (r : Run) (hp : r.job.shouldProceed = true)
    (hfail : App.writingFails env ops pct newExe = true) :
    (App.writeBatchFile env ops pct newExe r).1.job.errorMessage = App.writingMessage env ∧
      ContinuesWith (fun e => e.isCreateProcess = false) r.calls
        (App.writeBatchFile env ops pct newExe r).1.calls := by
  have h0 := ((Job.shouldProceed_iff _).1 hp).1
  unfold App.writeBatchFile App.writingMessage
  rw [if_pos hp]
  dsimp only
  unfold App.writingFails at hfail
  by_cases h1 : env.batOpen = true
  · have h2 : env.streamOk ("\r\n".intercalate
        (App.batchLoop env newExe (env.programCloseType2String pct) ops [])) = false := by
      simpa [h1] using hfail
    simp only [h1, h2, Bool.not_true, Bool.false_eq_true, if_false, Bool.not_false, if_true]
    refine ⟨?_, ContinuesWith.single _ _ _ rfl⟩
    rw [Job.errorMessage_setProgress]
    exact Job.setErrorMessage_of_proceeds _ _ h0
  · have h1' : env.batOpen = false := by simpa using h1
    simp only [h1', Bool.not_false, if_true]
    exact ⟨Job.setErrorMessage_of_proceeds _ _ h0, ContinuesWith.unchanged _ _⟩

theorem App.processInstallOperations_self (env : Env) (ops : List InstallOperation)
    (pct : Nat) (r : Run) (hself : env.includesRemoveItself ops = true) :
    App.processInstallOperations env ops pct r =
      { App.startCopiedBinary env
          (App.writeBatchFile env ops pct (App.copyExecutable env r).2
            (App.copyExecutable env r).1).2
          (App.writeBatchFile env ops pct (App.copyExecutable env r).2
            (App.copyExecutable env r).1).1 with
        job := (App.startCopiedBinary env
          (App.writeBatchFile env ops pct (App.copyExecutable env r).2
            (App.copyExecutable env r).1).2
          (App.writeBatchFile env ops pct (App.copyExecutable env r).2
            (App.copyExecutable env r).1).1).job.complete } := by
  unfold App.processInstallOperations
  rw [if_pos hself]

theorem App.stagingMessage_ne (env : Env) (h1 : env.exeOpenError ≠ "")
    (h2 : env.exeRemoveError ≠ "") : App.stagingMessage env ≠ "" := by
  unfold App.stagingMessage
  split
  · exact h1
  · split
    · exact h2
    · decide

theorem App.writingMessage_ne (env : Env) (h : env.batOpenError ≠ "") :
    App.writingMessage env ≠ "" := by
  unfold App.writingMessage
  split
  · exact h
  · decide

/-- The staging of the copy starts no process. -/
theorem App.copyExecutable_no_process (env : Env) (r : Run) :
    ContinuesWith (fun e => e.isCreateProcess = false) r.calls
      (App.copyExecutable env r).1.calls := by
  unfold App.copyExecutable
  split
  · dsimp only
    split
    · exact ContinuesWith.unchanged _ _
    · split
      · exact ContinuesWith.unchanged _ _
      · split
        · exact ContinuesWith.single _ _ _ rfl
        · exact ContinuesWith.single _ _ _ rfl
  · exact ContinuesWith.unchanged _ _

/-- Claim C17.  On the self-update path of `App::processInstallOperations`, with the error
strings of the failed file operations not empty (Qt's `errorString()` never is):
`job->complete()` is called exactly once; if the staging of the copy is started and
fails, the `.bat` file is not written, no process is started, nothing is printed and the
job's error message is the message of the staging; if the writing of the script is
started and fails, no process is started and the job's error message is the message of
the writing. -/
theorem C17_self_update_stops_at_failure (env : Env) (ops : List InstallOperation)
    (pct : Nat) (r : Run) (hself : env.includesRemoveItself ops = true)
    (h1 : env.exeOpenError ≠ "") (h2 : env.exeRemoveError ≠ "") (h3 : env.batOpenError ≠ "") :
    (App.processInstallOperations env ops pct r).job.completed = r.job.completed + 1 ∧
    (r.job.shouldProceed = true → App.stagingFails env = true →
      ContinuesWith (fun e => e.isWriteFile = false ∧ e.isCreateProcess = false) r.calls
        (App.processInstallOperations env ops pct r).calls ∧
      (App.processInstallOperations env ops pct r).out = r.out ∧
      (App.processInstallOperations env ops pct r).job.errorMessage =
        App.stagingMessage env) ∧
    ((App.copyExecutable env r).1.job.shouldProceed = true →
      App.writingFails env ops pct (App.copyExecutable env r).2 = true →
      ContinuesWith (fun e => e.isCreateProcess = false) r.calls
        (App.processInstallOperations env ops pct r).calls ∧
      (App.processInstallOperations env ops pct r).out = r.out ∧
      (App.processInstallOperations env ops pct r).job.errorMessage =
        App.writingMessage env) := by
  rw [App.processInstallOperations_self env ops pct r hself]
  generalize hc : App.copyExecutable env r = c
  generalize hw : App.writeBatchFile env ops pct c.2 c.1 = w
  have hcc := App.copyExecutable_completed env r
  rw [hc] at hcc
  have hwc := App.writeBatchFile_completed env ops pct c.2 c.1
  rw [hw] at hwc
  refine ⟨?_, ?_, ?_⟩
  · show (App.startCopiedBinary env w.2 w.1).job.complete.completed = _
    have := App.startCopiedBinary_completed env w.2 w.1
    show (App.startCopiedBinary env w.2 w.1).job.completed + 1 = _
    rw [this, hwc.1, hcc.1]
  · intro hp hfail
    obtain ⟨hmsg, hcont⟩ := App.copyExecutable_fails env r hp hfail
    rw [hc] at hmsg hcont
    have hne : c.1.job.errorMessage ≠ "" := by
      rw [hmsg]; exact App.stagingMessage_ne env h1 h2
    have hw' := App.writeBatchFile_of_error env ops pct c.2 c.1 hne
    rw [hw] at hw'
    have hne2 : w.1.job.errorMessage ≠ "" := by rw [hw']; exact hne
    rw [App.startCopiedBinary_of_error env w.2 w.1 hne2, hw']
    exact ⟨hcont, hcc.2, hmsg⟩
  · intro hp hfail
    obtain ⟨hmsg, hcont⟩ := App.writeBatchFile_fails env ops pct c.2 c.1 hp hfail
    rw [hw] at hmsg hcont
    have hne : w.1.job.errorMessage ≠ "" := by
      rw [hmsg]; exact App.writingMessage_ne env h3
    rw [App.startCopiedBinary_of_error env w.2 w.1 hne]
    have hnp := App.copyExecutable_no_process env r
    rw [hc] at hnp
    exact ⟨hnp.followedBy hcont, by rw [← hcc.2, ← hwc.2], hmsg⟩

theorem C17_self_update_stops_at_failure_witness :
    ((App.processInstallOperations Example.copyFails [] 0 { job := Job.create none }).calls =
        [Event.copyFile Example.copyFails.getExeFile Example.copyFails.exeFileName false] ∧
      (App.processInstallOperations Example.copyFails [] 0
        { job := Job.create none }).job.errorMessage = "Error copying the binary") ∧
    ((∀ e ∈ (App.processInstallOperations Example.writeFails [] 0
        { job := Job.create none }).calls, e.isCreateProcess = false) ∧
      (App.processInstallOperations Example.writeFails [] 0
        { job := Job.create none }).job.errorMessage = "Error writing the .bat file") :=
  ⟨⟨by decide,
    ((C17_self_update_stops_at_failure Example.copyFails [] 0 { job := Job.create none }
      (by decide) (by decide) (by decide) (by decide)).2.1 (by decide) (by decide)).2.2⟩,
   ⟨by decide,
    ((C17_self_update_stops_at_failure Example.writeFails [] 0 { job := Job.create none }
      (by decide) (by decide) (by decide) (by decide)).2.2 (by decide) (by decide)).2.2⟩⟩

/-! ## Claim C18 -/

@[simp] theorem Job.cancelAt_setErrorMessage (j : Job) (msg : String) :
    (j.setErrorMessage msg).cancelAt = j.cancelAt := by
  unfold Job.setErrorMessage
  split <;> rfl
@[simp] theorem Job.cancelAt_polled (j : Job) : j.polled.cancelAt = j.cancelAt := rfl
@[simp] theorem Job.cancelAt_newSubJob (j : Job) (w : ℚ) (t : String) :
    (j.newSubJob w t).cancelAt = j.cancelAt := rfl
@[simp] theorem Job.cancelAt_subJobCompleted (j : Job) (w : ℚ) :
    (j.subJobCompleted w).cancelAt = j.cancelAt := rfl
@[simp] theorem Job.cancelAt_setProgress (j : Job) (p : ℚ) :
    (j.setProgress p).cancelAt = j.cancelAt := rfl
@[simp] theorem Job.cancelAt_complete (j : Job) : j.complete.cancelAt = j.cancelAt := rfl
@[simp] theorem Job.cancelAt_setTitle (j : Job) (t : String) :
    (j.setTitle t).cancelAt = j.cancelAt := rfl

/-- A job that is never cancelled should proceed exactly when it has no error message. -/
theorem Job.shouldProceed_of_never_cancelled (j : Job) (h : j.cancelAt = none) :
    j.shouldProceed = decide (j.errorMessage = "") := by
  simp [Job.shouldProceed, Job.isCancelled, h]

theorem App.readRegistry_cancelAt (env : Env) (w : ℚ) (r : Run) :
    (App.readRegistry env w r).job.cancelAt = r.job.cancelAt := by
  unfold App.readRegistry
  split
  · dsimp only
    split <;> simp
  · rfl

theorem App.detectInstalled_cancelAt (env : Env) (w : ℚ) (r : Run) :
    (App.detectInstalled env w r).job.cancelAt = r.job.cancelAt := by
  unfold App.detectInstalled
  split
  · dsimp only
    split <;> simp
  · rfl

theorem App.updateCloseType_cancelAt (env : Env) (s : UpdateState) :
    (App.updateCloseType env s).job.cancelAt = s.job.cancelAt := by
  unfold App.updateCloseType
  split
  · dsimp only
    split <;> simp
  · rfl

theorem App.updateMissingOption_cancelAt (ps : List String) (s : UpdateState) :
    (App.updateMissingOption ps s).job.cancelAt = s.job.cancelAt := by
  unfold App.updateMissingOption
  split
  · dsimp only
    split <;> simp
  · rfl

theorem App.updateValidNames_cancelAt (env : Env) (ps : List String) :
    ∀ j : Job, (App.updateValidNames env ps j).cancelAt = j.cancelAt := by
  induction ps with
  | nil => intro j; rfl
  | cons p rest ih =>
    intro j
    unfold App.updateValidNames
    split
    · rw [ih]; simp
    · rw [ih]

theorem App.updateCheckNames_cancelAt (env : Env) (ps : List String) (s : UpdateState) :
    (App.updateCheckNames env ps s).job.cancelAt = s.job.cancelAt := by
  unfold App.updateCheckNames
  split
  · show (App.updateValidNames env ps s.job.polled).cancelAt = _
    rw [App.updateValidNames_cancelAt]; rfl
  · rfl

theorem App.updateBeforeLookup_cancelAt (env : Env) :
    (App.updateBeforeLookup env).job.cancelAt = env.cancelAt := by
  unfold App.updateBeforeLookup
  dsimp only
  rw [App.updateCheckNames_cancelAt, App.updateMissingOption_cancelAt,
    App.updateCloseType_cancelAt]
  show (App.detectInstalled env (5/100) _).job.cancelAt = _
  rw [App.detectInstalled_cancelAt, App.readRegistry_cancelAt]
  rfl

theorem App.updateLookupMessage_ne (env : Env) (p : String) :
    App.updateLookupMessage env p ≠ "" := by
  unfold App.updateLookupMessage
  split
  · intro h
    have := congrArg String.length h
    rw [String.length_append] at this
    have h2 : "Unknown package: ".length = 17 := by decide
    have h3 : "".length = 0 := by decide
    omega
  · decide

/-- One round of the lookup loop on a job that proceeds and is never cancelled. -/
theorem App.updateFindOne_spec (env : Env) (p : String) (s : UpdateState)
    (h0 : s.job.errorMessage = "") (hc : s.job.cancelAt = none) :
    (App.updateFindOne env p s).calls = s.calls ++ [App.updateLookupEvent p] ∧
    (App.updateFindOne env p s).job.cancelAt = none ∧
    (App.updateFindOne env p s).out = s.out ∧
    ((App.updateResolve env p).length = 1 →
      (App.updateFindOne env p s).job.errorMessage = "" ∧
      (App.updateFindOne env p s).toUpdate = s.toUpdate ++ App.updateResolve env p) ∧
    ((App.updateResolve env p).length ≠ 1 →
      (App.updateFindOne env p s).job.errorMessage = App.updateLookupMessage env p ∧
      (App.updateFindOne env p s).toUpdate = s.toUpdate) := by
  have hp : s.job.shouldProceed = true := by
    rw [Job.shouldProceed_of_never_cancelled _ hc]; simp [h0]
  have key : App.updateFindOne env p s =
      (let packages := App.updateResolve env p
       let s : UpdateState := { s with calls := s.calls ++ [App.updateLookupEvent p] }
       if packages.length = 0 then
          { s with job := s.job.polled.setErrorMessage ("Unknown package: " ++ p) }
        else if packages.length > 1 then
          { s with job := s.job.polled.setErrorMessage "Ambiguous package name" }
        else
          { s with job := s.job.polled, toUpdate := s.toUpdate ++ packages.take 1 }) := by
    unfold App.updateFindOne App.updateResolve App.updateLookupEvent
    by_cases hd : '.' ∈ p.toList
    · simp only [hd, if_true, hp]
    · simp only [hd, if_false, hp, if_true]
  rw [key]
  unfold App.updateLookupMessage
  generalize App.updateResolve env p = l
  dsimp only
  have hpe : s.job.polled.errorMessage = "" := h0
  have hpc : s.job.polled.cancelAt = none := hc
  by_cases h1 : l.length = 0
  · rw [if_pos h1, if_pos h1]
    refine ⟨rfl, ?_, rfl, by intro h; omega, ?_⟩
    · show (s.job.polled.setErrorMessage _).cancelAt = none
      rw [Job.cancelAt_setErrorMessage]; exact hpc
    · intro _
      exact ⟨Job.setErrorMessage_of_proceeds _ _ hpe, rfl⟩
  · rw [if_neg h1, if_neg h1]
    by_cases h2 : l.length > 1
    · rw [if_pos h2]
      refine ⟨rfl, ?_, rfl, by intro h; omega, ?_⟩
      · show (s.job.polled.setErrorMessage _).cancelAt = none
        rw [Job.cancelAt_setErrorMessage]; exact hpc
      · intro _
        exact ⟨Job.setErrorMessage_of_proceeds _ _ hpe, rfl⟩
    · rw [if_neg h2]
      have h3 : l.length = 1 := by omega
      refine ⟨rfl, hc, rfl, ?_, by intro h; exact absurd h3 h⟩
      intro _
      refine ⟨h0, ?_⟩
      show s.toUpdate ++ l.take 1 = s.toUpdate ++ l
      rw [List.take_of_length_le (by omega)]

/-- The lookup loop on a job that proceeds and is never cancelled: it resolves the names
in order up to and including the first one that does not resolve to exactly one package. -/
theorem App.updateFindPackages_spec (env : Env) (names : List String) :
    ∀ s : UpdateState, s.job.errorMessage = "" → s.job.cancelAt = none →
      (App.updateFindPackages env names s).job.cancelAt = none ∧
      (App.updateFindPackages env names s).out = s.out ∧
      ((∀ n ∈ names, (App.updateResolve env n).length = 1) →
        (App.updateFindPackages env names s).calls =
          s.calls ++ names.map App.updateLookupEvent ∧
        (App.updateFindPackages env names s).toUpdate =
          s.toUpdate ++ (names.map (App.updateResolve env)).flatten ∧
        (App.updateFindPackages env names s).job.errorMessage = "") ∧
      (∀ done name rest, names = done ++ name :: rest →
        (∀ n ∈ done, (App.updateResolve env n).length = 1) →
        (App.updateResolve env name).length ≠ 1 →
        (App.updateFindPackages env names s).calls =
          s.calls ++ (done ++ [name]).map App.updateLookupEvent ∧
        (App.updateFindPackages env names s).toUpdate =
          s.toUpdate ++ (done.map (App.updateResolve env)).flatten ∧
        (App.updateFindPackages env names s).job.errorMessage =
          App.updateLookupMessage env name) := by
  induction names with
  | nil =>
    intro s h0 hc
    refine ⟨hc, rfl, ?_, ?_⟩
    · intro _
      exact ⟨by simp [App.updateFindPackages], by simp [App.updateFindPackages], h0⟩
    · intro done name rest h
      simp at h
  | cons p ps ih =>
    intro s h0 hc
    obtain ⟨k1, k2, k3, k4, k5⟩ := App.updateFindOne_spec env p s h0 hc
    unfold App.updateFindPackages
    dsimp only
    generalize App.updateFindOne env p s = s1 at *
    have hsp := Job.shouldProceed_of_never_cancelled s1.job k2
    by_cases h1 : (App.updateResolve env p).length = 1
    · obtain ⟨e1, e2⟩ := k4 h1
      have hp : s1.job.shouldProceed = true := by rw [hsp]; simp [e1]
      rw [hp]
      simp only [Bool.not_true, Bool.false_eq_true, if_false]
      obtain ⟨i1, i2, i3, i4⟩ := ih { s1 with job := s1.job.polled } e1 k2
      refine ⟨i1, i2.trans k3, ?_, ?_⟩
      · intro hall
        obtain ⟨a, b, c⟩ := i3 (fun n hn => hall n (List.mem_cons_of_mem _ hn))
        refine ⟨?_, ?_, c⟩
        · rw [a]; show s1.calls ++ _ = _; rw [k1]; simp
        · rw [b]; show s1.toUpdate ++ _ = _; rw [e2]; simp
      · intro done name rest hsplit hdone hname
        cases done with
        | nil =>
          simp at hsplit
          rw [← hsplit.1] at hname
          exact absurd h1 hname
        | cons d done' =>
          simp at hsplit
          obtain ⟨hd, hrest⟩ := hsplit
          subst hd
          obtain ⟨a, b, c⟩ := i4 done' name rest hrest
            (fun n hn => hdone n (List.mem_cons_of_mem _ hn)) hname
          refine ⟨?_, ?_, c⟩
          · rw [a]; show s1.calls ++ _ = _; rw [k1]; simp
          · rw [b]; show s1.toUpdate ++ _ = _; rw [e2]; simp
    · obtain ⟨e1, e2⟩ := k5 h1
      have hp : s1.job.shouldProceed = false := by
        rw [hsp, e1]; simp [App.updateLookupMessage_ne env p]
      rw [hp]
      simp only [Bool.not_false, if_true]
      refine ⟨k2, k3, ?_, ?_⟩
      · intro hall
        exact absurd (hall p (List.mem_cons_self _ _)) h1
      · intro done name rest hsplit hdone hname
        cases done with
        | nil =>
          simp at hsplit
          rw [← hsplit.1]
          exact ⟨by show s1.calls = _; rw [k1]; simp,
            by show s1.toUpdate = _; rw [e2]; simp, e1⟩
        | cons d done' =>
          simp at hsplit
          obtain ⟨hd, _⟩ := hsplit
          subst hd
          exact absurd (hdone p (List.mem_cons_self _ _)) h1

theorem App.updateBeforeLookup_calls (env : Env) :
    ∀ e ∈ (App.updateBeforeLookup env).calls, e.isLookup = false ∧ e.isPlanUpdates = false := by
  unfold App.updateBeforeLookup
  dsimp only
  rw [App.updateCheckNames_calls, App.updateMissingOption_calls, App.updateCloseType_calls]
  show ∀ e ∈ (App.detectInstalled env (5/100) _).calls, _
  rw [App.detectInstalled_calls, App.readRegistry_calls]
  intro e he
  split at he <;> split at he <;> simp at he
  · rcases he with he | he <;> subst he <;> exact ⟨rfl, rfl⟩
  · subst he; exact ⟨rfl, rfl⟩
  · subst he; exact ⟨rfl, rfl⟩

theorem App.updateBeforePlan_eq (env : Env) :
    App.updateBeforePlan env =
      App.updateLookup env (env.cl.getAll "package") (App.updateBeforeLookup env) := rfl

/-- The lookup step on a job that proceeds and is never cancelled is the lookup loop. -/
theorem App.updateLookup_of_proceeds (env : Env) (names : List String) (s : UpdateState)
    (hp : s.job.shouldProceed = true) :
    App.updateLookup env names s =
      App.updateFindPackages env names { s with job := s.job.polled } := by
  unfold App.updateLookup
  rw [if_pos hp]

/-- After a failed step, `update` plans and processes nothing and returns the message of
the job. -/
theorem App.update_of_failed (env : Env) (s : UpdateState) (he : s.job.errorMessage ≠ "")
    (hc : s.job.cancelAt = none) :
    (App.updateFinish (App.updateProcess env (App.updatePlan env s))).err =
        s.job.errorMessage ∧
      (App.updateFinish (App.updateProcess env (App.updatePlan env s))).calls = s.calls := by
  have h1 : App.updatePlan env s = { s with job := s.job.polled } := by
    unfold App.updatePlan
    rw [if_neg (by simp [Job.shouldProceed_of_error _ he])]
  have h2 : App.updateProcess env { s with job := s.job.polled } =
      { s with job := s.job.polled.polled } := by
    unfold App.updateProcess
    have : s.job.polled.shouldProceed = false := Job.shouldProceed_of_error _ he
    simp [this]
  rw [h1, h2, App.updateFinish_calls]
  refine ⟨?_, rfl⟩
  unfold App.updateFinish
  dsimp only
  have hcanc : s.job.polled.polled.complete.isCancelled = false := by
    simp [Job.isCancelled, hc]
  rw [if_neg (by simp [hcanc])]
  split
  · rfl
  · split
    · rfl
    · rfl

/-- The planning step on a job that proceeds calls `planUpdates` with the packages found. -/
theorem App.updatePlan_of_proceeds (env : Env) (s : UpdateState)
    (hp : s.job.shouldProceed = true) :
    (App.updatePlan env s).calls = s.calls ++ [Event.planUpdates s.toUpdate
      (env.planUpdates s.toUpdate).1 (env.planUpdates s.toUpdate).2] := by
  unfold App.updatePlan
  rw [if_pos hp]
  dsimp only
  split <;> rfl

/-- The processing step keeps the calls made before it and adds no planning call. -/
theorem App.updateProcess_continues (env : Env) (s : UpdateState) :
    ContinuesWith (fun e => e.isPlanUpdates = false ∧ e.isLookup = false) s.calls
      (App.updateProcess env s).calls := by
  have hk : ∀ e : Event, e.isProcessInstallOperations = true ∨ e.isExecution = true →
      e.isPlanUpdates = false ∧ e.isLookup = false := by
    intro e he
    cases e <;> simp [Event.isProcessInstallOperations, Event.isExecution] at he <;>
      exact ⟨rfl, rfl⟩
  unfold App.updateProcess
  split
  · dsimp only
    have key := (App.runInstallOperations_continues env (85/100) "Updating" s.ops
      s.programCloseType { s.toRun with job := s.job.polled }).mono hk
    split
    · exact key
    · exact key
  · exact ContinuesWith.unchanged _ _

theorem App.filter_lookup_map (names : List String) :
    (names.map App.updateLookupEvent).filter Event.isLookup =
      names.map App.updateLookupEvent := by
  rw [List.filter_eq_self]
  intro e he
  obtain ⟨n, _, rfl⟩ := List.mem_map.1 he
  unfold App.updateLookupEvent
  split <;> rfl

/-- Lists of one element each are the one-element lists of their concatenation. -/
theorem App.singletons_of_flatten {α : Type} (l : List (List α))
    (h : ∀ x ∈ l, x.length = 1) : l = l.flatten.map (fun p => [p]) := by
  induction l with
  | nil => rfl
  | cons x xs ih =>
    have hx := h x (List.mem_cons_self _ _)
    obtain ⟨a, rfl⟩ := List.length_eq_one.1 hx
    have := ih (fun y hy => h y (List.mem_cons_of_mem _ hy))
    simp only [List.flatten_cons, List.singleton_append, List.map_cons]
    rw [← this]

theorem App.updateCloseType_toUpdate (env : Env) (s : UpdateState) :
    (App.updateCloseType env s).toUpdate = s.toUpdate := by
  unfold App.updateCloseType
  split
  · dsimp only; split <;> rfl
  · rfl

theorem App.updateMissingOption_toUpdate (ps : List String) (s : UpdateState) :
    (App.updateMissingOption ps s).toUpdate = s.toUpdate := by
  unfold App.updateMissingOption
  split
  · dsimp only; split <;> rfl
  · rfl

theorem App.updateCheckNames_toUpdate (env : Env) (ps : List String) (s : UpdateState) :
    (App.updateCheckNames env ps s).toUpdate = s.toUpdate := by
  unfold App.updateCheckNames
  split <;> rfl

theorem App.updateBeforeLookup_toUpdate (env : Env) :
    (App.updateBeforeLookup env).toUpdate = [] := by
  unfold App.updateBeforeLookup
  dsimp only
  rw [App.updateCheckNames_toUpdate, App.updateMissingOption_toUpdate,
    App.updateCloseType_toUpdate]

/-- A name with a dot resolves to at most one package. -/
theorem App.updateResolve_dotted (env : Env) (name : String) (h : '.' ∈ name.toList) :
    (App.updateResolve env name).length ≤ 1 := by
  unfold App.updateResolve
  rw [if_pos h]
  split <;> simp

/-- Claim C18.  In `App::update`, with a job that is never cancelled and has no error when
the lookup loop is reached: at the first requested name that the catalog lookup does not
resolve to exactly one package the command fails with "Unknown package: <name>" if no
package was found and with "Ambiguous package name" if more than one was found (which
only an undotted name can do); the lookups made are those of the names up to this one, in
request order, and `planUpdates` is not called.  If every name resolves to exactly one
package, `planUpdates` is called, and only with the list of these packages, one per
requested name in request order. -/
theorem C18_update_lookup (env : Env) (hc : env.cancelAt = none)
    (hp : (App.updateBeforeLookup env).job.shouldProceed = true) :
    (∀ done name rest, env.cl.getAll "package" = done ++ name :: rest →
      (∀ n ∈ done, (App.updateResolve env n).length = 1) →
      (App.updateResolve env name).length ≠ 1 →
      (App.update env).err =
        (if (App.updateResolve env name).length = 0 then "Unknown package: " ++ name
         else "Ambiguous package name") ∧
      ((App.updateResolve env name).length ≠ 0 → '.' ∉ name.toList) ∧
      (App.update env).calls.filter Event.isLookup =
        (done ++ [name]).map App.updateLookupEvent ∧
      ∀ e ∈ (App.update env).calls, e.isPlanUpdates = false) ∧
    ((∀ n ∈ env.cl.getAll "package", (App.updateResolve env n).length = 1) →
      ∃ ps, (env.cl.getAll "package").map (App.updateResolve env) = ps.map (fun p => [p]) ∧
        (∀ e ∈ (App.update env).calls, e.isPlanUpdates = true →
          ∃ err ops, e = Event.planUpdates ps err ops) ∧
        (∃ err ops, Event.planUpdates ps err ops ∈ (App.update env).calls) ∧
        (App.update env).calls.filter Event.isLookup =
          (env.cl.getAll "package").map App.updateLookupEvent) := by
  have h0 := ((Job.shouldProceed_iff _).1 hp).1
  have hcn : (App.updateBeforeLookup env).job.cancelAt = none := by
    rw [App.updateBeforeLookup_cancelAt]; exact hc
  have hcalls := App.updateBeforeLookup_calls env
  have htu := App.updateBeforeLookup_toUpdate env
  have hupd : App.update env = App.updateFinish (App.updateProcess env (App.updatePlan env
      (App.updateFindPackages env (env.cl.getAll "package")
        { App.updateBeforeLookup env with job := (App.updateBeforeLookup env).job.polled }))) := by
    unfold App.update App.updateBeforeFinish
    rw [App.updateBeforePlan_eq, App.updateLookup_of_proceeds env _ _ hp]
  rw [hupd]
  generalize App.updateBeforeLookup env = s0 at *
  obtain ⟨f1, _, f3, f4⟩ := App.updateFindPackages_spec env (env.cl.getAll "package")
    { s0 with job := s0.job.polled } h0 hcn
  generalize App.updateFindPackages env (env.cl.getAll "package")
    { s0 with job := s0.job.polled } = s1 at *
  have hfil : s0.calls.filter Event.isLookup = [] := by
    rw [List.filter_eq_nil_iff]
    intro e he
    simp [(hcalls e he).1]
  constructor
  · intro done name rest hsplit hdone hname
    obtain ⟨a, _, c⟩ := f4 done name rest hsplit hdone hname
    have a' : s1.calls = s0.calls ++ (done ++ [name]).map App.updateLookupEvent := a
    have hne : s1.job.errorMessage ≠ "" := by
      rw [c]; exact App.updateLookupMessage_ne env name
    obtain ⟨g1, g2⟩ := App.update_of_failed env s1 hne f1
    rw [g1, g2, c, a']
    refine ⟨rfl, ?_, ?_, ?_⟩
    · intro hz hd
      have := App.updateResolve_dotted env name hd
      omega
    · rw [List.filter_append, hfil, App.filter_lookup_map, List.nil_append]
    · intro e he
      rcases List.mem_append.1 he with he | he
      · exact (hcalls e he).2
      · obtain ⟨n, _, rfl⟩ := List.mem_map.1 he
        unfold App.updateLookupEvent
        split <;> rfl
  · intro hall
    obtain ⟨a, b, c⟩ := f3 hall
    have a' : s1.calls = s0.calls ++ (env.cl.getAll "package").map App.updateLookupEvent := a
    have b' : s1.toUpdate =
        ((env.cl.getAll "package").map (App.updateResolve env)).flatten := by
      rw [b]; show s0.toUpdate ++ _ = _; rw [htu, List.nil_append]
    have hp1 : s1.job.shouldProceed = true := by
      rw [Job.shouldProceed_of_never_cancelled _ f1]; simp [c]
    have hplan := App.updatePlan_of_proceeds env s1 hp1
    obtain ⟨X, hX, hK⟩ := App.updateProcess_continues env (App.updatePlan env s1)
    rw [App.updateFinish_calls, hX, hplan, a', b']
    refine ⟨_, App.singletons_of_flatten _ ?_, ?_, ⟨(env.planUpdates
      ((env.cl.getAll "package").map (App.updateResolve env)).flatten).1, (env.planUpdates
      ((env.cl.getAll "package").map (App.updateResolve env)).flatten).2, ?_⟩, ?_⟩
    · intro x hx
      obtain ⟨n, hn, rfl⟩ := List.mem_map.1 hx
      exact hall n hn
    · intro e he hpl
      simp only [List.mem_append, List.mem_singleton] at he
      rcases he with ((he | he) | he) | he
      · rw [(hcalls e he).2] at hpl; exact absurd hpl (by simp)
      · obtain ⟨n, _, rfl⟩ := List.mem_map.1 he
        unfold App.updateLookupEvent at hpl
        split at hpl <;> simp [Event.isPlanUpdates] at hpl
      · exact ⟨_, _, he⟩
      · rw [(hK e he).1] at hpl; exact absurd hpl (by simp)
    · simp
    · rw [List.filter_append, List.filter_append, List.filter_append, hfil,
        App.filter_lookup_map]
      have hXf : X.filter Event.isLookup = [] := by
        rw [List.filter_eq_nil_iff]
        intro e he
        simp [(hK e he).2]
      rw [hXf]
      simp [Event.isLookup]

/-- Claim C18 at work: the second of three names is ambiguous, and two names that both
resolve. -/
theorem C18_update_lookup_witness :
    ((App.update Example.shortNames).err = "Ambiguous package name" ∧
      ((App.update Example.shortNames).calls.filter Event.isLookup =
        [Event.findPackage "com.example.Lib", Event.findPackagesByShortName "editor"] ∧
      ∀ e ∈ (App.update Example.shortNames).calls, e.isPlanUpdates = false)) ∧
    (∃ ps, [[(⟨"com.example.Lib", "Lib"⟩ : Package)], [⟨"com.example.Editor", "Editor"⟩]] =
        ps.map (fun p => [p]) ∧
      ∃ err ops, Event.planUpdates ps err ops ∈ (App.update Example.resolved).calls) :=
  ⟨⟨((C18_update_lookup Example.shortNames rfl (by decide)).1
      ["com.example.Lib"] "editor" ["org.example.Gone"] (by decide) (by decide)
      (by decide)).1,
    ((C18_update_lookup Example.shortNames rfl (by decide)).1
      ["com.example.Lib"] "editor" ["org.example.Gone"] (by decide) (by decide)
      (by decide)).2.2⟩,
   ((C18_update_lookup Example.resolved rfl (by decide)).2 (by decide)).imp
    fun _ hps => ⟨hps.1, hps.2.2.1⟩⟩

/-! ## Claim C19 -/

theorem App.pathMissingOption_calls (package : Option String) (r : Run) :
    (App.pathMissingOption package r).calls = r.calls := by
  unfold App.pathMissingOption
  split
  · split <;> rfl
  · rfl

theorem App.pathValidName_calls (env : Env) (package : Option String) (r : Run) :
    (App.pathValidName env package r).calls = r.calls := by
  unfold App.pathValidName
  split
  · split <;> rfl
  · rfl

/-- Without `--versions` the dependency of a job that goes on has the bounds `0.0` and
`INT_MAX.0` and the flags of a new dependency. -/
theorem App.pathRange_spec (env : Env) (package : Option String) (r : Run) :
    (App.pathRange env package none r).1.calls = r.calls ∧
    ((App.pathRange env package none r).1.job.shouldProceed = true →
      (App.pathRange env package none r).2 =
        { env.newDependency with
          package := package.getD "", min := ⟨[0, 0]⟩, max := ⟨[INT_MAX, 0]⟩ }) := by
  unfold App.pathRange
  dsimp only
  split
  · exact ⟨rfl, fun _ => rfl⟩
  · rename_i hp
    refine ⟨rfl, fun h => ?_⟩
    exact absurd (Job.shouldProceed_of_polled _ h) hp

theorem App.pathFind_spec (env : Env) (d : Dependency) (r : Run) :
    ∀ e ∈ (App.pathFind env d r).1.calls,
      e ∈ r.calls ∨ (e = Event.findPath d ∧ r.job.shouldProceed = true) := by
  intro e he
  unfold App.pathFind at he
  split at he
  · rename_i hp
    rcases List.mem_append.1 he with h | h
    · exact Or.inl h
    · simp at h; exact Or.inr ⟨h, hp⟩
  · exact Or.inl he

theorem App.pathFind_proceeds (env : Env) (d : Dependency) (r : Run)
    (h : (App.pathFind env d r).1.job.shouldProceed = true) : r.job.shouldProceed = true := by
  unfold App.pathFind at h
  split at h
  · assumption
  · exact Job.shouldProceed_of_polled _ h

theorem App.pathByShortName_spec (env : Env) (package : Option String) (d : Dependency)
    (path : String) (r : Run) :
    ∀ e ∈ (App.pathByShortName env package d path r).1.calls,
      e ∈ r.calls ∨ e = Event.findOnePackage (package.getD "") ∨
        ((∃ name, e = Event.findPath { d with package := name }) ∧
          r.job.shouldProceed = true) := by
  intro e he
  unfold App.pathByShortName at he
  split at he
  · rename_i hp
    have hp' : r.job.shouldProceed = true := by
      simp only [Bool.and_eq_true] at hp
      exact hp.1.1
    dsimp only at he
    split at he
    · split at he
      · rename_i p _
        simp only [List.mem_append, List.mem_singleton] at he
        rcases he with (h | h) | h
        · exact Or.inl h
        · exact Or.inr (Or.inl h)
        · exact Or.inr (Or.inr ⟨⟨p.name, h⟩, hp'⟩)
      · simp only [List.mem_append, List.mem_singleton] at he
        rcases he with h | h
        · exact Or.inl h
        · exact Or.inr (Or.inl h)
    · exact Or.inl he
  · exact Or.inl he

/-- Every lookup of `path` without `--versions` is made with a dependency that has the
bounds `0.0` and `INT_MAX.0` and the flags of a new dependency. -/
theorem App.path_lookups (env : Env) (hv : env.cl.get "versions" = none) (d : Dependency)
    (hd : Event.findPath d ∈ (App.path env).calls) :
    ∃ name, d = { env.newDependency with
      package := name, min := ⟨[0, 0]⟩, max := ⟨[INT_MAX, 0]⟩ } := by
  unfold App.path at hd
  simp only [hv] at hd
  generalize hr2 : App.pathValidName env (env.cl.get "package")
    (App.pathMissingOption (env.cl.get "package") { job := Job.create env.cancelAt }) = r2 at hd
  have hc2 : r2.calls = [] := by
    rw [← hr2, App.pathValidName_calls, App.pathMissingOption_calls]
  obtain ⟨k1, k2⟩ := App.pathRange_spec env (env.cl.get "package") r2
  generalize App.pathRange env (env.cl.get "package") none r2 = p3 at *
  have k3 := App.pathFind_spec env p3.2 p3.1
  have k4 := App.pathFind_proceeds env p3.2 p3.1
  generalize App.pathFind env p3.2 p3.1 = p4 at *
  have k5 := App.pathByShortName_spec env (env.cl.get "package") p3.2 p4.2 p4.1 _ hd
  rcases k5 with h | h | ⟨⟨name, h⟩, hp⟩
  · rcases k3 _ h with h' | ⟨h', hp⟩
    · rw [k1, hc2] at h'
      simp at h'
    · injection h' with h'
      exact ⟨_, by rw [h', k2 hp]⟩
  · simp at h
  · injection h with h
    refine ⟨name, ?_⟩
    rw [h, k2 (k4 hp)]

theorem Version.part_zeros (k : Nat) : Version.part [0, 0] k = 0 := by
  unfold Version.part
  match k with
  | 0 => rfl
  | 1 => rfl
  | k + 2 => rfl

/-- No version is below `0.0`. -/
theorem Version.compare_zero_nonneg (v : Version) : 0 ≤ v.compare ⟨[0, 0]⟩ := by
  by_contra h
  have h' : v.compare ⟨[0, 0]⟩ < 0 := by omega
  rw [Version.compare_lt_iff] at h'
  obtain ⟨k, hk, _⟩ := h'
  rw [Version.part_zeros] at hk
  omega

/-- Counterexample to claim C19 as stated.  Without `--versions`, `path` looks the editor
up with the bounds `0.0` and `2147483647.0`; the version `2147483647.1`, whose parts are
non-negative values of an `int`, is not in this range, whatever the flags of the bounds. -/
theorem C19_counterexample :
    Example.pathOfEditor.cl.get "versions" = none ∧
    (App.path Example.pathOfEditor).calls =
      [Event.findPath ⟨"com.example.Editor", true, ⟨[0, 0]⟩, false, ⟨[2147483647, 0]⟩⟩] ∧
    (∀ p ∈ [2147483647, 1], p ≤ INT_MAX) ∧
    (∀ a b : Bool, Dependency.test ⟨"com.example.Editor", a, ⟨[0, 0]⟩, b, ⟨[2147483647, 0]⟩⟩
      ⟨[2147483647, 1]⟩ = false) ∧
    (App.path Example.pathOfEditor).out = [] := by
  decide

/-- Claim C19, amended.  When `--versions` is not given, every lookup of `App::path` is
made with the bounds `0.0` and `INT_MAX.0` and the flags of a default-constructed
dependency; with the lower bound included, as in the default range `[0, +infinity)`,
every version whose first part is less than `INT_MAX` is in this range. -/
theorem C19_path_default_range (env : Env) (hv : env.cl.get "versions" = none)
    (d : Dependency) (hd : Event.findPath d ∈ (App.path env).calls) :
    d.min = ⟨[0, 0]⟩ ∧ d.max = ⟨[INT_MAX, 0]⟩ ∧
    d.minIncluded = env.newDependency.minIncluded ∧
    d.maxIncluded = env.newDependency.maxIncluded ∧
    (env.newDependency.minIncluded = true →
      ∀ v : Version, Version.part v.parts 0 < INT_MAX → d.test v = true) := by
  obtain ⟨name, rfl⟩ := App.path_lookups env hv d hd
  refine ⟨rfl, rfl, rfl, rfl, ?_⟩
  intro hmin v hv0
  have hlow := Version.compare_zero_nonneg v
  have hup : v.compare ⟨[INT_MAX, 0]⟩ < 0 := by
    rw [Version.compare_lt_iff]
    exact ⟨0, hv0, fun j hj => absurd hj (Nat.not_lt_zero j)⟩
  unfold Dependency.test
  simp only [hmin, if_true, hlow, decide_True, Bool.true_and]
  split
  · simp only [decide_eq_true_eq]; omega
  · simp only [decide_eq_true_eq]; exact hup

/-- Claim C19, amended, at work: the lookup of the editor and the version `1.5.12`. -/
theorem C19_path_default_range_witness :
    Example.pathOfEditor.cl.get "versions" = none ∧
    Dependency.test ⟨"com.example.Editor", true, ⟨[0, 0]⟩, false, ⟨[INT_MAX, 0]⟩⟩
      ⟨[1, 5, 12]⟩ = true :=
  ⟨by decide,
    (C19_path_default_range Example.pathOfEditor (by decide)
      ⟨"com.example.Editor", true, ⟨[0, 0]⟩, false, ⟨[INT_MAX, 0]⟩⟩ (by decide)).2.2.2.2
      (by decide) ⟨[1, 5, 12]⟩ (by decide)⟩

/-! ## Claim C20 -/

/-- On the two package versions that depend on each other, no depth of nested calls is
enough for `printDependencies` to return. -/
theorem App.printDependencies_cycle (fuel : Nat) :
    ∀ (b : Bool) (pre : String) (level : Nat) (out : List String),
      App.printDependencies Example.cycle fuel b pre level Example.cycleA out = none ∧
      App.printDependencies Example.cycle fuel b pre level Example.cycleB out = none := by
  induction fuel with
  | zero => intro b pre level out; exact ⟨rfl, rfl⟩
  | succ n ih =>
    intro b pre level out
    constructor
    · have h : App.printDependencies Example.cycle (n + 1) b pre level Example.cycleA out =
          match App.printDependencies Example.cycle n b (pre ++ "  ") (level + 1)
            Example.cycleB (out ++ [pre ++ "└─" ++ "·" ++
              (Example.cycle.qarg (Example.cycle.qarg "%1 resolved to %2" "org.example.B")
                "1.0" ++ " (not yet installed)") ++ "\n"]) with
          | none => none
          | some (err, out) => if err ≠ "" then some (err, out) else some ("", out) := rfl
      rw [h, (ih b _ _ _).2]
    · have h : App.printDependencies Example.cycle (n + 1) b pre level Example.cycleB out =
          match App.printDependencies Example.cycle n b (pre ++ "  ") (level + 1)
            Example.cycleA (out ++ [pre ++ "└─" ++ "·" ++
              (Example.cycle.qarg (Example.cycle.qarg "%1 resolved to %2" "org.example.A")
                "1.0" ++ " (not yet installed)") ++ "\n"]) with
          | none => none
          | some (err, out) => if err ≠ "" then some (err, out) else some ("", out) := rfl
      rw [h, (ih b _ _ _).1]

/-- Claim C20.  With a catalog in which `org.example.A 1.0` depends on `org.example.B` and
`org.example.B 1.0` on `org.example.A`, the dependency tree that `App::info` prints for
`org.example.A 1.0` is never finished: however deep the nested calls of
`App::printDependencies` are followed, the call has not returned; whereas with
`org.example.B 1.0` depending on nothing it returns without error after two lines. -/
theorem C20_printDependencies_cycle_diverges :
    (∀ fuel, App.infoDependencyTree Example.cycle fuel "" (some Example.cycleA) [] = none) ∧
    App.infoDependencyTree Example.chain 2 "" (some Example.cycleA) [] =
      some ("", ["Dependency tree:\n",
        "└─ %1 resolved to %2<org.example.B><1.0> (not yet installed)\n"]) := by
  constructor
  · intro fuel
    exact (App.printDependencies_cycle fuel _ _ _ _).1
  · decide

/-! ## Claims C14, C15 and C16: the detection of well-known programs -/

theorem Paired.concat {X Y : List ScanEvent} (hX : Paired X) (hY : Paired Y) :
    Paired (X ++ Y) := by
  induction hX with
  | nil => exact hY
  | other e t he _ ih => exact Paired.other e _ he ih
  | pair p v dir t _ ih => exact Paired.pair p v dir _ ih

/-- In such a list of calls every `append` has its `savePackageVersion` before it. -/
theorem Paired.saved_before {t : List ScanEvent} (h : Paired t) :
    ∀ (i : Nat) (ipv : InstalledPackageVersion), t[i]? = some (ScanEvent.append ipv) →
      ∃ j : Nat, j < i ∧ t[j]? = some (ScanEvent.savePackageVersion ipv.package ipv.version) := by
  induction h with
  | nil => intro i ipv hi; simp at hi
  | other e t he _ ih =>
    intro i ipv hi
    cases i with
    | zero =>
      simp at hi
      subst hi
      simp [ScanEvent.isAppend] at he
    | succ i =>
      simp at hi
      obtain ⟨j, hj, hjt⟩ := ih i ipv hi
      exact ⟨j + 1, by omega, by simpa using hjt⟩
  | pair p v dir t _ ih =>
    intro i ipv hi
    cases i with
    | zero => simp at hi
    | succ i =>
      cases i with
      | zero =>
        simp at hi
        subst hi
        exact ⟨0, by omega, rfl⟩
      | succ i =>
        simp at hi
        obtain ⟨j, hj, hjt⟩ := ih i ipv hi
        exact ⟨j + 2, by omega, by simpa using hjt⟩

theorem ScanEvent.appended_concat (X Y : List ScanEvent) :
    ScanEvent.appended (X ++ Y) = ScanEvent.appended X ++ ScanEvent.appended Y := by
  induction X with
  | nil => rfl
  | cons e t ih =>
    cases e <;> simp [ScanEvent.appended, ih]

theorem ScanEvent.mem_appended (t : List ScanEvent) (ipv : InstalledPackageVersion) :
    ipv ∈ ScanEvent.appended t ↔ ScanEvent.append ipv ∈ t := by
  induction t with
  | nil => simp [ScanEvent.appended]
  | cons e t ih =>
    cases e <;> simp [ScanEvent.appended, ih]

theorem Keeps.stay (s : Detection) : Keeps s s :=
  ⟨fun _ h => h, fun h => h, fun _ h => h⟩

theorem Keeps.andNext {s₁ s₂ s₃ : Detection} (h₁ : Keeps s₁ s₂) (h₂ : Keeps s₂ s₃) :
    Keeps s₁ s₃ :=
  ⟨fun e he => h₂.1 e (h₁.1 e he), fun h => h₂.2.1 (h₁.2.1 h),
    fun l hl => h₂.2.2 l (h₁.2.2 l hl)⟩

theorem Keeps.savePackage_keeps (m : ScanEnv) (s : Detection) (p : Package) (u d c : String) :
    Keeps s (s.savePackage m p u d c).1 := by
  refine ⟨fun e he => List.mem_append_left _ he, fun h => h.concat ?_, fun l hl => ?_⟩
  · exact Paired.other _ _ rfl Paired.nil
  · show s.installed = l ++ ScanEvent.appended (s.trace ++ _)
    rw [ScanEvent.appended_concat, hl]
    simp [ScanEvent.appended]

/-- The two calls `rep->savePackageVersion(pv); installed->append(ipv)` for one package
and version. -/
theorem Keeps.report_keeps (m : ScanEnv) (s : Detection) (package : String) (v : Version)
    (dir : String) :
    Keeps s ((s.savePackageVersion m package v).1.append ⟨package, v, dir⟩) := by
  have ht : ((s.savePackageVersion m package v).1.append ⟨package, v, dir⟩).trace =
      s.trace ++ [ScanEvent.savePackageVersion package v,
        ScanEvent.append ⟨package, v, dir⟩] := by
    simp [Detection.savePackageVersion, Detection.append]
  refine ⟨fun e he => ?_, fun h => ?_, fun l hl => ?_⟩
  · rw [ht]; exact List.mem_append_left _ he
  · rw [ht]; exact h.concat (Paired.pair _ _ _ _ Paired.nil)
  · rw [ht, ScanEvent.appended_concat]
    show s.installed ++ [_] = _
    rw [hl]
    simp [ScanEvent.appended]

theorem Saved.savePackage_saved (m : ScanEnv) (s : Detection) (p : Package) (u d c : String)
    (h : Saved s.trace) : Saved (s.savePackage m p u d c).1.trace := by
  intro ipv hi
  have hi' : ScanEvent.append ipv ∈ s.trace ++ [ScanEvent.savePackage p u d c] := hi
  simp only [List.mem_append, List.mem_singleton] at hi'
  rcases hi' with h1 | h1
  · obtain ⟨e, he, hs⟩ := h ipv h1
    exact ⟨e, List.mem_append_left _ he, hs⟩
  · cases h1

theorem Saved.report_saved (m : ScanEnv) (s : Detection) (package : String) (v : Version)
    (dir : String) (h : Saved s.trace)
    (hp : ∃ e ∈ s.trace, e.savesPackage package = true) :
    Saved ((s.savePackageVersion m package v).1.append ⟨package, v, dir⟩).trace := by
  have ht : ((s.savePackageVersion m package v).1.append ⟨package, v, dir⟩).trace =
      s.trace ++ [ScanEvent.savePackageVersion package v,
        ScanEvent.append ⟨package, v, dir⟩] := by
    simp [Detection.savePackageVersion, Detection.append]
  rw [ht]
  intro ipv hi
  simp only [List.mem_append, List.mem_cons, List.mem_singleton, List.not_mem_nil,
    or_false] at hi
  rcases hi with h1 | h1 | h1
  · obtain ⟨e, he, hs⟩ := h ipv h1
    exact ⟨e, List.mem_append_left _ he, hs⟩
  · cases h1
  · injection h1 with h1
    subst h1
    obtain ⟨e, he, hs⟩ := hp
    exact ⟨e, List.mem_append_left _ he, hs⟩

theorem Saved.of_savePackage (m : ScanEnv) (s : Detection) (p : Package) (u d c : String) :
    ∃ e ∈ (s.savePackage m p u d c).1.trace, e.savesPackage p.name = true :=
  ⟨ScanEvent.savePackage p u d c, List.mem_append_right _ (List.mem_singleton.2 rfl),
    by simp [ScanEvent.savesPackage]⟩

theorem Detects.nothing (s : Detection) : Detects s s := ⟨Keeps.stay s, fun h => h⟩

theorem Detects.followed {s₁ s₂ s₃ : Detection} (h₁ : Detects s₁ s₂) (h₂ : Detects s₂ s₃) :
    Detects s₁ s₃ :=
  ⟨h₁.1.andNext h₂.1, fun h => h₂.2 (h₁.2 h)⟩

theorem Detects.hasPackage_mono {s s' : Detection} (h : Detects s s') {name : String}
    (hp : s.hasPackage name) : s'.hasPackage name := by
  obtain ⟨e, he, hs⟩ := hp
  exact ⟨e, h.1.1 e he, hs⟩

theorem Detects.savePackage_detects (m : ScanEnv) (s : Detection) (p : Package) (u d c : String) :
    Detects s (s.savePackage m p u d c).1 :=
  ⟨Keeps.savePackage_keeps m s p u d c, Saved.savePackage_saved m s p u d c⟩

theorem Detects.report_detects (m : ScanEnv) (s : Detection) (package : String) (v : Version)
    (dir : String) (hp : s.hasPackage package) :
    Detects s ((s.savePackageVersion m package v).1.append ⟨package, v, dir⟩) :=
  ⟨Keeps.report_keeps m s package v dir, fun h => Saved.report_saved m s package v dir h hp⟩

namespace WellKnownProgramsThirdPartyPM

theorem detectOneDotNet_detects (m : ScanEnv) (s : Detection) (wr : WindowsRegistry)
    (keyName : String) (hp : s.hasPackage "com.microsoft.DotNetRedistributable") :
    Detects s (detectOneDotNet m s wr keyName) := by
  unfold detectOneDotNet
  dsimp only
  split
  · exact Detects.report_detects m s _ _ _ hp
  · exact Detects.nothing s

theorem scanDotNetLoop_detects (m : ScanEnv) (wr : WindowsRegistry) (entries : List String) :
    ∀ s : Detection, s.hasPackage "com.microsoft.DotNetRedistributable" →
      Detects s (scanDotNetLoop m wr entries s) := by
  induction entries with
  | nil => intro s _; exact Detects.nothing s
  | cons v_ rest ih =>
    intro s hp
    unfold scanDotNetLoop
    dsimp only
    split
    · split
      · have h1 := detectOneDotNet_detects m s (wr.sub v_) v_ hp
        exact h1.followed (ih _ (h1.hasPackage_mono hp))
      · exact ih s hp
    · exact ih s hp

theorem scanDotNet_detects (m : ScanEnv) (s : Detection) : Detects s (scanDotNet m s) := by
  unfold scanDotNet
  dsimp only
  have h1 := Detects.savePackage_detects m s
    ⟨"com.microsoft.DotNetRedistributable", ".NET redistributable runtime"⟩
    "http://msdn.microsoft.com/en-us/netframework/default.aspx" (m.tr ".NET runtime") ""
  have hp := Saved.of_savePackage m s
    ⟨"com.microsoft.DotNetRedistributable", ".NET redistributable runtime"⟩
    "http://msdn.microsoft.com/en-us/netframework/default.aspx" (m.tr ".NET runtime") ""
  split_ifs <;> first | exact h1.followed (scanDotNetLoop_detects m _ _ _ hp) | exact h1

theorem detectDLL_detects (m : ScanEnv) (package dll : String) (b : Bool)
    (acc : Detection × String) (hp : acc.1.hasPackage package) :
    Detects acc.1 (detectDLL m package dll b acc).1 := by
  unfold detectDLL
  dsimp only
  split
  · split
    · exact Detects.report_detects m acc.1 _ _ _ hp
    · exact Detects.nothing _
  · exact Detects.nothing _

theorem detectMSXML_detects (m : ScanEnv) (s : Detection) :
    Detects s (detectMSXML m s).1 := by
  unfold detectMSXML
  dsimp only
  generalize hacc : s.savePackage m
    ⟨"com.microsoft.MSXML", m.tr "Microsoft Core XML Services (MSXML)"⟩ _ _ _ = a0
  have h0 : Detects s a0.1 := by rw [← hacc]; exact Detects.savePackage_detects m s _ _ _ _
  have p0 : a0.1.hasPackage "com.microsoft.MSXML" := by
    rw [← hacc]; exact Saved.of_savePackage m s ⟨"com.microsoft.MSXML", _⟩ _ _ _
  have h1 := detectDLL_detects m "com.microsoft.MSXML" "msxml.dll" false a0 p0
  generalize detectDLL m "com.microsoft.MSXML" "msxml.dll" false a0 = a1 at *
  have p1 := h1.hasPackage_mono p0
  have h2 := detectDLL_detects m "com.microsoft.MSXML" "msxml2.dll" false a1 p1
  generalize detectDLL m "com.microsoft.MSXML" "msxml2.dll" false a1 = a2 at *
  have p2 := h2.hasPackage_mono p1
  have h3 := detectDLL_detects m "com.microsoft.MSXML" "msxml3.dll" true a2 p2
  generalize detectDLL m "com.microsoft.MSXML" "msxml3.dll" true a2 = a3 at *
  have p3 := h3.hasPackage_mono p2
  have h4 := detectDLL_detects m "com.microsoft.MSXML" "msxml4.dll" false a3 p3
  generalize detectDLL m "com.microsoft.MSXML" "msxml4.dll" false a3 = a4 at *
  have p4 := h4.hasPackage_mono p3
  have h5 := detectDLL_detects m "com.microsoft.MSXML" "msxml5.dll" false a4 p4
  generalize detectDLL m "com.microsoft.MSXML" "msxml5.dll" false a4 = a5 at *
  have p5 := h5.hasPackage_mono p4
  have h6 := detectDLL_detects m "com.microsoft.MSXML" "msxml6.dll" false a5 p5
  exact h0.followed (h1.followed (h2.followed (h3.followed (h4.followed (h5.followed h6)))))

theorem detectMicrosoftInstaller_detects (m : ScanEnv) (s : Detection) :
    Detects s (detectMicrosoftInstaller m s).1 := by
  unfold detectMicrosoftInstaller
  dsimp only
  exact (Detects.savePackage_detects m s _ _ _ _).followed
    (detectDLL_detects m _ _ _ _ (Saved.of_savePackage m s
      ⟨"com.microsoft.WindowsInstaller", _⟩ _ _ _))

theorem detectWindows_detects (m : ScanEnv) (s : Detection) :
    Detects s (detectWindows m s) := by
  unfold detectWindows
  dsimp only
  have key : ∀ (s : Detection) (p : Package) (u d c dir : String) (v : Version),
      Detects s (((s.savePackage m p u d c).1.savePackageVersion m p.name v).1.append
        ⟨p.name, v, dir⟩) := fun s p u d c dir v =>
    (Detects.savePackage_detects m s p u d c).followed
      (Detects.report_detects m _ _ _ _ (Saved.of_savePackage m s p u d c))
  split
  · exact (key s ⟨"com.microsoft.Windows32", _⟩ _ _ _ _ _).followed (key _ _ _ _ _ _ _)
  · exact (key s ⟨"com.microsoft.Windows64", _⟩ _ _ _ _ _).followed (key _ _ _ _ _ _ _)

end WellKnownProgramsThirdPartyPM

namespace WellKnownProgramsThirdPartyPM

theorem detectJRELoop_detects (m : ScanEnv) (package : String) (jreWR : WindowsRegistry)
    (entries : List String) :
    ∀ s : Detection, s.hasPackage package →
      Detects s (detectJRELoop m package jreWR entries s) := by
  induction entries with
  | nil => intro s _; exact Detects.nothing s
  | cons entry rest ih =>
    intro s hp
    unfold detectJRELoop
    dsimp only
    have h1 : ∀ v dir, Detects s (detectJRELoop m package jreWR rest
        ((s.savePackageVersion m package v).1.append ⟨package, v, dir⟩)) := fun v dir =>
      (Detects.report_detects m s package v dir hp).followed
        (ih _ ((Detects.report_detects m s package v dir hp).hasPackage_mono hp))
    split
    · exact ih s hp
    · split_ifs <;> first | exact ih s hp | exact h1 _ _

theorem detectJRE_detects (m : ScanEnv) (s : Detection) (w64bit : Bool) :
    Detects s (detectJRE m s w64bit) := by
  unfold detectJRE
  dsimp only
  split
  · exact Detects.nothing s
  · split
    · exact (Detects.savePackage_detects m s _ _ _ _).followed
        (detectJRELoop_detects m _ _ _ _ (Saved.of_savePackage m s ⟨_, _⟩ _ _ _))
    · exact Detects.savePackage_detects m s _ _ _ _

theorem detectJDKLoop_detects (m : ScanEnv) (package : String) (wr : WindowsRegistry)
    (entries : List String) :
    ∀ s : Detection, s.hasPackage package →
      Detects s (detectJDKLoop m package wr entries s) := by
  induction entries with
  | nil => intro s _; exact Detects.nothing s
  | cons entry rest ih =>
    intro s hp
    unfold detectJDKLoop
    dsimp only
    have h1 : ∀ v dir, Detects s (detectJDKLoop m package wr rest
        ((s.savePackageVersion m package v).1.append ⟨package, v, dir⟩)) := fun v dir =>
      (Detects.report_detects m s package v dir hp).followed
        (ih _ ((Detects.report_detects m s package v dir hp).hasPackage_mono hp))
    split
    · exact ih s hp
    · split
      · exact ih s hp
      · split_ifs <;> first | exact ih s hp | exact h1 _ _

theorem detectJDK_detects (m : ScanEnv) (s : Detection) (w64bit : Bool) :
    Detects s (detectJDK m s w64bit) := by
  unfold detectJDK
  dsimp only
  split
  · exact Detects.nothing s
  · split
    · split
      · exact (Detects.savePackage_detects m s _ _ _ _).followed
          (detectJDKLoop_detects m _ _ _ _ (Saved.of_savePackage m s ⟨_, _⟩ _ _ _))
      · exact Detects.savePackage_detects m s _ _ _ _
    · exact Detects.savePackage_detects m s _ _ _ _

theorem scanStart_detects (m : ScanEnv) (s : ScanState) :
    Detects s.toDetection (scanStart m s).toDetection := by
  unfold scanStart
  dsimp only
  exact (detectWindows_detects m _).followed
    ((scanDotNet_detects m _).followed (detectMSXML_detects m _))

theorem scanMicrosoftInstaller_detects (m : ScanEnv) (s : ScanState) :
    Detects s.toDetection (scanMicrosoftInstaller m s).toDetection := by
  unfold scanMicrosoftInstaller
  split
  · exact detectMicrosoftInstaller_detects m _
  · exact Detects.nothing _

theorem scanJava_detects (m : ScanEnv)
    (detect : ScanEnv → Detection → Bool → Detection)
    (hd : ∀ s b, Detects s (detect m s b)) (w64bit : Bool) (s : ScanState) :
    Detects s.toDetection (scanJava m detect w64bit s).toDetection := by
  unfold scanJava
  split
  · split
    · split
      · exact hd _ _
      · exact Detects.nothing _
    · exact hd _ _
  · exact Detects.nothing _

theorem scanSavePackage_detects (m : ScanEnv) (p : Package) (d : String) (s : ScanState) :
    Detects s.toDetection (scanSavePackage m p d s).toDetection := by
  unfold scanSavePackage
  split
  · exact Detects.savePackage_detects m _ _ _ _ _
  · exact Detects.nothing _

end WellKnownProgramsThirdPartyPM

namespace WellKnownProgramsThirdPartyPM

theorem scanSavePackage_proceeds (m : ScanEnv) (p : Package) (d : String) (s : ScanState)
    (h : (scanSavePackage m p d s).job.shouldProceed = true) :
    s.job.shouldProceed = true ∧ (scanSavePackage m p d s).toDetection.hasPackage p.name := by
  unfold scanSavePackage at h ⊢
  split
  · rename_i hp
    exact ⟨hp, Saved.of_savePackage m _ p _ _ _⟩
  · rename_i hp
    rw [if_neg hp] at h
    exact absurd (Job.shouldProceed_of_polled _ h) hp

/-- When the step that reports the running program is reached with a job that goes on, the
three packages of Npackd have been saved. -/
theorem scanBeforeSelf_saved (m : ScanEnv) (job : Job)
    (installed : List InstalledPackageVersion)
    (h : (scanBeforeSelf m job installed).job.shouldProceed = true) :
    ∀ name ∈ npackdPackages, (scanBeforeSelf m job installed).toDetection.hasPackage name := by
  unfold scanBeforeSelf at h ⊢
  dsimp only at h ⊢
  generalize scanJava m detectJDK true _ = s6 at h ⊢
  obtain ⟨h8, p3⟩ := scanSavePackage_proceeds m _ _ _ h
  obtain ⟨h7, p2⟩ := scanSavePackage_proceeds m _ _ _ h8
  obtain ⟨_, p1⟩ := scanSavePackage_proceeds m _ _ _ h7
  have k3 := scanSavePackage_detects m
    ⟨"com.googlecode.windows-package-manager.NpackdCL", "NpackdCL"⟩
    "command line interface to Npackd"
    (scanSavePackage m ⟨"com.googlecode.windows-package-manager.Npackd64", "Npackd 64 bit"⟩
      "package manager"
      (scanSavePackage m ⟨"com.googlecode.windows-package-manager.Npackd", "Npackd"⟩
        "package manager" s6))
  have k2 := scanSavePackage_detects m
    ⟨"com.googlecode.windows-package-manager.Npackd64", "Npackd 64 bit"⟩ "package manager"
    (scanSavePackage m ⟨"com.googlecode.windows-package-manager.Npackd", "Npackd"⟩
      "package manager" s6)
  intro name hname
  simp only [npackdPackages, List.mem_cons, List.mem_singleton, List.not_mem_nil,
    or_false] at hname
  rcases hname with rfl | rfl | rfl
  · exact k3.hasPackage_mono (k2.hasPackage_mono p1)
  · exact k3.hasPackage_mono p2
  · exact p3

theorem scanBeforeSelf_detects (m : ScanEnv) (job : Job)
    (installed : List InstalledPackageVersion) :
    Detects { installed := installed } (scanBeforeSelf m job installed).toDetection := by
  unfold scanBeforeSelf
  dsimp only
  exact (scanStart_detects m { installed := installed, job := job }).followed
    ((scanMicrosoftInstaller_detects m _).followed
    ((scanJava_detects m detectJRE (detectJRE_detects m) false _).followed
    ((scanJava_detects m detectJRE (detectJRE_detects m) true _).followed
    ((scanJava_detects m detectJDK (detectJDK_detects m) false _).followed
    ((scanJava_detects m detectJDK (detectJDK_detects m) true _).followed
    ((scanSavePackage_detects m _ _ _).followed
    ((scanSavePackage_detects m _ _ _).followed (scanSavePackage_detects m _ _ _))))))))

/-- The last step either does nothing or saves the version of the running program and
appends it. -/
theorem scanSelf_spec (m : ScanEnv) (packageName : String) (s : ScanState) :
    ((scanSelf m packageName s).trace = s.trace ∧
      (scanSelf m packageName s).installed = s.installed) ∨
    (s.job.shouldProceed = true ∧
      (scanSelf m packageName s).trace = s.trace ++ selfCalls m packageName ∧
      (scanSelf m packageName s).installed =
        s.installed ++ [⟨packageName, m.NPACKD_VERSION, m.getExeDir⟩]) := by
  unfold scanSelf
  split
  · rename_i hp
    right
    refine ⟨hp, ?_, rfl⟩
    simp [Detection.savePackageVersion, Detection.append, selfCalls]
  · left
    exact ⟨rfl, rfl⟩

theorem scan_eq (m : ScanEnv) (packageName : String) (job : Job)
    (installed : List InstalledPackageVersion) :
    (scan m packageName job installed).toDetection =
      (scanSelf m packageName (scanBeforeSelf m job installed)).toDetection := by
  unfold scan scanBeforeSelf
  dsimp only

end WellKnownProgramsThirdPartyPM

namespace WellKnownProgramsThirdPartyPM

/-- What one `scan` does to the list `installed` and to the repository. -/
theorem scan_spec (m : ScanEnv) (packageName : String) (job : Job)
    (installed : List InstalledPackageVersion) :
    (scan m packageName job installed).installed =
      installed ++ ScanEvent.appended (scan m packageName job installed).trace ∧
    Paired (scan m packageName job installed).trace ∧
    (∀ ipv, ScanEvent.append ipv ∈ (scan m packageName job installed).trace →
      (∃ e ∈ (scan m packageName job installed).trace, e.savesPackage ipv.package = true) ∨
      ipv = ⟨packageName, m.NPACKD_VERSION, m.getExeDir⟩) ∧
    (packageName ∈ npackdPackages → Saved (scan m packageName job installed).trace) := by
  have e := scan_eq m packageName job installed
  have ei : (scan m packageName job installed).installed =
      (scanSelf m packageName (scanBeforeSelf m job installed)).installed :=
    congrArg Detection.installed e
  have et : (scan m packageName job installed).trace =
      (scanSelf m packageName (scanBeforeSelf m job installed)).trace :=
    congrArg Detection.trace e
  rw [ei, et]
  obtain ⟨⟨_, kp, ki⟩, ks⟩ := scanBeforeSelf_detects m job installed
  have hp : Paired (scanBeforeSelf m job installed).trace := kp Paired.nil
  have hi : (scanBeforeSelf m job installed).installed =
      installed ++ ScanEvent.appended (scanBeforeSelf m job installed).trace :=
    ki installed (by simp [ScanEvent.appended])
  have hs : Saved (scanBeforeSelf m job installed).trace := ks (by intro ipv h; simp at h)
  have hn := scanBeforeSelf_saved m job installed
  generalize scanBeforeSelf m job installed = s9 at *
  rcases scanSelf_spec m packageName s9 with ⟨h1, h2⟩ | ⟨hgo, h1, h2⟩
  · rw [h1, h2]
    exact ⟨hi, hp, fun ipv h => Or.inl (hs ipv h), fun _ => hs⟩
  · rw [h1, h2]
    have hmem : ∀ ipv, ScanEvent.append ipv ∈ s9.trace ++ selfCalls m packageName →
        ScanEvent.append ipv ∈ s9.trace ∨ ipv = ⟨packageName, m.NPACKD_VERSION, m.getExeDir⟩ := by
      intro ipv h
      simp only [selfCalls, List.mem_append, List.mem_cons, List.mem_singleton,
        List.not_mem_nil, or_false] at h
      rcases h with h | h | h
      · exact Or.inl h
      · cases h
      · injection h with h; exact Or.inr h
    refine ⟨?_, hp.concat (Paired.pair _ _ _ _ Paired.nil), ?_, ?_⟩
    · rw [ScanEvent.appended_concat, hi]
      simp [selfCalls, ScanEvent.appended]
    · intro ipv h
      rcases hmem ipv h with h | h
      · obtain ⟨e, he, hse⟩ := hs ipv h
        exact Or.inl ⟨e, List.mem_append_left _ he, hse⟩
      · exact Or.inr h
    · intro hname ipv h
      rcases hmem ipv h with h | h
      · obtain ⟨e, he, hse⟩ := hs ipv h
        exact ⟨e, List.mem_append_left _ he, hse⟩
      · obtain ⟨e, he, hse⟩ := hn hgo packageName hname
        subst h
        exact ⟨e, List.mem_append_left _ he, hse⟩

end WellKnownProgramsThirdPartyPM

theorem ScanEvent.savesPackage_iff (name : String) (e : ScanEvent) :
    e.savesPackage name = true ↔
      ∃ p u d c, e = ScanEvent.savePackage p u d c ∧ p.name = name := by
  cases e <;> simp [ScanEvent.savesPackage]

/-- Claim C14.  The list `installed` after `WellKnownProgramsThirdPartyPM::scan` is the
list handed in followed by the entries that the scan appended, and for every entry
(package `p`, version `v`) that the scan appends, `rep->savePackageVersion` was called
earlier in the same scan for the package `p` and the version `v`. -/
theorem C14_version_saved_before_append (m : ScanEnv) (packageName : String) (job : Job)
    (installed : List InstalledPackageVersion) :
    (WellKnownProgramsThirdPartyPM.scan m packageName job installed).installed =
      installed ++ ScanEvent.appended
        (WellKnownProgramsThirdPartyPM.scan m packageName job installed).trace ∧
    ∀ (i : Nat) (ipv : InstalledPackageVersion),
      (WellKnownProgramsThirdPartyPM.scan m packageName job installed).trace[i]? =
        some (ScanEvent.append ipv) →
      ∃ j : Nat, j < i ∧
        (WellKnownProgramsThirdPartyPM.scan m packageName job installed).trace[j]? =
          some (ScanEvent.savePackageVersion ipv.package ipv.version) := by
  obtain ⟨h1, h2, _, _⟩ := WellKnownProgramsThirdPartyPM.scan_spec m packageName job installed
  exact ⟨h1, h2.saved_before⟩

/-- Counterexample to claim C15 as stated.  An object constructed with the package name
`com.example.Other` appends an entry for this package, and `savePackage` is not called
for a package of this name. -/
theorem C15_counterexample :
    ScanEvent.append ⟨"com.example.Other", ⟨[1, 17, 9]⟩, "C:\\Program Files\\Npackd"⟩ ∈
      (WellKnownProgramsThirdPartyPM.scan Example.machine "com.example.Other"
        (Job.create none) []).trace ∧
    ∀ e ∈ (WellKnownProgramsThirdPartyPM.scan Example.machine "com.example.Other"
        (Job.create none) []).trace, e.savesPackage "com.example.Other" = false := by
  decide

/-- Claim C15, amended.  For every `packageName` given to the constructor and every entry
with package `p` that `scan` appends to the list `installed`, `rep->savePackage` was
called in the same scan with a package whose name is `p`, provided that `packageName` is
one of the three packages of Npackd that `scan` saves or `p` is not `packageName`. -/
theorem C15_package_saved (m : ScanEnv) (packageName : String) (job : Job)
    (installed : List InstalledPackageVersion) (ipv : InstalledPackageVersion)
    (h : packageName ∈ npackdPackages ∨ ipv.package ≠ packageName)
    (happ : ScanEvent.append ipv ∈
      (WellKnownProgramsThirdPartyPM.scan m packageName job installed).trace) :
    ∃ p u d c, ScanEvent.savePackage p u d c ∈
        (WellKnownProgramsThirdPartyPM.scan m packageName job installed).trace ∧
      p.name = ipv.package := by
  obtain ⟨_, _, h3, h4⟩ := WellKnownProgramsThirdPartyPM.scan_spec m packageName job installed
  have key : ∃ e ∈ (WellKnownProgramsThirdPartyPM.scan m packageName job installed).trace,
      e.savesPackage ipv.package = true := by
    rcases h with h | h
    · exact h4 h ipv happ
    · rcases h3 ipv happ with h5 | h5
      · exact h5
      · exact absurd (by rw [h5]) h
  obtain ⟨e, he, hs⟩ := key
  obtain ⟨p, u, d, c, rfl, hp⟩ := (ScanEvent.savesPackage_iff _ _).1 hs
  exact ⟨p, u, d, c, he, hp⟩

/-- Claim C15, amended, at work: the command line program reports itself. -/
theorem C15_package_saved_witness :
    ∃ p u d c, ScanEvent.savePackage p u d c ∈
        (WellKnownProgramsThirdPartyPM.scan Example.machine
          "com.googlecode.windows-package-manager.NpackdCL" (Job.create none) []).trace ∧
      p.name = "com.googlecode.windows-package-manager.NpackdCL" :=
  C15_package_saved Example.machine "com.googlecode.windows-package-manager.NpackdCL"
    (Job.create none) []
    ⟨"com.googlecode.windows-package-manager.NpackdCL", ⟨[1, 17, 9]⟩,
      "C:\\Program Files\\Npackd"⟩
    (Or.inl (by decide)) (by decide)

/-- Claim C16 at a job that must not go on.  Handed a job that carries an error, or a job
that is cancelled, `scan` still saves packages and package versions and appends the
entries of Windows and of MSXML to the list `installed`: the first three detection steps
are made without a poll.  The steps after them are skipped. -/
theorem C16_scan_starts_without_poll :
    Example.failedJob.shouldProceed = false ∧ Example.cancelledJob.shouldProceed = false ∧
    (WellKnownProgramsThirdPartyPM.scan Example.machine
      "com.googlecode.windows-package-manager.NpackdCL" Example.failedJob []).installed =
      [⟨"com.microsoft.Windows64", ⟨[6, 1, 7601]⟩, "C:\\Windows"⟩,
       ⟨"com.microsoft.Windows", ⟨[6, 1, 7601]⟩, ""⟩,
       ⟨"com.microsoft.MSXML", ⟨[3, 8, 110]⟩, ""⟩] ∧
    (WellKnownProgramsThirdPartyPM.scan Example.machine
      "com.googlecode.windows-package-manager.NpackdCL" Example.cancelledJob []).installed =
      [⟨"com.microsoft.Windows64", ⟨[6, 1, 7601]⟩, "C:\\Windows"⟩,
       ⟨"com.microsoft.Windows", ⟨[6, 1, 7601]⟩, ""⟩,
       ⟨"com.microsoft.MSXML", ⟨[3, 8, 110]⟩, ""⟩] ∧
    ((WellKnownProgramsThirdPartyPM.scan Example.machine
      "com.googlecode.windows-package-manager.NpackdCL" Example.cancelledJob []).trace.filter
        (fun e => !e.isAppend)).length = 7 ∧
    (WellKnownProgramsThirdPartyPM.scan Example.machine
      "com.googlecode.windows-package-manager.NpackdCL" (Job.create none) []).installed.length
      = 5 := by
  decide

/-! ## Claim C22 -/

theorem App.batchLoop_launch (env : Env) (createProcess : String → String → Bool)
    (newExe pct : String) (ops : List InstallOperation) :
    ∀ batch, App.batchLoop { env with createProcess := createProcess } newExe pct ops batch =
      App.batchLoop env newExe pct ops batch := by
  induction ops with
  | nil => intro batch; rfl
  | cons op rest ih =>
    intro batch
    unfold App.batchLoop
    rw [ih]
    rfl

theorem App.writeBatchFile_launch (env : Env) (createProcess : String → String → Bool)
    (ops : List InstallOperation) (pct : Nat) (newExe : String) (r : Run) :
    App.writeBatchFile { env with createProcess := createProcess } ops pct newExe r =
      App.writeBatchFile env ops pct newExe r := by
  unfold App.writeBatchFile
  simp only [App.batchLoop_launch]

/-- The step that starts the copied binary leaves the same job and output whatever
`CreateProcess` returns. -/
theorem App.startCopiedBinary_launch (env : Env) (createProcess : String → String → Bool)
    (file : String) (r : Run) :
    (App.startCopiedBinary { env with createProcess := createProcess } file r).job =
      (App.startCopiedBinary env file r).job ∧
    (App.startCopiedBinary { env with createProcess := createProcess } file r).out =
      (App.startCopiedBinary env file r).out := by
  unfold App.startCopiedBinary
  split
  · exact ⟨rfl, rfl⟩
  · exact ⟨rfl, rfl⟩

/-- The step that starts the copied binary, made by a job that goes on: the job ends
without an error message and with the progress 1, and the one call is `CreateProcess`. -/
theorem App.startCopiedBinary_of_proceeds (env : Env) (file : String) (r : Run)
    (hp : r.job.shouldProceed = true) :
    (App.startCopiedBinary env file r).job.errorMessage = "" ∧
    (App.startCopiedBinary env file r).job.progress = 1 ∧
    ∃ prg args, (App.startCopiedBinary env file r).calls =
      r.calls ++ [Event.createProcess prg args (env.createProcess prg args)] := by
  have h0 := ((Job.shouldProceed_iff _).1 hp).1
  unfold App.startCopiedBinary
  rw [if_pos hp]
  refine ⟨h0, ?_, _, _, rfl⟩
  show max (min 1 (r.job.progress + 1 / 10)) (min 1 (max 0 1)) = (1 : ℚ)
  have h1 : min (1 : ℚ) (max 0 1) = 1 := by norm_num
  rw [h1]
  exact max_eq_right (min_le_left _ _)

/-- Claim C22.  In `App::processInstallOperations` the job and the console output are the
same whatever `CreateProcess` returns; and on the self-update path, when the job goes on
after the script was written, the job ends without an error message, with the progress
1 and with one more call of `complete()`, the only call made after the writing being
`CreateProcess`, whose result goes nowhere but into this record of the call. -/
theorem C22_launch_is_fire_and_forget (env : Env) (createProcess : String → String → Bool)
    (ops : List InstallOperation) (pct : Nat) (r : Run) :
    ((App.processInstallOperations { env with createProcess := createProcess } ops pct r).job =
        (App.processInstallOperations env ops pct r).job ∧
      (App.processInstallOperations { env with createProcess := createProcess } ops pct r).out =
        (App.processInstallOperations env ops pct r).out) ∧
    (env.includesRemoveItself ops = true →
      (App.writeBatchFile env ops pct (App.copyExecutable env r).2
        (App.copyExecutable env r).1).1.job.shouldProceed = true →
      (App.processInstallOperations env ops pct r).job.errorMessage = "" ∧
      (App.processInstallOperations env ops pct r).job.progress = 1 ∧
      (App.processInstallOperations env ops pct r).job.completed = r.job.completed + 1 ∧
      ∃ prg args, (App.processInstallOperations env ops pct r).calls =
        (App.writeBatchFile env ops pct (App.copyExecutable env r).2
          (App.copyExecutable env r).1).1.calls ++
          [Event.createProcess prg args (env.createProcess prg args)]) := by
  constructor
  · by_cases hself : env.includesRemoveItself ops = true
    · have hself' : ({ env with createProcess := createProcess } : Env).includesRemoveItself ops
          = true := hself
      rw [App.processInstallOperations_self _ ops pct r hself',
        App.processInstallOperations_self env ops pct r hself]
      have hc : App.copyExecutable { env with createProcess := createProcess } r =
          App.copyExecutable env r := rfl
      rw [hc, App.writeBatchFile_launch]
      obtain ⟨h1, h2⟩ := App.startCopiedBinary_launch env createProcess
        (App.writeBatchFile env ops pct (App.copyExecutable env r).2
          (App.copyExecutable env r).1).2
        (App.writeBatchFile env ops pct (App.copyExecutable env r).2
          (App.copyExecutable env r).1).1
      exact ⟨congrArg Job.complete h1, h2⟩
    · have hself' : ¬ ({ env with createProcess := createProcess } : Env).includesRemoveItself
          ops = true := hself
      unfold App.processInstallOperations
      rw [if_neg hself, if_neg hself']
      exact ⟨rfl, rfl⟩
  · intro hself hp
    rw [App.processInstallOperations_self env ops pct r hself]
    have hcc := (App.copyExecutable_completed env r).1
    have hwc := (App.writeBatchFile_completed env ops pct (App.copyExecutable env r).2
      (App.copyExecutable env r).1).1
    rw [hcc] at hwc
    generalize App.writeBatchFile env ops pct (App.copyExecutable env r).2
      (App.copyExecutable env r).1 = w at *
    obtain ⟨h1, h2, h3⟩ := App.startCopiedBinary_of_proceeds env w.2 w.1 hp
    have hsc := App.startCopiedBinary_completed env w.2 w.1
    refine ⟨h1, h2, ?_, h3⟩
    show (App.startCopiedBinary env w.2 w.1).job.completed + 1 = _
    rw [hsc, hwc]

/-- Claim C22 at work: a self-update in which `CreateProcess` fails ends like one in which
it succeeds. -/
theorem C22_launch_is_fire_and_forget_witness :
    (App.processInstallOperations { Example.selfUpdate with createProcess := fun _ _ => false }
        [] 0 { job := Job.create none }).job =
      (App.processInstallOperations Example.selfUpdate [] 0 { job := Job.create none }).job ∧
    (App.processInstallOperations Example.selfUpdate [] 0
      { job := Job.create none }).job.progress = 1 :=
  ⟨(C22_launch_is_fire_and_forget Example.selfUpdate (fun _ _ => false) [] 0
      { job := Job.create none }).1.1,
    ((C22_launch_is_fire_and_forget Example.selfUpdate (fun _ _ => false) [] 0
      { job := Job.create none }).2 (by decide) (by decide)).2.1⟩

/-! ## Claim C23 -/

/-- Claim C23.  In `detectOneDotNet`, with `K` the version parsed from the key name after
its `v`: `K < 1.1` reports nothing, `1.1 <= K < 2.0` reports `K`, `2.0 <= K < 4.0` reports
the parsed value `Version` of the key, `K >= 4.0` reports the parsed value `Version` of
the sub-key `Full` (nothing when the value cannot be read or parsed, or the sub-key not
opened); the four ranges are nested (`K < 1.1` implies `K < 2.0` implies `K < 4.0`), so the
split is exclusive; a key name that does not start with `v` or whose rest does not parse
reports nothing; and the entries appended are the one entry of the reported version, of
the package `com.microsoft.DotNetRedistributable`, or none. -/
theorem C23_dotNet_version_split (m : ScanEnv) (s : Detection) (wr : WindowsRegistry)
    (keyName : String) :
    ((WellKnownProgramsThirdPartyPM.detectOneDotNet m s wr keyName).installed =
      s.installed ++
        (match WellKnownProgramsThirdPartyPM.dotNetVersion m wr keyName with
        | some v => [⟨"com.microsoft.DotNetRedistributable", v, ""⟩]
        | none => [])) ∧
    ((qStartsWith keyName "v" = false ∨
        m.setVersion (qRight keyName (keyName.length - 1)) = none) →
      WellKnownProgramsThirdPartyPM.dotNetVersion m wr keyName = none) ∧
    (∀ K : Version, qStartsWith keyName "v" = true →
      m.setVersion (qRight keyName (keyName.length - 1)) = some K →
      (K.compare ⟨[1, 1]⟩ < 0 →
        WellKnownProgramsThirdPartyPM.dotNetVersion m wr keyName = none) ∧
      (0 ≤ K.compare ⟨[1, 1]⟩ → K.compare ⟨[2, 0]⟩ < 0 →
        WellKnownProgramsThirdPartyPM.dotNetVersion m wr keyName = some K) ∧
      (0 ≤ K.compare ⟨[2, 0]⟩ → K.compare ⟨[4, 0]⟩ < 0 →
        WellKnownProgramsThirdPartyPM.dotNetVersion m wr keyName =
          if (m.regGet wr "Version").2 = "" then m.setVersion (m.regGet wr "Version").1
          else none) ∧
      (0 ≤ K.compare ⟨[4, 0]⟩ →
        WellKnownProgramsThirdPartyPM.dotNetVersion m wr keyName =
          if m.regOpen (wr.sub "Full") = "" then
            if (m.regGet (wr.sub "Full") "Version").2 = "" then
              m.setVersion (m.regGet (wr.sub "Full") "Version").1
            else none
          else none) ∧
      (K.compare ⟨[1, 1]⟩ < 0 → K.compare ⟨[2, 0]⟩ < 0) ∧
      (K.compare ⟨[2, 0]⟩ < 0 → K.compare ⟨[4, 0]⟩ < 0)) := by
  refine ⟨?_, ?_, ?_⟩
  · unfold WellKnownProgramsThirdPartyPM.detectOneDotNet
    dsimp only
    split
    · rfl
    · simp
  · intro h
    unfold WellKnownProgramsThirdPartyPM.dotNetVersion
    dsimp only
    rcases h with h | h
    · simp [h]
    · split
      · rw [h]
      · rfl
  · intro K hv hK
    have h12 : ∀ X : Version, X.compare ⟨[1, 1]⟩ < 0 → X.compare ⟨[2, 0]⟩ < 0 := fun X h =>
      Version.compare_lt_trans X ⟨[1, 1]⟩ ⟨[2, 0]⟩ h (by decide)
    have h24 : ∀ X : Version, X.compare ⟨[2, 0]⟩ < 0 → X.compare ⟨[4, 0]⟩ < 0 := fun X h =>
      Version.compare_lt_trans X ⟨[2, 0]⟩ ⟨[4, 0]⟩ h (by decide)
    have key : WellKnownProgramsThirdPartyPM.dotNetVersion m wr keyName =
        if K.compare ⟨[1, 1]⟩ < 0 then none
        else if K.compare ⟨[2, 0]⟩ < 0 then some K
        else if K.compare ⟨[4, 0]⟩ < 0 then
          if (m.regGet wr "Version").2 = "" then m.setVersion (m.regGet wr "Version").1
          else none
        else
          if m.regOpen (wr.sub "Full") = "" then
            if (m.regGet (wr.sub "Full") "Version").2 = "" then
              m.setVersion (m.regGet (wr.sub "Full") "Version").1
            else none
          else none := by
      unfold WellKnownProgramsThirdPartyPM.dotNetVersion
      dsimp only
      rw [if_pos hv, hK]
    rw [key]
    refine ⟨?_, ?_, ?_, ?_, h12 K, h24 K⟩
    · intro h1
      rw [if_pos h1]
    · intro h1 h2
      rw [if_neg (by omega), if_pos h2]
    · intro h2 h4
      have h1 : ¬ K.compare ⟨[1, 1]⟩ < 0 := fun h => by have := h12 K h; omega
      rw [if_neg h1, if_neg (by omega), if_pos h4]
    · intro h4
      have h2 : ¬ K.compare ⟨[2, 0]⟩ < 0 := fun h => by have := h24 K h; omega
      have h1 : ¬ K.compare ⟨[1, 1]⟩ < 0 := fun h => h2 (h12 K h)
      rw [if_neg h1, if_neg h2, if_neg (by omega)]

/-- Claim C23 at work: the key `v4` counts as 4.0, and the version of its sub-key `Full` is
reported; the key `v1.0.3705` reports nothing. -/
theorem C23_dotNet_version_split_witness :
    WellKnownProgramsThirdPartyPM.dotNetVersion Example.dotNet ⟨"NDP\\v4", false⟩ "v4" =
      some ⟨[4, 8, 4084]⟩ ∧
    WellKnownProgramsThirdPartyPM.dotNetVersion Example.dotNet ⟨"NDP\\v1.0.3705", false⟩
      "v1.0.3705" = none :=
  ⟨((C23_dotNet_version_split Example.dotNet {} ⟨"NDP\\v4", false⟩ "v4").2.2 ⟨[4]⟩
      (by decide) (by decide)).2.2.2.1 (by decide),
    ((C23_dotNet_version_split Example.dotNet {} ⟨"NDP\\v1.0.3705", false⟩ "v1.0.3705").2.2
      ⟨[1, 0, 3705]⟩ (by decide) (by decide)).1 (by decide)⟩

/-! ## Claim C24 -/

/-- Claim C24 at two packages with titles that are equal ignoring case.  Of the pairs
`com.example.Editor 1.0`, `org.example.Editor 5.0` and `com.example.Editor 2.0`, each
with the title of its package, the first and the second are incomparable under
`compareByPackageTitle`, and so are the second and the third, but the first is less than
the third: the incomparability is not transitive and the comparator is not a strict weak
ordering on these pairs.  With the insertion sort as `qSort`, the two versions of
`com.example.Editor` then end up next to each other or apart, depending on the order of
the list given. -/
theorem C24_incomparability_not_transitive :
    (∀ x ∈ [Example.editorOne, Example.otherEditor, Example.editorTwo],
      x.2 = Example.sameTitle.getPackageTitle x.1) ∧
    Example.sameTitle.toLower "Editor" = Example.sameTitle.toLower "editor" ∧
    compareByPackageTitle Example.sameTitle Example.editorOne Example.otherEditor = false ∧
    compareByPackageTitle Example.sameTitle Example.otherEditor Example.editorOne = false ∧
    compareByPackageTitle Example.sameTitle Example.otherEditor Example.editorTwo = false ∧
    compareByPackageTitle Example.sameTitle Example.editorTwo Example.otherEditor = false ∧
    compareByPackageTitle Example.sameTitle Example.editorOne Example.editorTwo = true ∧
    ¬ StrictWeakOrderOn (compareByPackageTitle Example.sameTitle)
      [Example.editorOne, Example.otherEditor, Example.editorTwo] ∧
    (App.sortPackageVersionsByPackageTitle Example.sameTitle
        [Example.editorTwo.1, Example.otherEditor.1, Example.editorOne.1]).1 =
      [Example.editorOne.1, Example.otherEditor.1, Example.editorTwo.1] ∧
    (App.sortPackageVersionsByPackageTitle Example.sameTitle
        [Example.otherEditor.1, Example.editorTwo.1, Example.editorOne.1]).1 =
      [Example.editorOne.1, Example.editorTwo.1, Example.otherEditor.1] := by
  refine ⟨by decide, by decide, by decide, by decide, by decide, by decide, by decide, ?_,
    by decide, by decide⟩
  intro h
  have h3 := h.2.2 Example.editorOne (by simp) Example.otherEditor (by simp)
    Example.editorTwo (by simp) (by decide) (by decide) (by decide) (by decide)
  exact absurd h3.1 (by decide)

/-! ## Claim C25 -/

/-- Claim C25.  When `qSort` permutes the items it is given, `App::sortPackageVersionsByPackageTitle`
leaves the list a permutation of the list given, of the same length, and returns as many
titles, entry `i` being the package title of the element at position `i` of the
reordered list. -/
theorem C25_sort_permutes_with_titles (env : Env) (hq : ∀ lt l, (env.qSort lt l).Perm l)
    (list : List PackageVersion) :
    (App.sortPackageVersionsByPackageTitle env list).1.Perm list ∧
    (App.sortPackageVersionsByPackageTitle env list).1.length = list.length ∧
    (App.sortPackageVersionsByPackageTitle env list).2.length = list.length ∧
    (App.sortPackageVersionsByPackageTitle env list).2 =
      (App.sortPackageVersionsByPackageTitle env list).1.map env.getPackageTitle := by
  have hperm := App.sortPackageVersionsByPackageTitle_perm env hq list
  have heq := App.sortPackageVersionsByPackageTitle_eq env hq list
  have hitems := hq (compareByPackageTitle env) (list.map fun pv => (pv, env.getPackageTitle pv))
  have htitle : ∀ e ∈ env.qSort (compareByPackageTitle env)
      (list.map fun pv => (pv, env.getPackageTitle pv)), e.2 = env.getPackageTitle e.1 := by
    intro e he
    obtain ⟨pv, _, rfl⟩ := List.mem_map.1 (hitems.mem_iff.1 he)
    rfl
  have h2 : (App.sortPackageVersionsByPackageTitle env list).2 =
      (App.sortPackageVersionsByPackageTitle env list).1.map env.getPackageTitle := by
    rw [heq]
    simp only [List.map_map]
    exact List.map_congr_left fun e he => htitle e he
  refine ⟨hperm, hperm.length_eq, ?_, h2⟩
  rw [h2, List.length_map, hperm.length_eq]

/-- Claim C25 at work: the editor and the library, sorted by insertion sort. -/
theorem C25_sort_permutes_with_titles_witness :
    (App.sortPackageVersionsByPackageTitle Example.titles [Example.editor, Example.lib]).1.Perm
      [Example.editor, Example.lib] ∧
    (App.sortPackageVersionsByPackageTitle Example.titles [Example.editor, Example.lib]).2 =
      ["Alpha Library", "Zed Editor"] :=
  ⟨(C25_sort_permutes_with_titles Example.titles (fun lt l => insertionSort_perm lt l)
      [Example.editor, Example.lib]).1,
    (C25_sort_permutes_with_titles Example.titles (fun lt l => insertionSort_perm lt l)
      [Example.editor, Example.lib]).2.2.2.trans (by decide)⟩

/-! ## Claim C26 -/

theorem App.findUrl_last (u : QUrl) :
    ∀ (l : List QUrl) (i : Nat), (∀ x ∈ l, x.text ≠ u.text) →
      App.findUrl u (l ++ [u]) i = some (i + l.length) := by
  intro l
  induction l with
  | nil => intro i _; simp [App.findUrl]
  | cons y rest ih =>
    intro i h
    have hy : y.text ≠ u.text := h y (List.mem_cons_self _ _)
    have := ih (i + 1) fun x hx => h x (List.mem_cons_of_mem _ hx)
    show App.findUrl u (y :: (rest ++ [u])) i = _
    rw [App.findUrl, if_neg hy, this, List.length_cons]
    congr 1
    omega

/-- Claim C26.  Let `u` be a valid URL without leading or trailing whitespace that has the
string form of no entry of the stored list `L`, and let the list be readable and every
writing of it succeed.  Then `addRepo(u)` returns no error and stores `L ++ [u]`, and
`removeRepo(u)`, run on the list stored by `addRepo`, returns no error and stores `L`
again. -/
theorem C26_add_remove_round_trip (env : Env) (u : String)
    (hurl : env.cl.get "url" = some u) (htrim : env.trimmed u = u)
    (hvalid : (env.setUrl u).valid = true) (hread : env.getRepositoryURLs.2 = "")
    (hwrite : ∀ l, env.setRepositoryURLs l = "")
    (hnew : ∀ x ∈ env.getRepositoryURLs.1, x.text ≠ (env.setUrl u).text) :
    (App.addRepo env).err = "" ∧
    (App.addRepo env).stored env.getRepositoryURLs.1 =
      some (env.getRepositoryURLs.1 ++ [env.setUrl u]) ∧
    (App.removeRepo { env with
      getRepositoryURLs := (env.getRepositoryURLs.1 ++ [env.setUrl u], "") }).err = "" ∧
    (App.removeRepo { env with
      getRepositoryURLs := (env.getRepositoryURLs.1 ++ [env.setUrl u], "") }).stored
        (env.getRepositoryURLs.1 ++ [env.setUrl u]) = some env.getRepositoryURLs.1 := by
  have hnone := (App.findUrl_none (env.setUrl u) env.getRepositoryURLs.1 0).2 hnew
  have hlast := App.findUrl_last (env.setUrl u) env.getRepositoryURLs.1 0 hnew
  have hadd : App.addRepo env =
      { err := "", out := ["The repository was added successfully\n"],
        written := some (env.getRepositoryURLs.1 ++ [env.setUrl u]) } := by
    unfold App.addRepo
    simp only [hurl, Option.map_some', htrim, hvalid, Bool.not_true, Bool.false_eq_true,
      if_false, if_true, hread, hnone, hwrite]
  have hrem : App.removeRepo { env with
      getRepositoryURLs := (env.getRepositoryURLs.1 ++ [env.setUrl u], "") } =
      { err := "", out := ["The repository was removed successfully\n"],
        written := some ((env.getRepositoryURLs.1 ++ [env.setUrl u]).eraseIdx
          (0 + env.getRepositoryURLs.1.length)) } := by
    unfold App.removeRepo
    simp only [hurl, hvalid, Bool.not_true, Bool.false_eq_true, if_false, if_true, hlast,
      hwrite]
  rw [hadd, hrem]
  refine ⟨rfl, by simp [RepoResult.stored], rfl, ?_⟩
  simp [RepoResult.stored, List.eraseIdx_append_of_length_le]

/-- Claim C26 at work: a repository is added to a list of one and removed again. -/
theorem C26_add_remove_round_trip_witness :
    (App.addRepo Example.newRepository).stored [Example.defaultRepository] =
      some [Example.defaultRepository, Example.repository] ∧
    (App.removeRepo { Example.newRepository with
      getRepositoryURLs := ([Example.defaultRepository, Example.repository], "") }).stored
        [Example.defaultRepository, Example.repository] = some [Example.defaultRepository] :=
  ⟨(C26_add_remove_round_trip Example.newRepository "https://www.example.com/Rep.xml"
      (by decide) (by decide) (by decide) (by decide) (fun _ => rfl) (by decide)).2.1,
    (C26_add_remove_round_trip Example.newRepository "https://www.example.com/Rep.xml"
      (by decide) (by decide) (by decide) (by decide) (fun _ => rfl) (by decide)).2.2.2⟩

/-! ## Claim C21 -/

@[simp] theorem Job.log_polled (j : Job) : j.polled.log = j.log := rfl
@[simp] theorem Job.log_setTitle (j : Job) (t : String) : (j.setTitle t).log = j.log := rfl
@[simp] theorem Job.log_setErrorMessage (j : Job) (msg : String) :
    (j.setErrorMessage msg).log = j.log := by
  unfold Job.setErrorMessage
  split <;> rfl
@[simp] theorem Job.log_newSubJob (j : Job) (w : ℚ) (t : String) :
    (j.newSubJob w t).log = j.log ++ [JobEvent.newSubJob w t] := rfl
@[simp] theorem Job.log_subJobCompleted (j : Job) (w : ℚ) :
    (j.subJobCompleted w).log = j.log ++ [JobEvent.completeWithProgress w] := rfl
@[simp] theorem Job.log_setProgress (j : Job) (p : ℚ) :
    (j.setProgress p).log = j.log ++ [JobEvent.setProgress p] := rfl
@[simp] theorem Job.log_complete (j : Job) :
    j.complete.log = j.log ++ [JobEvent.complete] := rfl

theorem LogWithin.of_drop {full : List JobEvent} {j j' : Job} (h1 : j.log <+: j'.log)
    (h2 : (j'.log.drop j.log.length).Sublist full) : LogWithin full j j' := by
  obtain ⟨X, hX⟩ := h1
  refine ⟨X, hX.symm, ?_⟩
  rw [← hX, List.drop_left] at h2
  exact h2

theorem LogWithin.none (full : List JobEvent) (j : Job) : LogWithin full j j :=
  ⟨[], by simp, List.nil_sublist _⟩

theorem LogWithin.thenLog {f₁ f₂ : List JobEvent} {j₁ j₂ j₃ : Job} (h₁ : LogWithin f₁ j₁ j₂)
    (h₂ : LogWithin f₂ j₂ j₃) : LogWithin (f₁ ++ f₂) j₁ j₃ := by
  obtain ⟨X, hX, sX⟩ := h₁
  obtain ⟨Y, hY, sY⟩ := h₂
  exact ⟨X ++ Y, by rw [hY, hX, List.append_assoc], sX.append sY⟩

theorem App.readRegistry_log (env : Env) (w : ℚ) (r : Run) :
    LogWithin [JobEvent.newSubJob w "Reading list of installed packages from the registry",
      JobEvent.completeWithProgress w] r.job (App.readRegistry env w r).job := by
  unfold App.readRegistry
  split
  · dsimp only
    split
    · exact LogWithin.of_drop (by simp) (by simp)
    · exact LogWithin.of_drop (by simp) (by simp)
  · exact LogWithin.of_drop (by simp) (by simp)

theorem JobEvent.subJobWeights_cons (e : JobEvent) (l : List JobEvent) :
    JobEvent.subJobWeights (e :: l) = e.weight + JobEvent.subJobWeights l := by
  simp [JobEvent.subJobWeights]

theorem JobEvent.subJobWeights_concat (l₁ l₂ : List JobEvent) :
    JobEvent.subJobWeights (l₁ ++ l₂) =
      JobEvent.subJobWeights l₁ + JobEvent.subJobWeights l₂ := by
  simp [JobEvent.subJobWeights]

theorem JobEvent.subJobWeights_sublist {X Y : List JobEvent} (h : X.Sublist Y)
    (hY : ∀ e ∈ Y, 0 ≤ e.weight) : JobEvent.subJobWeights X ≤ JobEvent.subJobWeights Y := by
  unfold JobEvent.subJobWeights
  apply List.Sublist.sum_le_sum (h.map JobEvent.weight)
  intro a ha
  obtain ⟨e, he, rfl⟩ := List.mem_map.1 ha
  exact hY e he

/-- A list of calls that passes the test has its calls of `setProgress` in order. -/
theorem JobEvent.checkFrom_sound :
    ∀ (l : List JobEvent) (before : ℚ), JobEvent.checkFrom before l = true →
      ∀ pre p post, l = pre ++ JobEvent.setProgress p :: post →
        0 ≤ p ∧ p ≤ 1 ∧ before + JobEvent.subJobWeights pre ≤ p ∧
          p + JobEvent.subJobWeights post ≤ 1 := by
  intro l
  induction l with
  | nil => intro b _ pre p post h; simp at h
  | cons e rest ih =>
    intro b hc pre p post h
    cases pre with
    | nil =>
      simp only [List.nil_append, List.cons.injEq] at h
      obtain ⟨rfl, rfl⟩ := h
      simp only [JobEvent.checkFrom, Bool.and_eq_true, decide_eq_true_eq] at hc
      obtain ⟨⟨⟨⟨h1, h2⟩, h3⟩, h4⟩, _⟩ := hc
      refine ⟨h1, h2, ?_, h4⟩
      simpa [JobEvent.subJobWeights] using h3
    | cons e' pre' =>
      simp only [List.cons_append, List.cons.injEq] at h
      obtain ⟨rfl, hrest⟩ := h
      rw [JobEvent.subJobWeights_cons]
      cases e with
      | setProgress q =>
        simp only [JobEvent.checkFrom, Bool.and_eq_true, decide_eq_true_eq] at hc
        have := ih b hc.2 pre' p post hrest
        simpa [JobEvent.weight] using this
      | newSubJob w t =>
        have := ih (b + w) hc pre' p post hrest
        simpa [JobEvent.weight, add_assoc] using this
      | completeWithProgress w =>
        have := ih (b + 0) hc pre' p post hrest
        simpa [JobEvent.weight] using this
      | complete =>
        have := ih (b + 0) hc pre' p post hrest
        simpa [JobEvent.weight] using this

theorem ProgressOk.of_check (l : List JobEvent) (h1 : JobEvent.subJobWeights l ≤ 1)
    (h2 : JobEvent.checkFrom 0 l = true) : ProgressOk l := by
  refine ⟨h1, fun pre p post h => ?_⟩
  have := JobEvent.checkFrom_sound l 0 h2 pre p post h
  simpa using this

/-- Some of the calls of a list that is in order are in order, when no weight is
negative. -/
theorem ProgressOk.of_sublist {X full : List JobEvent} (h : X.Sublist full)
    (hw : ∀ e ∈ full, 0 ≤ e.weight) (hfull : ProgressOk full) : ProgressOk X := by
  refine ⟨(JobEvent.subJobWeights_sublist h hw).trans hfull.1, ?_⟩
  intro pre' p post' hX
  rw [hX] at h
  obtain ⟨r₁, r₂, hr, h1, h2⟩ := List.append_sublist_iff.1 h
  obtain ⟨s₁, s₂, hs, hmem, h3⟩ := List.cons_sublist_iff.1 h2
  obtain ⟨t₁, t₂, ht⟩ := List.append_of_mem hmem
  have hdec : full = (r₁ ++ t₁) ++ JobEvent.setProgress p :: (t₂ ++ s₂) := by
    rw [hr, hs, ht]; simp
  obtain ⟨a, b, c, d⟩ := hfull.2 _ p _ hdec
  have hwpre : ∀ e ∈ r₁ ++ t₁, 0 ≤ e.weight := by
    intro e he
    apply hw
    rw [hdec]
    exact List.mem_append_left _ he
  have hwpost : ∀ e ∈ t₂ ++ s₂, 0 ≤ e.weight := by
    intro e he
    apply hw
    rw [hdec]
    exact List.mem_append_right _ (List.mem_cons_of_mem _ he)
  have hpre := JobEvent.subJobWeights_sublist
    ((h1.trans (List.sublist_append_left r₁ t₁))) hwpre
  have hpost := JobEvent.subJobWeights_sublist
    ((h3.trans (List.sublist_append_right t₂ s₂))) hwpost
  exact ⟨a, b, hpre.trans c, by linarith⟩

theorem App.detectInstalled_log (env : Env) (w : ℚ) (r : Run) :
    LogWithin [JobEvent.newSubJob w "Detecting installed software"] r.job
      (App.detectInstalled env w r).job := by
  unfold App.detectInstalled
  split
  · dsimp only
    split <;> exact LogWithin.of_drop (by simp) (by simp)
  · exact LogWithin.of_drop (by simp) (by simp)

theorem App.checkRefresh_log (env : Env) (r : Run) :
    LogWithin [JobEvent.newSubJob (1/2) "Refreshing the list of installed packages"] r.job
      (App.checkRefresh env r).job := by
  unfold App.checkRefresh
  split <;> exact LogWithin.of_drop (by simp) (by simp)

theorem App.checkGetInstalled_log (env : Env) (r : Run) :
    LogWithin [JobEvent.setProgress (9/10)] r.job (App.checkGetInstalled env r).1.job := by
  unfold App.checkGetInstalled
  split
  · dsimp only
    split <;> exact LogWithin.of_drop (by simp) (by simp)
  · exact LogWithin.of_drop (by simp) (by simp)

theorem App.checkReport_log (env : Env) (r : Run) (list : List PackageVersion) :
    LogWithin [JobEvent.setProgress 1] r.job (App.checkReport env r list).job := by
  unfold App.checkReport
  split
  · dsimp only
    split <;> exact LogWithin.of_drop (by simp) (by simp)
  · exact LogWithin.of_drop (by simp) (by simp)

/-- The progress calls that `check` can make, in order. -/
theorem App.check_log (env : Env) :
    LogWithin
      [JobEvent.newSubJob (1/100) "Reading list of installed packages from the registry",
        JobEvent.completeWithProgress (1/100),
        JobEvent.newSubJob (1/2) "Refreshing the list of installed packages",
        JobEvent.setProgress (9/10), JobEvent.setProgress 1]
      (Job.create env.cancelAt) (App.check env).job := by
  unfold App.check App.checkBeforeReport
  dsimp only
  generalize hj0 : (Job.create env.cancelAt).setTitle _ = j0
  have h0 : LogWithin [] (Job.create env.cancelAt) j0 := by
    rw [← hj0]; exact LogWithin.of_drop (by simp) (by simp)
  have h1 := App.readRegistry_log env (1/100) { job := j0 }
  generalize App.readRegistry env (1/100) { job := j0 } = r1 at *
  have h2 := App.checkRefresh_log env r1
  generalize App.checkRefresh env r1 = r2 at *
  have h3 := App.checkGetInstalled_log env r2
  generalize App.checkGetInstalled env r2 = r3 at *
  have h4 := App.checkReport_log env r3.1 r3.2
  exact (h0.thenLog (h1.thenLog (h2.thenLog (h3.thenLog h4))))

/-- The progress calls that `list` can make, in order. -/
theorem App.list_log (env : Env) :
    LogWithin
      [JobEvent.newSubJob (1/100) "Reading list of installed packages from the registry",
        JobEvent.completeWithProgress (1/100),
        JobEvent.newSubJob (99/100) "Getting the list of installed packages from the registry",
        JobEvent.completeWithProgress (99/100), JobEvent.setProgress 1]
      (Job.create env.cancelAt) (App.list env).job := by
  unfold App.list
  dsimp only
  generalize hj0 : (if env.cl.isPresent "bare-format" = true then Job.create env.cancelAt
    else Job.create env.cancelAt).setTitle _ = j0
  have h0 : LogWithin [] (Job.create env.cancelAt) j0 := by
    rw [← hj0]
    split <;> exact LogWithin.of_drop (by simp) (by simp)
  have h1 := App.readRegistry_log env (1/100) { job := j0 }
  generalize App.readRegistry env (1/100) { job := j0 } = r1 at *
  refine h0.thenLog (h1.thenLog ?_)
  split
  · split <;> exact LogWithin.of_drop (by simp) (by simp)
  · exact LogWithin.of_drop (by simp) (by simp)

theorem App.searchStatus_log (env : Env) (r : Run) :
    LogWithin [] r.job (App.searchStatus env r).1.job := by
  unfold App.searchStatus
  split
  · dsimp only
    split
    · exact LogWithin.of_drop (by simp) (by simp)
    · split <;> (try split) <;> exact LogWithin.of_drop (by simp) (by simp)
  · exact LogWithin.of_drop (by simp) (by simp)

theorem App.searchFind_log (env : Env) (b : Bool) (q : Option String) (r : Run) :
    LogWithin [JobEvent.newSubJob (1/100) "Searching for packages",
      JobEvent.completeWithProgress (1/100)] r.job (App.searchFind env b q r).1.job := by
  unfold App.searchFind
  split
  · dsimp only
    split <;> exact LogWithin.of_drop (by simp) (by simp)
  · exact LogWithin.of_drop (by simp) (by simp)

theorem App.searchFetch_log (env : Env) (names : List String) (r : Run) :
    LogWithin [JobEvent.newSubJob (1/100) "Fetching packages",
      JobEvent.completeWithProgress (1/100)] r.job (App.searchFetch env names r).1.job := by
  unfold App.searchFetch
  split
  · dsimp only
    split <;> exact LogWithin.of_drop (by simp) (by simp)
  · exact LogWithin.of_drop (by simp) (by simp)

theorem App.searchPrint_log (env : Env) (bare : Bool) (list : List Package) (r : Run) :
    LogWithin [JobEvent.setProgress 1] r.job (App.searchPrint env bare list r).job := by
  unfold App.searchPrint
  split <;> exact LogWithin.of_drop (by simp) (by simp)

/-- The progress calls that `search` can make, in order. -/
theorem App.search_log (env : Env) :
    LogWithin
      [JobEvent.newSubJob (96/100) "Reading list of installed packages from the registry",
        JobEvent.completeWithProgress (96/100),
        JobEvent.newSubJob (1/100) "Searching for packages",
        JobEvent.completeWithProgress (1/100),
        JobEvent.newSubJob (1/100) "Fetching packages",
        JobEvent.completeWithProgress (1/100), JobEvent.setProgress 1, JobEvent.complete]
      (Job.create env.cancelAt) (App.search env).job := by
  unfold App.search App.searchAfterStatus
  dsimp only
  generalize hj0 : (Job.create env.cancelAt).setTitle _ = j0
  have h0 : LogWithin [] (Job.create env.cancelAt) j0 := by
    rw [← hj0]; exact LogWithin.of_drop (by simp) (by simp)
  have h1 := App.searchStatus_log env { job := j0 }
  generalize App.searchStatus env { job := j0 } = r1 at *
  have h2 := App.readRegistry_log env (96/100) r1.1
  generalize App.readRegistry env (96/100) r1.1 = r2 at *
  have h3 := App.searchFind_log env r1.2 (env.cl.get "query") r2
  generalize App.searchFind env r1.2 (env.cl.get "query") r2 = r3 at *
  have h4 := App.searchFetch_log env r3.2 r3.1
  generalize App.searchFetch env r3.2 r3.1 = r4 at *
  have h5 := App.searchPrint_log env (env.cl.isPresent "bare-format") r4.2 r4.1
  generalize App.searchPrint env (env.cl.isPresent "bare-format") r4.2 r4.1 = r5 at *
  have h6 : LogWithin [JobEvent.complete] r5.job r5.job.complete :=
    LogWithin.of_drop (by simp) (by simp)
  exact h0.thenLog (h1.thenLog (h2.thenLog (h3.thenLog (h4.thenLog (h5.thenLog h6)))))

theorem App.copyExecutable_log (env : Env) (r : Run) :
    LogWithin [JobEvent.newSubJob (8/10) "Copying the executable",
      JobEvent.completeWithProgress (8/10)] r.job (App.copyExecutable env r).1.job := by
  unfold App.copyExecutable
  split
  · dsimp only
    split
    · exact LogWithin.of_drop (by simp) (by simp)
    · split
      · exact LogWithin.of_drop (by simp) (by simp)
      · split <;> exact LogWithin.of_drop (by simp) (by simp)
  · exact LogWithin.of_drop (by simp) (by simp)

theorem App.writeBatchFile_log (env : Env) (ops : List InstallOperation) (pct : Nat)
    (newExe : String) (r : Run) :
    LogWithin [JobEvent.setProgress (9/10)] r.job
      (App.writeBatchFile env ops pct newExe r).1.job := by
  unfold App.writeBatchFile
  split
  · dsimp only
    split
    · exact LogWithin.of_drop (by simp) (by simp)
    · split <;> exact LogWithin.of_drop (by simp) (by simp)
  · exact LogWithin.of_drop (by simp) (by simp)

theorem App.startCopiedBinary_log (env : Env) (file : String) (r : Run) :
    LogWithin [JobEvent.newSubJob (1/10) "Starting the copied binary",
      JobEvent.completeWithProgress (1/10), JobEvent.setProgress 1] r.job
      (App.startCopiedBinary env file r).job := by
  unfold App.startCopiedBinary
  split <;> exact LogWithin.of_drop (by simp) (by simp)

/-- The progress calls that `processInstallOperations` can make on the job handed in, in
order. -/
theorem App.processInstallOperations_log (env : Env) (ops : List InstallOperation)
    (pct : Nat) (r : Run) :
    LogWithin
      [JobEvent.newSubJob (8/10) "Copying the executable",
        JobEvent.completeWithProgress (8/10), JobEvent.setProgress (9/10),
        JobEvent.newSubJob (1/10) "Starting the copied binary",
        JobEvent.completeWithProgress (1/10), JobEvent.setProgress 1, JobEvent.complete]
      r.job (App.processInstallOperations env ops pct r).job := by
  by_cases hself : env.includesRemoveItself ops = true
  · rw [App.processInstallOperations_self env ops pct r hself]
    have h1 := App.copyExecutable_log env r
    generalize App.copyExecutable env r = c at *
    have h2 := App.writeBatchFile_log env ops pct c.2 c.1
    generalize App.writeBatchFile env ops pct c.2 c.1 = w at *
    have h3 := App.startCopiedBinary_log env w.2 w.1
    generalize App.startCopiedBinary env w.2 w.1 = s at *
    have h4 : LogWithin [JobEvent.complete] s.job s.job.complete :=
      LogWithin.of_drop (by simp) (by simp)
    exact h1.thenLog (h2.thenLog (h3.thenLog h4))
  · unfold App.processInstallOperations
    rw [if_neg hself]
    dsimp only
    split <;> exact LogWithin.of_drop (by simp) (by simp)

theorem App.runInstallOperations_log (env : Env) (w : ℚ) (title : String)
    (ops : List InstallOperation) (pct : Nat) (r : Run) :
    LogWithin [JobEvent.newSubJob w title] r.job
      (App.runInstallOperations env w title ops pct r).1.job := by
  unfold App.runInstallOperations
  exact LogWithin.of_drop (by simp) (by simp)

theorem App.updateCloseType_log (env : Env) (s : UpdateState) :
    (App.updateCloseType env s).job.log = s.job.log := by
  unfold App.updateCloseType
  split
  · dsimp only
    split <;> simp
  · rfl

theorem App.updateMissingOption_log (ps : List String) (s : UpdateState) :
    (App.updateMissingOption ps s).job.log = s.job.log := by
  unfold App.updateMissingOption
  split
  · dsimp only
    split <;> simp
  · rfl

theorem App.updateValidNames_log (env : Env) (ps : List String) :
    ∀ j : Job, (App.updateValidNames env ps j).log = j.log := by
  induction ps with
  | nil => intro j; rfl
  | cons p rest ih =>
    intro j
    unfold App.updateValidNames
    split
    · rw [ih]; simp
    · rw [ih]

theorem App.updateCheckNames_log (env : Env) (ps : List String) (s : UpdateState) :
    (App.updateCheckNames env ps s).job.log = s.job.log := by
  unfold App.updateCheckNames
  split
  · show (App.updateValidNames env ps s.job.polled).log = _
    rw [App.updateValidNames_log]; rfl
  · rfl

theorem App.updateFindOne_log (env : Env) (p : String) (s : UpdateState) :
    (App.updateFindOne env p s).job.log = s.job.log := by
  unfold App.updateFindOne
  dsimp only
  split_ifs <;> simp

theorem App.updateFindPackages_log (env : Env) (ps : List String) :
    ∀ s : UpdateState, (App.updateFindPackages env ps s).job.log = s.job.log := by
  induction ps with
  | nil => intro s; rfl
  | cons p rest ih =>
    intro s
    unfold App.updateFindPackages
    dsimp only
    split
    · exact App.updateFindOne_log env p s
    · rw [ih]
      exact App.updateFindOne_log env p s

theorem App.updateLookup_log (env : Env) (ps : List String) (s : UpdateState) :
    (App.updateLookup env ps s).job.log = s.job.log := by
  unfold App.updateLookup
  split
  · rw [App.updateFindPackages_log]; rfl
  · rfl

theorem App.updatePlan_log (env : Env) (s : UpdateState) :
    LogWithin [JobEvent.setProgress (15/100)] s.job (App.updatePlan env s).job := by
  unfold App.updatePlan
  split
  · dsimp only
    split <;> exact LogWithin.of_drop (by simp) (by simp)
  · exact LogWithin.of_drop (by simp) (by simp)

theorem App.updateProcess_log (env : Env) (s : UpdateState) :
    LogWithin [JobEvent.newSubJob (85/100) "Updating"] s.job
      (App.updateProcess env s).job := by
  unfold App.updateProcess
  split
  · have h := App.runInstallOperations_log env (85/100) "Updating" s.ops s.programCloseType
      { s.toRun with job := s.job.polled }
    generalize App.runInstallOperations env (85/100) "Updating" s.ops s.programCloseType
      { s.toRun with job := s.job.polled } = p at *
    obtain ⟨X, hX, sX⟩ := h
    dsimp only
    split
    · exact ⟨X, by simpa using hX, sX⟩
    · exact ⟨X, hX, sX⟩
  · exact LogWithin.of_drop (by simp) (by simp)

theorem App.updateFinish_log (s : UpdateState) :
    LogWithin [JobEvent.complete] s.job (App.updateFinish s).job := by
  unfold App.updateFinish
  dsimp only
  split
  · exact LogWithin.of_drop (by simp) (by simp)
  · split
    · exact LogWithin.of_drop (by simp) (by simp)
    · split <;> exact LogWithin.of_drop (by simp) (by simp)

theorem LogWithin.of_log_eq {j j' j'' : Job} {full : List JobEvent} (h : j''.log = j'.log)
    (h' : LogWithin full j j') : LogWithin full j j'' := by
  obtain ⟨X, hX, sX⟩ := h'
  exact ⟨X, h.trans hX, sX⟩

/-- The progress calls that `update` can make, in order. -/
theorem App.update_log (env : Env) :
    LogWithin
      [JobEvent.newSubJob (1/100) "Reading list of installed packages from the registry",
        JobEvent.completeWithProgress (1/100),
        JobEvent.newSubJob (5/100) "Detecting installed software",
        JobEvent.setProgress (15/100), JobEvent.newSubJob (85/100) "Updating",
        JobEvent.complete]
      (Job.create env.cancelAt) (App.update env).job := by
  unfold App.update App.updateBeforeFinish App.updateBeforePlan
  dsimp only
  generalize hj0 : (Job.create env.cancelAt).setTitle _ = j0
  have h0 : LogWithin [] (Job.create env.cancelAt) j0 := by
    rw [← hj0]; exact LogWithin.of_drop (by simp) (by simp)
  have h1 := App.readRegistry_log env (1/100) { job := j0 }
  generalize App.readRegistry env (1/100) { job := j0 } = r1 at *
  have h2 := App.detectInstalled_log env (5/100) r1
  generalize App.detectInstalled env (5/100) r1 = r2 at *
  generalize hs0 : ({ toRun := r2, programCloseType := env.CLOSE_WINDOW } : UpdateState) = s0
  have e0 : s0.job.log = r2.job.log := by rw [← hs0]
  have e1 := App.updateCloseType_log env s0
  generalize App.updateCloseType env s0 = s1 at *
  have e2 := App.updateMissingOption_log (env.cl.getAll "package") s1
  generalize App.updateMissingOption (env.cl.getAll "package") s1 = s2 at *
  have e3 := App.updateCheckNames_log env (env.cl.getAll "package") s2
  generalize App.updateCheckNames env (env.cl.getAll "package") s2 = s3 at *
  have e4 := App.updateLookup_log env (env.cl.getAll "package") s3
  generalize App.updateLookup env (env.cl.getAll "package") s3 = s4 at *
  have h3 : LogWithin [JobEvent.newSubJob (5/100) "Detecting installed software"] r1.job
      s4.job := LogWithin.of_log_eq (by rw [e4, e3, e2, e1, e0]) h2
  have h4 := App.updatePlan_log env s4
  generalize App.updatePlan env s4 = s5 at *
  have h5 := App.updateProcess_log env s5
  generalize App.updateProcess env s5 = s6 at *
  have h6 := App.updateFinish_log s6
  exact h0.thenLog (h1.thenLog (h3.thenLog (h4.thenLog (h5.thenLog h6))))

theorem App.addPlanOne_log (env : Env) (installed : List PackageVersion)
    (pv : PackageVersion) (acc : Run × String × List InstallOperation × List PackageVersion) :
    (App.addPlanOne env installed pv acc).1.job.log = acc.1.job.log := by
  unfold App.addPlanOne
  dsimp only
  split_ifs <;> simp

theorem App.addPlanLoop_log (env : Env) (installed : List PackageVersion)
    (pvs : List PackageVersion) :
    ∀ acc, (App.addPlanLoop env installed pvs acc).1.job.log = acc.1.job.log := by
  induction pvs with
  | nil => intro acc; rfl
  | cons pv rest ih =>
    intro acc
    unfold App.addPlanLoop
    rw [ih]
    exact App.addPlanOne_log env installed pv acc

theorem App.addPlan_log (env : Env) (s : PlanState) :
    (App.addPlan env s).job.log = s.job.log := by
  unfold App.addPlan
  split
  · dsimp only
    show (App.addPlanLoop env _ _ _).1.job.log = _
    rw [App.addPlanLoop_log]
    dsimp only
    split <;> simp
  · rfl

theorem App.addProcess_log (env : Env) (s : PlanState) :
    LogWithin [JobEvent.newSubJob (9/10) "Installing"] s.job (App.addProcess env s).job := by
  unfold App.addProcess
  split
  · have h := App.runInstallOperations_log env (9/10) "Installing" s.ops env.CLOSE_WINDOW
      { s.toRun with job := s.job.polled }
    generalize App.runInstallOperations env (9/10) "Installing" s.ops env.CLOSE_WINDOW
      { s.toRun with job := s.job.polled } = p at *
    obtain ⟨X, hX, sX⟩ := h
    dsimp only
    split
    · exact ⟨X, by simpa using hX, sX⟩
    · exact ⟨X, hX, sX⟩
  · exact LogWithin.of_drop (by simp) (by simp)

theorem App.addFinish_log (env : Env) (s : PlanState) :
    LogWithin [JobEvent.complete] s.job (App.addFinish env s).job := by
  unfold App.addFinish
  dsimp only
  split <;> exact LogWithin.of_drop (by simp) (by simp)

/-- The progress calls that `add` can make, in order. -/
theorem App.add_log (env : Env) :
    LogWithin
      [JobEvent.newSubJob (1/100) "Reading list of installed packages from the registry",
        JobEvent.completeWithProgress (1/100),
        JobEvent.newSubJob (9/100) "Detecting installed software",
        JobEvent.newSubJob (9/10) "Installing", JobEvent.complete]
      (Job.create env.cancelAt) (App.add env).job := by
  unfold App.add App.addBeforeFinish
  dsimp only
  generalize hj0 : (Job.create env.cancelAt).setTitle _ = j0
  have h0 : LogWithin [] (Job.create env.cancelAt) j0 := by
    rw [← hj0]; exact LogWithin.of_drop (by simp) (by simp)
  have h1 := App.readRegistry_log env (1/100) { job := j0 }
  generalize App.readRegistry env (1/100) { job := j0 } = r1 at *
  have h2 := App.detectInstalled_log env (9/100) r1
  generalize App.detectInstalled env (9/100) r1 = r2 at *
  generalize hr3 : (if (env.getPackageVersionOptions true).2 ≠ "" then
    ({ r2 with job := r2.job.setErrorMessage (env.getPackageVersionOptions true).2 } : Run)
    else r2) = r3
  have e3 : r3.job.log = r2.job.log := by
    rw [← hr3]; split <;> simp
  generalize hs0 :
    (⟨r3, env.CLOSE_WINDOW, (env.getPackageVersionOptions true).1, []⟩ : PlanState) = s0
  have e0 : s0.job.log = r3.job.log := by rw [← hs0]
  have e1 := App.addPlan_log env s0
  generalize App.addPlan env s0 = s1 at *
  have h3 : LogWithin [JobEvent.newSubJob (9/100) "Detecting installed software"] r1.job
      s1.job := LogWithin.of_log_eq (by rw [e1, e0, e3]) h2
  have h4 := App.addProcess_log env s1
  generalize App.addProcess env s1 = s2 at *
  have h5 := App.addFinish_log env s2
  exact h0.thenLog (h1.thenLog (h3.thenLog (h4.thenLog h5)))

theorem App.removeCloseType_log (env : Env) (r : Run) :
    (App.removeCloseType env r).1.job.log = r.job.log := by
  unfold App.removeCloseType
  split
  · dsimp only
    split <;> simp
  · rfl

theorem App.removePlanLoop_log (env : Env) (installed : List PackageVersion)
    (pvs : List PackageVersion) :
    ∀ acc : Run × List InstallOperation,
      (App.removePlanLoop env installed pvs acc).1.job.log = acc.1.job.log := by
  induction pvs with
  | nil => intro acc; rfl
  | cons pv rest ih =>
    intro acc
    obtain ⟨r, ops⟩ := acc
    unfold App.removePlanLoop
    dsimp only
    split
    · simp
    · rw [ih]

theorem App.removePlan_log (env : Env) (s : PlanState) :
    (App.removePlan env s).job.log = s.job.log := by
  unfold App.removePlan
  split
  · dsimp only
    split_ifs <;> simp [App.removePlanLoop_log]
  · rfl

theorem App.removeProcess_log (env : Env) (s : PlanState) :
    LogWithin [JobEvent.newSubJob (9/10) "Removing"] s.job (App.removeProcess env s).job := by
  unfold App.removeProcess
  split
  · have h := App.runInstallOperations_log env (9/10) "Removing" s.ops s.programCloseType
      { s.toRun with job := s.job.polled }
    generalize App.runInstallOperations env (9/10) "Removing" s.ops s.programCloseType
      { s.toRun with job := s.job.polled } = p at *
    obtain ⟨X, hX, sX⟩ := h
    dsimp only
    split
    · exact ⟨X, by simpa using hX, sX⟩
    · exact ⟨X, hX, sX⟩
  · exact LogWithin.of_drop (by simp) (by simp)

theorem App.removeFinish_log (s : PlanState) :
    LogWithin [JobEvent.complete] s.job (App.removeFinish s).job := by
  unfold App.removeFinish
  dsimp only
  split
  · exact LogWithin.of_drop (by simp) (by simp)
  · split <;> exact LogWithin.of_drop (by simp) (by simp)

/-- The progress calls that `remove` can make, in order. -/
theorem App.remove_log (env : Env) :
    LogWithin
      [JobEvent.newSubJob (1/100) "Reading list of installed packages from the registry",
        JobEvent.completeWithProgress (1/100),
        JobEvent.newSubJob (9/100) "Detecting installed software",
        JobEvent.newSubJob (9/10) "Removing", JobEvent.complete]
      (Job.create env.cancelAt) (App.remove env).job := by
  unfold App.remove App.removeBeforeFinish
  dsimp only
  generalize hj0 : (Job.create env.cancelAt).setTitle _ = j0
  have h0 : LogWithin [] (Job.create env.cancelAt) j0 := by
    rw [← hj0]; exact LogWithin.of_drop (by simp) (by simp)
  have h1 := App.readRegistry_log env (1/100) { job := j0 }
  generalize App.readRegistry env (1/100) { job := j0 } = r1 at *
  have h2 := App.detectInstalled_log env (9/100) r1
  generalize App.detectInstalled env (9/100) r1 = r2 at *
  have e2 := App.removeCloseType_log env r2
  generalize App.removeCloseType env r2 = c at *
  generalize hr3 : (if (env.getPackageVersionOptions false).2 ≠ "" then
    ({ c.1 with job := c.1.job.setErrorMessage (env.getPackageVersionOptions false).2 } : Run)
    else c.1) = r3
  have e3 : r3.job.log = c.1.job.log := by
    rw [← hr3]; split <;> simp
  generalize hs0 :
    (⟨r3, c.2, (env.getPackageVersionOptions false).1, []⟩ : PlanState) = s0
  have e0 : s0.job.log = r3.job.log := by rw [← hs0]
  have e1 := App.removePlan_log env s0
  generalize App.removePlan env s0 = s1 at *
  have h3 : LogWithin [JobEvent.newSubJob (9/100) "Detecting installed software"] r1.job
      s1.job := LogWithin.of_log_eq (by rw [e1, e0, e3, e2]) h2
  have h4 := App.removeProcess_log env s1
  generalize App.removeProcess env s1 = s2 at *
  have h5 := App.removeFinish_log s2
  exact h0.thenLog (h1.thenLog (h3.thenLog (h4.thenLog h5)))

/-- A list of calls that passes the test, with sub-job weights that are not negative and
sum to at most 1, is in order, and so is every job log made of some of its calls. -/
theorem ProgressOk.of_full {full : List JobEvent} {j j' : Job} (h : LogWithin full j j')
    (hw : ∀ e ∈ full, 0 ≤ e.weight) (h1 : JobEvent.subJobWeights full ≤ 1)
    (h2 : JobEvent.checkFrom 0 full = true) :
    ∃ X, j'.log = j.log ++ X ∧ ProgressOk X := by
  obtain ⟨X, hX, sX⟩ := h
  exact ⟨X, hX, ProgressOk.of_sublist sX hw (ProgressOk.of_check full h1 h2)⟩

theorem ProgressOk.of_created {full : List JobEvent} {c : Option Nat} {j' : Job}
    (h : LogWithin full (Job.create c) j') (hw : ∀ e ∈ full, 0 ≤ e.weight)
    (h1 : JobEvent.subJobWeights full ≤ 1) (h2 : JobEvent.checkFrom 0 full = true) :
    ProgressOk j'.log := by
  obtain ⟨X, hX, hok⟩ := ProgressOk.of_full h hw h1 h2
  rw [hX]
  simpa [Job.create] using hok

/-- Claim C21.  In each of `check`, `list`, `search`, `update`, `add` and `remove`, and
in `processInstallOperations` on the job handed in (the self-update path included), the
progress calls made directly on the job are in order: the weights of the sub-jobs
created sum, as rational numbers, to at most 1; every `setProgress(p)` has `0 <= p <= 1`,
`p` at least the sum of the weights of the sub-jobs created before it, and `p` plus the
weights of the sub-jobs created after it at most 1.  A self-update without failure makes
all seven calls of its path. -/
theorem C21_progress_requests_in_order (env : Env) :
    ProgressOk (App.check env).job.log ∧ ProgressOk (App.list env).job.log ∧
    ProgressOk (App.search env).job.log ∧ ProgressOk (App.update env).job.log ∧
    ProgressOk (App.add env).job.log ∧ ProgressOk (App.remove env).job.log ∧
    (∀ ops pct r, ∃ X,
      (App.processInstallOperations env ops pct r).job.log = r.job.log ++ X ∧ ProgressOk X) ∧
    (App.processInstallOperations Example.selfUpdate [] 0 { job := Job.create none }).job.log =
      [JobEvent.newSubJob (8/10) "Copying the executable",
        JobEvent.completeWithProgress (8/10), JobEvent.setProgress (9/10),
        JobEvent.newSubJob (1/10) "Starting the copied binary",
        JobEvent.completeWithProgress (1/10), JobEvent.setProgress 1, JobEvent.complete] := by
  refine ⟨?_, ?_, ?_, ?_, ?_, ?_, ?_, ?_⟩
  · refine ProgressOk.of_created (App.check_log env) ?_ ?_ ?_
    · norm_num [JobEvent.weight]
    · simp [JobEvent.subJobWeights, JobEvent.weight]; norm_num
    · simp [JobEvent.checkFrom, JobEvent.subJobWeights, JobEvent.weight]; norm_num
  · refine ProgressOk.of_created (App.list_log env) ?_ ?_ ?_
    · norm_num [JobEvent.weight]
    · simp [JobEvent.subJobWeights, JobEvent.weight]; norm_num
    · simp [JobEvent.checkFrom, JobEvent.subJobWeights, JobEvent.weight]; norm_num
  · refine ProgressOk.of_created (App.search_log env) ?_ ?_ ?_
    · norm_num [JobEvent.weight]
    · simp [JobEvent.subJobWeights, JobEvent.weight]; norm_num
    · simp [JobEvent.checkFrom, JobEvent.subJobWeights, JobEvent.weight]; norm_num
  · refine ProgressOk.of_created (App.update_log env) ?_ ?_ ?_
    · norm_num [JobEvent.weight]
    · simp [JobEvent.subJobWeights, JobEvent.weight]; norm_num
    · simp [JobEvent.checkFrom, JobEvent.subJobWeights, JobEvent.weight]; norm_num
  · refine ProgressOk.of_created (App.add_log env) ?_ ?_ ?_
    · norm_num [JobEvent.weight]
    · simp [JobEvent.subJobWeights, JobEvent.weight]; norm_num
    · simp [JobEvent.checkFrom, JobEvent.subJobWeights, JobEvent.weight]
  · refine ProgressOk.of_created (App.remove_log env) ?_ ?_ ?_
    · norm_num [JobEvent.weight]
    · simp [JobEvent.subJobWeights, JobEvent.weight]; norm_num
    · simp [JobEvent.checkFrom, JobEvent.subJobWeights, JobEvent.weight]
  · intro ops pct r
    refine ProgressOk.of_full (App.processInstallOperations_log env ops pct r) ?_ ?_ ?_
    · norm_num [JobEvent.weight]
    · simp [JobEvent.subJobWeights, JobEvent.weight]; norm_num
    · simp [JobEvent.checkFrom, JobEvent.subJobWeights, JobEvent.weight]; norm_num
  · rfl

/-! ## Claim C11: the search is made -/

/-- An absent status, `all` and `installed` leave a job that goes on without an error
message, and `onlyInstalled` is true exactly for `installed`. -/
theorem App.searchStatus_valid (env : Env) (r : Run) (hp : r.job.shouldProceed = true)
    (hs : env.cl.get "status" = none ∨ env.cl.get "status" = some "all" ∨
      env.cl.get "status" = some "installed") :
    (App.searchStatus env r).1 = { r with job := r.job.polled } ∧
    (App.searchStatus env r).2 = decide (env.cl.get "status" = some "installed") := by
  unfold App.searchStatus
  rw [if_pos hp]
  rcases hs with hs | hs | hs
  · rw [hs]; exact ⟨rfl, by simp⟩
  · rw [hs]; exact ⟨rfl, by simp⟩
  · rw [hs]; exact ⟨rfl, by simp⟩

/-- A job that goes on makes the call `findPackages` with the arguments handed over. -/
theorem App.searchFind_of_proceeds (env : Env) (b : Bool) (q : Option String) (r : Run)
    (hp : r.job.shouldProceed = true) :
    (App.searchFind env b q r).1.calls = r.calls ++ [Event.findPackages b q] ∧
    (App.searchFind env b q r).2 = (env.findPackages b q).1 := by
  unfold App.searchFind
  rw [if_pos hp]
  dsimp only
  split <;> exact ⟨rfl, rfl⟩

/-- With a job that is never cancelled and a registry that is read without error, `search`
with an absent status, `all` or `installed` calls `findPackages` with `onlyInstalled`
true exactly for `installed`, and with the query of the command line. -/
theorem App.search_searches (env : Env) (hc : env.cancelAt = none)
    (hreg : env.readRegistryDatabase = "")
    (hs : env.cl.get "status" = none ∨ env.cl.get "status" = some "all" ∨
      env.cl.get "status" = some "installed") :
    ∃ rest, (App.search env).calls =
      [Event.readRegistryDatabase "",
        Event.findPackages (decide (env.cl.get "status" = some "installed"))
          (env.cl.get "query")] ++ rest := by
  rw [App.search_eq]
  dsimp only
  unfold App.searchAfterStatus
  dsimp only
  generalize hj0 : (Job.create env.cancelAt).setTitle "Searching for packages" = j0
  have hj0e : j0.errorMessage = "" := by rw [← hj0]; rfl
  have hj0c : j0.cancelAt = none := by rw [← hj0]; exact hc
  have hp0 : j0.shouldProceed = true := by
    rw [Job.shouldProceed_of_never_cancelled _ hj0c]; simp [hj0e]
  obtain ⟨h1, h2⟩ := App.searchStatus_valid env { job := j0 } hp0 hs
  rw [h1, h2]
  have hp1 : ({ job := j0.polled } : Run).job.shouldProceed = true := by
    show j0.polled.shouldProceed = true
    rw [Job.shouldProceed_of_never_cancelled j0.polled hj0c]; simp [hj0e]
  have hc2 := App.readRegistry_calls env (96/100) { job := j0.polled }
  rw [if_pos hp1, hreg] at hc2
  have he2 := App.readRegistry_errorMessage env (96/100) { job := j0.polled }
  rw [if_pos hp1, hreg] at he2
  have hca2 := App.readRegistry_cancelAt env (96/100) { job := j0.polled }
  generalize App.readRegistry env (96/100) { job := j0.polled } = r2 at *
  have hp2 : r2.job.shouldProceed = true := by
    rw [Job.shouldProceed_of_never_cancelled _ (hca2.trans hj0c)]; simp [he2]
  have hf := (App.searchFind_of_proceeds env
    (decide (env.cl.get "status" = some "installed")) (env.cl.get "query") r2 hp2).1
  generalize App.searchFind env (decide (env.cl.get "status" = some "installed"))
    (env.cl.get "query") r2 = f at *
  obtain ⟨hg, _, _⟩ := App.searchFetch_spec env f.2 f.1
  generalize App.searchFetch env f.2 f.1 = g at *
  have h5 := (App.searchPrint_spec env (env.cl.isPresent "bare-format") g.2 g.1).1
  show ∃ rest, (App.searchPrint env (env.cl.isPresent "bare-format") g.2 g.1).calls = _
  rw [h5]
  rcases hg with hg | ⟨_, hg⟩
  · exact ⟨[], by rw [hg, hf, hc2]; simp⟩
  · exact ⟨[Event.fetchPackages f.2], by rw [hg, hf, hc2]; simp⟩

/-- Claim C11.  In `App::search` every repository search is made with a status that is
absent, `all` or `installed`, and `findPackages` gets `onlyInstalled = true` exactly for
`installed` (so an absent status and `all` both search with `onlyInstalled = false`);
any other status `s` makes no repository search and, unless the job is cancelled before
its first poll, the command returns "Wrong status: s".  And the search is made: with a
job that is never cancelled and a registry that is read without error, an absent status
and `all` call `findPackages` with `onlyInstalled = false`, and `installed` calls it with
`onlyInstalled = true`, each with the query of the command line, right after the
registry was read. -/
theorem C11_search_status (env : Env) :
    (∀ e ∈ (App.search env).calls, e.isSearch = true →
      (env.cl.get "status" = none ∨ env.cl.get "status" = some "all" ∨
        env.cl.get "status" = some "installed") ∧
      ∀ b q, e = Event.findPackages b q →
        b = decide (env.cl.get "status" = some "installed")) ∧
    (∀ s, env.cl.get "status" = some s → s ≠ "all" → s ≠ "installed" →
      (∀ e ∈ (App.search env).calls, e.isSearch = false) ∧
      (env.cancelAt ≠ some 0 → (App.search env).err = "Wrong status: " ++ s)) ∧
    (env.cancelAt = none → env.readRegistryDatabase = "" →
      ((env.cl.get "status" = none ∨ env.cl.get "status" = some "all") →
        ∃ rest, (App.search env).calls =
          [Event.readRegistryDatabase "", Event.findPackages false (env.cl.get "query")] ++
            rest) ∧
      (env.cl.get "status" = some "installed" →
        ∃ rest, (App.search env).calls =
          [Event.readRegistryDatabase "", Event.findPackages true (env.cl.get "query")] ++
            rest)) := by
  refine ⟨(App.search_status_sound env).1, (App.search_status_sound env).2, ?_⟩
  intro hc hreg
  constructor
  · intro hs
    have h := App.search_searches env hc hreg (hs.elim Or.inl fun h => Or.inr (Or.inl h))
    have hd : decide (env.cl.get "status" = some "installed") = false := by
      rcases hs with hs | hs <;> simp [hs]
    rw [hd] at h
    exact h
  · intro hs
    have h := App.search_searches env hc hreg (Or.inr (Or.inr hs))
    have hd : decide (env.cl.get "status" = some "installed") = true := by simp [hs]
    rw [hd] at h
    exact h

/-- Claim C11 at work: the searches made without `--status`, with `--status=all` and with
`--status=installed --query=editor`, and the failure of `--status=new`. -/
theorem C11_search_status_witness :
    (∃ rest, (App.search {}).calls =
      [Event.readRegistryDatabase "", Event.findPackages false none] ++ rest) ∧
    (∃ rest, (App.search { cl := Example.statusAll }).calls =
      [Event.readRegistryDatabase "", Event.findPackages false none] ++ rest) ∧
    (∃ rest, (App.search Example.searchInstalled).calls =
      [Event.readRegistryDatabase "", Event.findPackages true (some "editor")] ++ rest) ∧
    (App.search Example.searchInstalled).out =
      ["%1 packages found:\n\n<1>", "Editor (com.example.Editor)\n"] ∧
    (∀ e ∈ (App.search Example.searchWrongStatus).calls, e.isSearch = false) ∧
    (App.search Example.searchWrongStatus).err = "Wrong status: new" :=
  ⟨((C11_search_status {}).2.2 rfl rfl).1 (Or.inl rfl),
    ((C11_search_status { cl := Example.statusAll }).2.2 rfl rfl).1 (Or.inr rfl),
    ((C11_search_status Example.searchInstalled).2.2 rfl rfl).2 rfl,
    by decide,
    ((C11_search_status Example.searchWrongStatus).2.1 "new" rfl (by decide) (by decide)).1,
    ((C11_search_status Example.searchWrongStatus).2.1 "new" rfl (by decide) (by decide)).2
      (by decide)⟩

end Npackd
